import Mathlib

/-!
# refload: delimited reference-file loader

A shallow embedding of `refload.go` (package `refload`) and a verification of
its natural-language specification.

Go strings and file contents are byte sequences; they are modelled as lists of
natural numbers (well-formed bytes are below 256).  The reflection API is
modelled by an explicit description of Go types (`GoType`) and values
(`Value`).
-/

namespace Refload

/-- A Go string or byte slice, as its sequence of bytes. -/
abbrev Bytes := List Nat

/-- The target architecture fixes the width of the Go types int and uint. -/
inductive Arch where
  | bits32
  | bits64
  deriving DecidableEq, Repr

/-- The number of bits of the platform-default integer types. -/
def Arch.intBits : Arch → Nat
  | .bits32 => 32
  | .bits64 => 64

/-- Go types as seen through the reflection API: the basic kinds the converter
switches on, two basic kinds it does not support, and slices, structs (ordered
field types) and pointers.  A struct type whose fields are all exported is
`struct`; `structRO fields ro` is a struct type with fields that are not
exported: field `i` is not exported, and cannot be set through reflection,
when `ro[i]` is true. -/
inductive GoType where
  | int | int8 | int16 | int32 | int64
  | uint | uint8 | uint16 | uint32 | uint64
  | string
  | bool
  | float32
  | float64
  | slice (elem : GoType)
  | struct (fields : List GoType)
  | structRO (fields : List GoType) (ro : List Bool)
  | ptr (elem : GoType)
  deriving Repr

/-- Go values.  Integers carry their mathematical value; a float carries its
bit pattern; a nil slice and an empty slice are both a slice without elements;
a pointer that is not nil carries the value of the variable it points to. -/
inductive Value where
  | int (v : Int)
  | uint (v : Nat)
  | str (s : Bytes)
  | bool (b : Bool)
  | float (bits : Nat)
  | slice (elems : List Value)
  | struct (fields : List Value)
  | nilPtr
  | ptr (target : Value)
  deriving Repr

mutual
/-- Decides the equality of two values of GoType. -/
def GoType.decEq : (x y : GoType) → Decidable (x = y)
  | .int, .int => isTrue rfl
  | .int, .int8 => isFalse GoType.noConfusion
  | .int, .int16 => isFalse GoType.noConfusion
  | .int, .int32 => isFalse GoType.noConfusion
  | .int, .int64 => isFalse GoType.noConfusion
  | .int, .uint => isFalse GoType.noConfusion
  | .int, .uint8 => isFalse GoType.noConfusion
  | .int, .uint16 => isFalse GoType.noConfusion
  | .int, .uint32 => isFalse GoType.noConfusion
  | .int, .uint64 => isFalse GoType.noConfusion
  | .int, .string => isFalse GoType.noConfusion
  | .int, .bool => isFalse GoType.noConfusion
  | .int, .float32 => isFalse GoType.noConfusion
  | .int, .float64 => isFalse GoType.noConfusion
  | .int, .slice _ => isFalse GoType.noConfusion
  | .int, .struct _ => isFalse GoType.noConfusion
  | .int, .structRO _ _ => isFalse GoType.noConfusion
  | .int, .ptr _ => isFalse GoType.noConfusion
  | .int8, .int => isFalse GoType.noConfusion
  | .int8, .int8 => isTrue rfl
  | .int8, .int16 => isFalse GoType.noConfusion
  | .int8, .int32 => isFalse GoType.noConfusion
  | .int8, .int64 => isFalse GoType.noConfusion
  | .int8, .uint => isFalse GoType.noConfusion
  | .int8, .uint8 => isFalse GoType.noConfusion
  | .int8, .uint16 => isFalse GoType.noConfusion
  | .int8, .uint32 => isFalse GoType.noConfusion
  | .int8, .uint64 => isFalse GoType.noConfusion
  | .int8, .string => isFalse GoType.noConfusion
  | .int8, .bool => isFalse GoType.noConfusion
  | .int8, .float32 => isFalse GoType.noConfusion
  | .int8, .float64 => isFalse GoType.noConfusion
  | .int8, .slice _ => isFalse GoType.noConfusion
  | .int8, .struct _ => isFalse GoType.noConfusion
  | .int8, .structRO _ _ => isFalse GoType.noConfusion
  | .int8, .ptr _ => isFalse GoType.noConfusion
  | .int16, .int => isFalse GoType.noConfusion
  | .int16, .int8 => isFalse GoType.noConfusion
  | .int16, .int16 => isTrue rfl
  | .int16, .int32 => isFalse GoType.noConfusion
  | .int16, .int64 => isFalse GoType.noConfusion
  | .int16, .uint => isFalse GoType.noConfusion
  | .int16, .uint8 => isFalse GoType.noConfusion
  | .int16, .uint16 => isFalse GoType.noConfusion
  | .int16, .uint32 => isFalse GoType.noConfusion
  | .int16, .uint64 => isFalse GoType.noConfusion
  | .int16, .string => isFalse GoType.noConfusion
  | .int16, .bool => isFalse GoType.noConfusion
  | .int16, .float32 => isFalse GoType.noConfusion
  | .int16, .float64 => isFalse GoType.noConfusion
  | .int16, .slice _ => isFalse GoType.noConfusion
  | .int16, .struct _ => isFalse GoType.noConfusion
  | .int16, .structRO _ _ => isFalse GoType.noConfusion
  | .int16, .ptr _ => isFalse GoType.noConfusion
  | .int32, .int => isFalse GoType.noConfusion
  | .int32, .int8 => isFalse GoType.noConfusion
  | .int32, .int16 => isFalse GoType.noConfusion
  | .int32, .int32 => isTrue rfl
  | .int32, .int64 => isFalse GoType.noConfusion
  | .int32, .uint => isFalse GoType.noConfusion
  | .int32, .uint8 => isFalse GoType.noConfusion
  | .int32, .uint16 => isFalse GoType.noConfusion
  | .int32, .uint32 => isFalse GoType.noConfusion
  | .int32, .uint64 => isFalse GoType.noConfusion
  | .int32, .string => isFalse GoType.noConfusion
  | .int32, .bool => isFalse GoType.noConfusion
  | .int32, .float32 => isFalse GoType.noConfusion
  | .int32, .float64 => isFalse GoType.noConfusion
  | .int32, .slice _ => isFalse GoType.noConfusion
  | .int32, .struct _ => isFalse GoType.noConfusion
  | .int32, .structRO _ _ => isFalse GoType.noConfusion
  | .int32, .ptr _ => isFalse GoType.noConfusion
  | .int64, .int => isFalse GoType.noConfusion
  | .int64, .int8 => isFalse GoType.noConfusion
  | .int64, .int16 => isFalse GoType.noConfusion
  | .int64, .int32 => isFalse GoType.noConfusion
  | .int64, .int64 => isTrue rfl
  | .int64, .uint => isFalse GoType.noConfusion
  | .int64, .uint8 => isFalse GoType.noConfusion
  | .int64, .uint16 => isFalse GoType.noConfusion
  | .int64, .uint32 => isFalse GoType.noConfusion
  | .int64, .uint64 => isFalse GoType.noConfusion
  | .int64, .string => isFalse GoType.noConfusion
  | .int64, .bool => isFalse GoType.noConfusion
  | .int64, .float32 => isFalse GoType.noConfusion
  | .int64, .float64 => isFalse GoType.noConfusion
  | .int64, .slice _ => isFalse GoType.noConfusion
  | .int64, .struct _ => isFalse GoType.noConfusion
  | .int64, .structRO _ _ => isFalse GoType.noConfusion
  | .int64, .ptr _ => isFalse GoType.noConfusion
  | .uint, .int => isFalse GoType.noConfusion
  | .uint, .int8 => isFalse GoType.noConfusion
  | .uint, .int16 => isFalse GoType.noConfusion
  | .uint, .int32 => isFalse GoType.noConfusion
  | .uint, .int64 => isFalse GoType.noConfusion
  | .uint, .uint => isTrue rfl
  | .uint, .uint8 => isFalse GoType.noConfusion
  | .uint, .uint16 => isFalse GoType.noConfusion
  | .uint, .uint32 => isFalse GoType.noConfusion
  | .uint, .uint64 => isFalse GoType.noConfusion
  | .uint, .string => isFalse GoType.noConfusion
  | .uint, .bool => isFalse GoType.noConfusion
  | .uint, .float32 => isFalse GoType.noConfusion
  | .uint, .float64 => isFalse GoType.noConfusion
  | .uint, .slice _ => isFalse GoType.noConfusion
  | .uint, .struct _ => isFalse GoType.noConfusion
  | .uint, .structRO _ _ => isFalse GoType.noConfusion
  | .uint, .ptr _ => isFalse GoType.noConfusion
  | .uint8, .int => isFalse GoType.noConfusion
  | .uint8, .int8 => isFalse GoType.noConfusion
  | .uint8, .int16 => isFalse GoType.noConfusion
  | .uint8, .int32 => isFalse GoType.noConfusion
  | .uint8, .int64 => isFalse GoType.noConfusion
  | .uint8, .uint => isFalse GoType.noConfusion
  | .uint8, .uint8 => isTrue rfl
  | .uint8, .uint16 => isFalse GoType.noConfusion
  | .uint8, .uint32 => isFalse GoType.noConfusion
  | .uint8, .uint64 => isFalse GoType.noConfusion
  | .uint8, .string => isFalse GoType.noConfusion
  | .uint8, .bool => isFalse GoType.noConfusion
  | .uint8, .float32 => isFalse GoType.noConfusion
  | .uint8, .float64 => isFalse GoType.noConfusion
  | .uint8, .slice _ => isFalse GoType.noConfusion
  | .uint8, .struct _ => isFalse GoType.noConfusion
  | .uint8, .structRO _ _ => isFalse GoType.noConfusion
  | .uint8, .ptr _ => isFalse GoType.noConfusion
  | .uint16, .int => isFalse GoType.noConfusion
  | .uint16, .int8 => isFalse GoType.noConfusion
  | .uint16, .int16 => isFalse GoType.noConfusion
  | .uint16, .int32 => isFalse GoType.noConfusion
  | .uint16, .int64 => isFalse GoType.noConfusion
  | .uint16, .uint => isFalse GoType.noConfusion
  | .uint16, .uint8 => isFalse GoType.noConfusion
  | .uint16, .uint16 => isTrue rfl
  | .uint16, .uint32 => isFalse GoType.noConfusion
  | .uint16, .uint64 => isFalse GoType.noConfusion
  | .uint16, .string => isFalse GoType.noConfusion
  | .uint16, .bool => isFalse GoType.noConfusion
  | .uint16, .float32 => isFalse GoType.noConfusion
  | .uint16, .float64 => isFalse GoType.noConfusion
  | .uint16, .slice _ => isFalse GoType.noConfusion
  | .uint16, .struct _ => isFalse GoType.noConfusion
  | .uint16, .structRO _ _ => isFalse GoType.noConfusion
  | .uint16, .ptr _ => isFalse GoType.noConfusion
  | .uint32, .int => isFalse GoType.noConfusion
  | .uint32, .int8 => isFalse GoType.noConfusion
  | .uint32, .int16 => isFalse GoType.noConfusion
  | .uint32, .int32 => isFalse GoType.noConfusion
  | .uint32, .int64 => isFalse GoType.noConfusion
  | .uint32, .uint => isFalse GoType.noConfusion
  | .uint32, .uint8 => isFalse GoType.noConfusion
  | .uint32, .uint16 => isFalse GoType.noConfusion
  | .uint32, .uint32 => isTrue rfl
  | .uint32, .uint64 => isFalse GoType.noConfusion
  | .uint32, .string => isFalse GoType.noConfusion
  | .uint32, .bool => isFalse GoType.noConfusion
  | .uint32, .float32 => isFalse GoType.noConfusion
  | .uint32, .float64 => isFalse GoType.noConfusion
  | .uint32, .slice _ => isFalse GoType.noConfusion
  | .uint32, .struct _ => isFalse GoType.noConfusion
  | .uint32, .structRO _ _ => isFalse GoType.noConfusion
  | .uint32, .ptr _ => isFalse GoType.noConfusion
  | .uint64, .int => isFalse GoType.noConfusion
  | .uint64, .int8 => isFalse GoType.noConfusion
  | .uint64, .int16 => isFalse GoType.noConfusion
  | .uint64, .int32 => isFalse GoType.noConfusion
  | .uint64, .int64 => isFalse GoType.noConfusion
  | .uint64, .uint => isFalse GoType.noConfusion
  | .uint64, .uint8 => isFalse GoType.noConfusion
  | .uint64, .uint16 => isFalse GoType.noConfusion
  | .uint64, .uint32 => isFalse GoType.noConfusion
  | .uint64, .uint64 => isTrue rfl
  | .uint64, .string => isFalse GoType.noConfusion
  | .uint64, .bool => isFalse GoType.noConfusion
  | .uint64, .float32 => isFalse GoType.noConfusion
  | .uint64, .float64 => isFalse GoType.noConfusion
  | .uint64, .slice _ => isFalse GoType.noConfusion
  | .uint64, .struct _ => isFalse GoType.noConfusion
  | .uint64, .structRO _ _ => isFalse GoType.noConfusion
  | .uint64, .ptr _ => isFalse GoType.noConfusion
  | .string, .int => isFalse GoType.noConfusion
  | .string, .int8 => isFalse GoType.noConfusion
  | .string, .int16 => isFalse GoType.noConfusion
  | .string, .int32 => isFalse GoType.noConfusion
  | .string, .int64 => isFalse GoType.noConfusion
  | .string, .uint => isFalse GoType.noConfusion
  | .string, .uint8 => isFalse GoType.noConfusion
  | .string, .uint16 => isFalse GoType.noConfusion
  | .string, .uint32 => isFalse GoType.noConfusion
  | .string, .uint64 => isFalse GoType.noConfusion
  | .string, .string => isTrue rfl
  | .string, .bool => isFalse GoType.noConfusion
  | .string, .float32 => isFalse GoType.noConfusion
  | .string, .float64 => isFalse GoType.noConfusion
  | .string, .slice _ => isFalse GoType.noConfusion
  | .string, .struct _ => isFalse GoType.noConfusion
  | .string, .structRO _ _ => isFalse GoType.noConfusion
  | .string, .ptr _ => isFalse GoType.noConfusion
  | .bool, .int => isFalse GoType.noConfusion
  | .bool, .int8 => isFalse GoType.noConfusion
  | .bool, .int16 => isFalse GoType.noConfusion
  | .bool, .int32 => isFalse GoType.noConfusion
  | .bool, .int64 => isFalse GoType.noConfusion
  | .bool, .uint => isFalse GoType.noConfusion
  | .bool, .uint8 => isFalse GoType.noConfusion
  | .bool, .uint16 => isFalse GoType.noConfusion
  | .bool, .uint32 => isFalse GoType.noConfusion
  | .bool, .uint64 => isFalse GoType.noConfusion
  | .bool, .string => isFalse GoType.noConfusion
  | .bool, .bool => isTrue rfl
  | .bool, .float32 => isFalse GoType.noConfusion
  | .bool, .float64 => isFalse GoType.noConfusion
  | .bool, .slice _ => isFalse GoType.noConfusion
  | .bool, .struct _ => isFalse GoType.noConfusion
  | .bool, .structRO _ _ => isFalse GoType.noConfusion
  | .bool, .ptr _ => isFalse GoType.noConfusion
  | .float32, .int => isFalse GoType.noConfusion
  | .float32, .int8 => isFalse GoType.noConfusion
  | .float32, .int16 => isFalse GoType.noConfusion
  | .float32, .int32 => isFalse GoType.noConfusion
  | .float32, .int64 => isFalse GoType.noConfusion
  | .float32, .uint => isFalse GoType.noConfusion
  | .float32, .uint8 => isFalse GoType.noConfusion
  | .float32, .uint16 => isFalse GoType.noConfusion
  | .float32, .uint32 => isFalse GoType.noConfusion
  | .float32, .uint64 => isFalse GoType.noConfusion
  | .float32, .string => isFalse GoType.noConfusion
  | .float32, .bool => isFalse GoType.noConfusion
  | .float32, .float32 => isTrue rfl
  | .float32, .float64 => isFalse GoType.noConfusion
  | .float32, .slice _ => isFalse GoType.noConfusion
  | .float32, .struct _ => isFalse GoType.noConfusion
  | .float32, .structRO _ _ => isFalse GoType.noConfusion
  | .float32, .ptr _ => isFalse GoType.noConfusion
  | .float64, .int => isFalse GoType.noConfusion
  | .float64, .int8 => isFalse GoType.noConfusion
  | .float64, .int16 => isFalse GoType.noConfusion
  | .float64, .int32 => isFalse GoType.noConfusion
  | .float64, .int64 => isFalse GoType.noConfusion
  | .float64, .uint => isFalse GoType.noConfusion
  | .float64, .uint8 => isFalse GoType.noConfusion
  | .float64, .uint16 => isFalse GoType.noConfusion
  | .float64, .uint32 => isFalse GoType.noConfusion
  | .float64, .uint64 => isFalse GoType.noConfusion
  | .float64, .string => isFalse GoType.noConfusion
  | .float64, .bool => isFalse GoType.noConfusion
  | .float64, .float32 => isFalse GoType.noConfusion
  | .float64, .float64 => isTrue rfl
  | .float64, .slice _ => isFalse GoType.noConfusion
  | .float64, .struct _ => isFalse GoType.noConfusion
  | .float64, .structRO _ _ => isFalse GoType.noConfusion
  | .float64, .ptr _ => isFalse GoType.noConfusion
  | .slice _, .int => isFalse GoType.noConfusion
  | .slice _, .int8 => isFalse GoType.noConfusion
  | .slice _, .int16 => isFalse GoType.noConfusion
  | .slice _, .int32 => isFalse GoType.noConfusion
  | .slice _, .int64 => isFalse GoType.noConfusion
  | .slice _, .uint => isFalse GoType.noConfusion
  | .slice _, .uint8 => isFalse GoType.noConfusion
  | .slice _, .uint16 => isFalse GoType.noConfusion
  | .slice _, .uint32 => isFalse GoType.noConfusion
  | .slice _, .uint64 => isFalse GoType.noConfusion
  | .slice _, .string => isFalse GoType.noConfusion
  | .slice _, .bool => isFalse GoType.noConfusion
  | .slice _, .float32 => isFalse GoType.noConfusion
  | .slice _, .float64 => isFalse GoType.noConfusion
  | .slice x, .slice y =>
    match (GoType.decEq x y : Decidable (x = y)) with
    | isTrue h => isTrue (congrArg GoType.slice h)
    | isFalse h => isFalse (fun e => h (GoType.slice.inj e))
  | .slice _, .struct _ => isFalse GoType.noConfusion
  | .slice _, .structRO _ _ => isFalse GoType.noConfusion
  | .slice _, .ptr _ => isFalse GoType.noConfusion
  | .struct _, .int => isFalse GoType.noConfusion
  | .struct _, .int8 => isFalse GoType.noConfusion
  | .struct _, .int16 => isFalse GoType.noConfusion
  | .struct _, .int32 => isFalse GoType.noConfusion
  | .struct _, .int64 => isFalse GoType.noConfusion
  | .struct _, .uint => isFalse GoType.noConfusion
  | .struct _, .uint8 => isFalse GoType.noConfusion
  | .struct _, .uint16 => isFalse GoType.noConfusion
  | .struct _, .uint32 => isFalse GoType.noConfusion
  | .struct _, .uint64 => isFalse GoType.noConfusion
  | .struct _, .string => isFalse GoType.noConfusion
  | .struct _, .bool => isFalse GoType.noConfusion
  | .struct _, .float32 => isFalse GoType.noConfusion
  | .struct _, .float64 => isFalse GoType.noConfusion
  | .struct _, .slice _ => isFalse GoType.noConfusion
  | .struct x, .struct y =>
    match (GoType.decEqList x y : Decidable (x = y)) with
    | isTrue h => isTrue (congrArg GoType.struct h)
    | isFalse h => isFalse (fun e => h (GoType.struct.inj e))
  | .struct _, .structRO _ _ => isFalse GoType.noConfusion
  | .struct _, .ptr _ => isFalse GoType.noConfusion
  | .structRO _ _, .int => isFalse GoType.noConfusion
  | .structRO _ _, .int8 => isFalse GoType.noConfusion
  | .structRO _ _, .int16 => isFalse GoType.noConfusion
  | .structRO _ _, .int32 => isFalse GoType.noConfusion
  | .structRO _ _, .int64 => isFalse GoType.noConfusion
  | .structRO _ _, .uint => isFalse GoType.noConfusion
  | .structRO _ _, .uint8 => isFalse GoType.noConfusion
  | .structRO _ _, .uint16 => isFalse GoType.noConfusion
  | .structRO _ _, .uint32 => isFalse GoType.noConfusion
  | .structRO _ _, .uint64 => isFalse GoType.noConfusion
  | .structRO _ _, .string => isFalse GoType.noConfusion
  | .structRO _ _, .bool => isFalse GoType.noConfusion
  | .structRO _ _, .float32 => isFalse GoType.noConfusion
  | .structRO _ _, .float64 => isFalse GoType.noConfusion
  | .structRO _ _, .slice _ => isFalse GoType.noConfusion
  | .structRO _ _, .struct _ => isFalse GoType.noConfusion
  | .structRO x a, .structRO y b =>
    match (GoType.decEqList x y : Decidable (x = y)), (inferInstance : Decidable (a = b)) with
    | isTrue h, isTrue h2 => isTrue (by rw [h, h2])
    | isFalse h, _ => isFalse (fun e => h (GoType.structRO.inj e).1)
    | _, isFalse h2 => isFalse (fun e => h2 (GoType.structRO.inj e).2)
  | .structRO _ _, .ptr _ => isFalse GoType.noConfusion
  | .ptr _, .int => isFalse GoType.noConfusion
  | .ptr _, .int8 => isFalse GoType.noConfusion
  | .ptr _, .int16 => isFalse GoType.noConfusion
  | .ptr _, .int32 => isFalse GoType.noConfusion
  | .ptr _, .int64 => isFalse GoType.noConfusion
  | .ptr _, .uint => isFalse GoType.noConfusion
  | .ptr _, .uint8 => isFalse GoType.noConfusion
  | .ptr _, .uint16 => isFalse GoType.noConfusion
  | .ptr _, .uint32 => isFalse GoType.noConfusion
  | .ptr _, .uint64 => isFalse GoType.noConfusion
  | .ptr _, .string => isFalse GoType.noConfusion
  | .ptr _, .bool => isFalse GoType.noConfusion
  | .ptr _, .float32 => isFalse GoType.noConfusion
  | .ptr _, .float64 => isFalse GoType.noConfusion
  | .ptr _, .slice _ => isFalse GoType.noConfusion
  | .ptr _, .struct _ => isFalse GoType.noConfusion
  | .ptr _, .structRO _ _ => isFalse GoType.noConfusion
  | .ptr x, .ptr y =>
    match (GoType.decEq x y : Decidable (x = y)) with
    | isTrue h => isTrue (congrArg GoType.ptr h)
    | isFalse h => isFalse (fun e => h (GoType.ptr.inj e))
/-- Decides the equality of two lists of GoType. -/
def GoType.decEqList : (xs ys : List GoType) → Decidable (xs = ys)
  | [], [] => isTrue rfl
  | [], _ :: _ => isFalse List.noConfusion
  | _ :: _, [] => isFalse List.noConfusion
  | x :: xs, y :: ys =>
    match GoType.decEq x y, GoType.decEqList xs ys with
    | isTrue h, isTrue hs => isTrue (by rw [h, hs])
    | isFalse h, _ => isFalse (fun e => h (List.cons.inj e).1)
    | _, isFalse hs => isFalse (fun e => hs (List.cons.inj e).2)
end

instance : DecidableEq GoType := GoType.decEq

mutual
/-- Decides the equality of two values of Value. -/
def Value.decEq : (x y : Value) → Decidable (x = y)
  | .int x, .int y =>
    match (inferInstance : Decidable (x = y)) with
    | isTrue h => isTrue (congrArg Value.int h)
    | isFalse h => isFalse (fun e => h (Value.int.inj e))
  | .int _, .uint _ => isFalse Value.noConfusion
  | .int _, .str _ => isFalse Value.noConfusion
  | .int _, .bool _ => isFalse Value.noConfusion
  | .int _, .float _ => isFalse Value.noConfusion
  | .int _, .slice _ => isFalse Value.noConfusion
  | .int _, .struct _ => isFalse Value.noConfusion
  | .int _, .nilPtr => isFalse Value.noConfusion
  | .int _, .ptr _ => isFalse Value.noConfusion
  | .uint _, .int _ => isFalse Value.noConfusion
  | .uint x, .uint y =>
    match (inferInstance : Decidable (x = y)) with
    | isTrue h => isTrue (congrArg Value.uint h)
    | isFalse h => isFalse (fun e => h (Value.uint.inj e))
  | .uint _, .str _ => isFalse Value.noConfusion
  | .uint _, .bool _ => isFalse Value.noConfusion
  | .uint _, .float _ => isFalse Value.noConfusion
  | .uint _, .slice _ => isFalse Value.noConfusion
  | .uint _, .struct _ => isFalse Value.noConfusion
  | .uint _, .nilPtr => isFalse Value.noConfusion
  | .uint _, .ptr _ => isFalse Value.noConfusion
  | .str _, .int _ => isFalse Value.noConfusion
  | .str _, .uint _ => isFalse Value.noConfusion
  | .str x, .str y =>
    match (inferInstance : Decidable (x = y)) with
    | isTrue h => isTrue (congrArg Value.str h)
    | isFalse h => isFalse (fun e => h (Value.str.inj e))
  | .str _, .bool _ => isFalse Value.noConfusion
  | .str _, .float _ => isFalse Value.noConfusion
  | .str _, .slice _ => isFalse Value.noConfusion
  | .str _, .struct _ => isFalse Value.noConfusion
  | .str _, .nilPtr => isFalse Value.noConfusion
  | .str _, .ptr _ => isFalse Value.noConfusion
  | .bool _, .int _ => isFalse Value.noConfusion
  | .bool _, .uint _ => isFalse Value.noConfusion
  | .bool _, .str _ => isFalse Value.noConfusion
  | .bool x, .bool y =>
    match (inferInstance : Decidable (x = y)) with
    | isTrue h => isTrue (congrArg Value.bool h)
    | isFalse h => isFalse (fun e => h (Value.bool.inj e))
  | .bool _, .float _ => isFalse Value.noConfusion
  | .bool _, .slice _ => isFalse Value.noConfusion
  | .bool _, .struct _ => isFalse Value.noConfusion
  | .bool _, .nilPtr => isFalse Value.noConfusion
  | .bool _, .ptr _ => isFalse Value.noConfusion
  | .float _, .int _ => isFalse Value.noConfusion
  | .float _, .uint _ => isFalse Value.noConfusion
  | .float _, .str _ => isFalse Value.noConfusion
  | .float _, .bool _ => isFalse Value.noConfusion
  | .float x, .float y =>
    match (inferInstance : Decidable (x = y)) with
    | isTrue h => isTrue (congrArg Value.float h)
    | isFalse h => isFalse (fun e => h (Value.float.inj e))
  | .float _, .slice _ => isFalse Value.noConfusion
  | .float _, .struct _ => isFalse Value.noConfusion
  | .float _, .nilPtr => isFalse Value.noConfusion
  | .float _, .ptr _ => isFalse Value.noConfusion
  | .slice _, .int _ => isFalse Value.noConfusion
  | .slice _, .uint _ => isFalse Value.noConfusion
  | .slice _, .str _ => isFalse Value.noConfusion
  | .slice _, .bool _ => isFalse Value.noConfusion
  | .slice _, .float _ => isFalse Value.noConfusion
  | .slice x, .slice y =>
    match (Value.decEqList x y : Decidable (x = y)) with
    | isTrue h => isTrue (congrArg Value.slice h)
    | isFalse h => isFalse (fun e => h (Value.slice.inj e))
  | .slice _, .struct _ => isFalse Value.noConfusion
  | .slice _, .nilPtr => isFalse Value.noConfusion
  | .slice _, .ptr _ => isFalse Value.noConfusion
  | .struct _, .int _ => isFalse Value.noConfusion
  | .struct _, .uint _ => isFalse Value.noConfusion
  | .struct _, .str _ => isFalse Value.noConfusion
  | .struct _, .bool _ => isFalse Value.noConfusion
  | .struct _, .float _ => isFalse Value.noConfusion
  | .struct _, .slice _ => isFalse Value.noConfusion
  | .struct x, .struct y =>
    match (Value.decEqList x y : Decidable (x = y)) with
    | isTrue h => isTrue (congrArg Value.struct h)
    | isFalse h => isFalse (fun e => h (Value.struct.inj e))
  | .struct _, .nilPtr => isFalse Value.noConfusion
  | .struct _, .ptr _ => isFalse Value.noConfusion
  | .nilPtr, .int _ => isFalse Value.noConfusion
  | .nilPtr, .uint _ => isFalse Value.noConfusion
  | .nilPtr, .str _ => isFalse Value.noConfusion
  | .nilPtr, .bool _ => isFalse Value.noConfusion
  | .nilPtr, .float _ => isFalse Value.noConfusion
  | .nilPtr, .slice _ => isFalse Value.noConfusion
  | .nilPtr, .struct _ => isFalse Value.noConfusion
  | .nilPtr, .nilPtr => isTrue rfl
  | .nilPtr, .ptr _ => isFalse Value.noConfusion
  | .ptr _, .int _ => isFalse Value.noConfusion
  | .ptr _, .uint _ => isFalse Value.noConfusion
  | .ptr _, .str _ => isFalse Value.noConfusion
  | .ptr _, .bool _ => isFalse Value.noConfusion
  | .ptr _, .float _ => isFalse Value.noConfusion
  | .ptr _, .slice _ => isFalse Value.noConfusion
  | .ptr _, .struct _ => isFalse Value.noConfusion
  | .ptr _, .nilPtr => isFalse Value.noConfusion
  | .ptr x, .ptr y =>
    match (Value.decEq x y : Decidable (x = y)) with
    | isTrue h => isTrue (congrArg Value.ptr h)
    | isFalse h => isFalse (fun e => h (Value.ptr.inj e))
/-- Decides the equality of two lists of Value. -/
def Value.decEqList : (xs ys : List Value) → Decidable (xs = ys)
  | [], [] => isTrue rfl
  | [], _ :: _ => isFalse List.noConfusion
  | _ :: _, [] => isFalse List.noConfusion
  | x :: xs, y :: ys =>
    match Value.decEq x y, Value.decEqList xs ys with
    | isTrue h, isTrue hs => isTrue (by rw [h, hs])
    | isFalse h, _ => isFalse (fun e => h (List.cons.inj e).1)
    | _, isFalse hs => isFalse (fun e => hs (List.cons.inj e).2)
end

instance : DecidableEq Value := Value.decEq

deriving instance DecidableEq for Except

mutual
/-- The zero value of a type, as made by reflect.New(t).Elem() and by
reflect.MakeSlice for every element. -/
def zeroValue : GoType → Value
  | .int | .int8 | .int16 | .int32 | .int64 => .int 0
  | .uint | .uint8 | .uint16 | .uint32 | .uint64 => .uint 0
  | .string => .str []
  | .bool => .bool false
  | .float32 | .float64 => .float 0
  | .slice _ => .slice []
  | .struct fs => .struct (zeroValues fs)
  | .structRO fs _ => .struct (zeroValues fs)
  | .ptr _ => .nilPtr
/-- The zero values of a list of field types. -/
def zeroValues : List GoType → List Value
  | [] => []
  | t :: ts => zeroValue t :: zeroValues ts
end

/-! ## strconv.ParseUint and strconv.ParseInt (base 10, bit size 64) -/

/-- The two causes a strconv.NumError can carry. -/
inductive NumErrKind where
  | errSyntax
  | errRange
  deriving DecidableEq, Repr

/-- The strconv function that failed. -/
inductive ParseFn where
  | parseInt
  | parseUint
  | atoi
  deriving DecidableEq, Repr

/-- A strconv.NumError: the failing function, the input text and the cause. -/
structure NumError where
  fn : ParseFn
  num : Bytes
  err : NumErrKind
  deriving DecidableEq, Repr

/-- The largest uint64. -/
def maxUint64 : Nat := 18446744073709551615

/-- A uint64 result of an arithmetic operation: reduced modulo 2^64. -/
def wrapU64 (n : Nat) : Nat := n % 18446744073709551616

/-- Conversion of an integer to a signed type of `w` bits (two's complement). -/
def wrapSigned (w : Nat) (x : Int) : Int :=
  (x + 2 ^ (w - 1)) % 2 ^ w - 2 ^ (w - 1)

/-- Conversion of an unsigned 64-bit integer to an unsigned type of `w` bits. -/
def wrapUnsigned (w : Nat) (x : Nat) : Nat := x % 2 ^ w

/-- The digit loop of strconv.ParseUint for base 10 and bit size 64: `n` is the
value accumulated so far.  A byte that is not a decimal digit is a syntax
error (a letter is a digit not below the base, any other byte is no digit);
an overflow of `n * 10` or of `n + d` is a range error. -/
def parseUintLoop : Bytes → Nat → Except NumErrKind Nat
  | [], n => .ok n
  | c :: cs, n =>
    if 48 ≤ c ∧ c ≤ 57 then
      let d := c - 48
      if n ≥ maxUint64 / 10 + 1 then .error .errRange
      else
        let n10 := wrapU64 (n * 10)
        let n1 := wrapU64 (n10 + d)
        if n1 < n10 ∨ n1 > maxUint64 then .error .errRange
        else parseUintLoop cs n1
    else .error .errSyntax

/-- The call strconv.ParseUint(s, 10, 64): the value and the error returned. -/
def ParseUint (s : Bytes) : Nat × Option NumError :=
  if s = [] then (0, some ⟨.parseUint, s, .errSyntax⟩)
  else
    match parseUintLoop s 0 with
    | .ok n => (n, none)
    | .error .errSyntax => (0, some ⟨.parseUint, s, .errSyntax⟩)
    | .error .errRange => (maxUint64, some ⟨.parseUint, s, .errRange⟩)

/-- The range check at the end of strconv.ParseInt: `un` is the magnitude
ParseUint returned and `neg` tells whether the text has a minus sign. -/
def parseIntRange (s0 : Bytes) (neg : Bool) (un : Nat) : Int × Option NumError :=
  let cutoff : Nat := 9223372036854775808
  if neg = false ∧ un ≥ cutoff then
    (((cutoff - 1 : Nat) : Int), some ⟨.parseInt, s0, .errRange⟩)
  else if neg = true ∧ un > cutoff then
    (-(cutoff : Int), some ⟨.parseInt, s0, .errRange⟩)
  else
    let n := wrapSigned 64 (un : Int)
    (if neg then wrapSigned 64 (-n) else n, none)

/-- The part of strconv.ParseInt behind the call of ParseUint: an error that is
no range error is returned with the function and the text of ParseInt; the
magnitude is checked against the signed range otherwise. -/
def parseIntCheck (s0 : Bytes) (neg : Bool) (r : Nat × Option NumError) :
    Int × Option NumError :=
  match r.2 with
  | some e =>
    if e.err ≠ .errRange then (0, some { fn := .parseInt, num := s0, err := e.err })
    else parseIntRange s0 neg r.1
  | none => parseIntRange s0 neg r.1

/-- The call strconv.ParseInt(s, 10, 64): the value and the error returned.  A
leading plus or minus sign is picked off before the digits are parsed. -/
def ParseInt (s0 : Bytes) : Int × Option NumError :=
  match s0 with
  | [] => (0, some ⟨.parseInt, s0, .errSyntax⟩)
  | c :: r =>
    if c = 43 then parseIntCheck s0 false (ParseUint r)
    else if c = 45 then parseIntCheck s0 true (ParseUint r)
    else parseIntCheck s0 false (ParseUint s0)

/-! ## convString -/

/-- The errors of convString: an error of strconv, or the converter's own
error for a kind it does not support, which names the token and the type. -/
inductive ConvError where
  | num (e : NumError)
  | unsupported (s : Bytes) (t : GoType)
  deriving DecidableEq, Repr

/-- The width in bits of an integer type; 0 for every other type. -/
def GoType.bits (a : Arch) : GoType → Nat
  | .int | .uint => a.intBits
  | .int8 | .uint8 => 8
  | .int16 | .uint16 => 16
  | .int32 | .uint32 => 32
  | .int64 | .uint64 => 64
  | _ => 0

/-- The function convString(s, t): converts the token `s` to a value of type
`t`, switching on the kind of `t`. -/
def convString (a : Arch) (s : Bytes) (t : GoType) : Except ConvError Value :=
  match t with
  | .int | .int8 | .int16 | .int32 | .int64 =>
    let s := if s.length = 0 then [48] else s
    match ParseInt s with
    | (_, some err) => .error (.num err)
    | (i, none) => .ok (.int (wrapSigned (t.bits a) i))
  | .uint | .uint16 | .uint32 | .uint64 =>
    let s := if s.length = 0 then [48] else s
    match ParseUint s with
    | (_, some err) => .error (.num err)
    | (i, none) => .ok (.uint (wrapUnsigned (t.bits a) i))
  | .uint8 =>
    let s := if s.length = 0 then [0] else s
    match s with
    | b :: _ => .ok (.uint (wrapUnsigned 8 b))
    | [] => .ok (.uint 0)
  | .string => .ok (.str s)
  | _ => .error (.unsupported s t)

/-! ## The library functions on strings the loaders call -/

/-- The six ASCII white-space bytes: tab, newline, vertical tab, form feed,
carriage return and space. -/
def isAsciiSpace (c : Nat) : Bool :=
  c == 9 || c == 10 || c == 11 || c == 12 || c == 13 || c == 32

/-- The two-byte UTF-8 encodings of white space: U+0085 and U+00A0. -/
def isSpace2 (b0 b1 : Nat) : Bool :=
  b0 == 0xC2 && (b1 == 0x85 || b1 == 0xA0)

/-- The three-byte UTF-8 encodings of white space: U+1680, U+2000 to U+200A,
U+2028, U+2029, U+202F, U+205F and U+3000. -/
def isSpace3 (b0 b1 b2 : Nat) : Bool :=
  (b0 == 0xE1 && b1 == 0x9A && b2 == 0x80) ||
  (b0 == 0xE2 && b1 == 0x80 &&
    ((decide (0x80 ≤ b2) && decide (b2 ≤ 0x8A)) || b2 == 0xA8 || b2 == 0xA9 || b2 == 0xAF)) ||
  (b0 == 0xE2 && b1 == 0x81 && b2 == 0x9F) ||
  (b0 == 0xE3 && b1 == 0x80 && b2 == 0x80)

/-- Removal of the leading white-space runes (strings.TrimLeftFunc with
unicode.IsSpace): a rune decoded at the head is white space exactly when the
string starts with the encoding of a white-space code point. -/
def trimLeft : Bytes → Bytes
  | [] => []
  | b0 :: r1 =>
    if isAsciiSpace b0 then trimLeft r1
    else
      match r1 with
      | [] => [b0]
      | b1 :: r2 =>
        if isSpace2 b0 b1 then trimLeft r2
        else
          match r2 with
          | [] => [b0, b1]
          | b2 :: r3 =>
            if isSpace3 b0 b1 b2 then trimLeft r3
            else b0 :: b1 :: b2 :: r3

/-- Removal of the trailing white-space runes, on the reversed string: the
last rune is white space exactly when the string ends with the encoding of a
white-space code point. -/
def trimRightRev : Bytes → Bytes
  | [] => []
  | b2 :: r1 =>
    if isAsciiSpace b2 then trimRightRev r1
    else
      match r1 with
      | [] => [b2]
      | b1 :: r2 =>
        if isSpace2 b1 b2 then trimRightRev r2
        else
          match r2 with
          | [] => [b2, b1]
          | b0 :: r3 =>
            if isSpace3 b0 b1 b2 then trimRightRev r3
            else b2 :: b1 :: b0 :: r3

/-- Removal of the trailing white-space runes (strings.TrimRightFunc with
unicode.IsSpace). -/
def trimRight (s : Bytes) : Bytes := (trimRightRev s.reverse).reverse

/-- The function strings.TrimSpace: the string without its leading and trailing
Unicode white space. -/
def TrimSpace (s : Bytes) : Bytes := trimRight (trimLeft s)

/-- The byte length of the rune utf8.DecodeRuneInString decodes at the head of
a non-empty string: the length of a valid encoding, and 1 for a byte that
starts no valid encoding. -/
def runeLen : Bytes → Nat
  | [] => 0
  | b0 :: rest =>
    if b0 < 0xC2 then 1
    else if b0 < 0xE0 then
      match rest with
      | b1 :: _ => if 0x80 ≤ b1 ∧ b1 ≤ 0xBF then 2 else 1
      | [] => 1
    else if b0 < 0xF0 then
      let lo := if b0 = 0xE0 then 0xA0 else 0x80
      let hi := if b0 = 0xED then 0x9F else 0xBF
      match rest with
      | b1 :: b2 :: _ =>
        if lo ≤ b1 ∧ b1 ≤ hi ∧ 0x80 ≤ b2 ∧ b2 ≤ 0xBF then 3 else 1
      | _ => 1
    else if b0 < 0xF5 then
      let lo := if b0 = 0xF0 then 0x90 else 0x80
      let hi := if b0 = 0xF4 then 0x8F else 0xBF
      match rest with
      | b1 :: b2 :: b3 :: _ =>
        if lo ≤ b1 ∧ b1 ≤ hi ∧ 0x80 ≤ b2 ∧ b2 ≤ 0xBF ∧ 0x80 ≤ b3 ∧ b3 ≤ 0xBF then 4 else 1
      | _ => 1
    else 1

/-- The loop of strings.explode without a limit: one string per rune, an
invalid byte being a string of its own.  The first argument bounds the number
of runes. -/
def explodeLoop : Nat → Bytes → List Bytes
  | 0, _ => []
  | _, [] => []
  | n + 1, b :: bs =>
    (b :: bs).take (runeLen (b :: bs)) :: explodeLoop n ((b :: bs).drop (runeLen (b :: bs)))

/-- The function strings.Index: the position of the first occurrence of `sep`
in `s`. -/
def Index : Bytes → Bytes → Option Nat
  | [], sep => if sep = [] then some 0 else none
  | c :: cs, sep =>
    if sep.isPrefixOf (c :: cs) then some 0
    else (Index cs sep).map (· + 1)

/-- The loop of strings.genSplit for a non-empty separator: cut at the first
occurrence of `sep` and go on behind it, until `sep` occurs no more.  The first
argument bounds the number of cuts. -/
def splitLoop : Nat → Bytes → Bytes → List Bytes
  | 0, s, _ => [s]
  | n + 1, s, sep =>
    match Index s sep with
    | none => [s]
    | some m => s.take m :: splitLoop n (s.drop (m + sep.length)) sep

/-- The function strings.Split(s, sep): the substrings of `s` between the
occurrences of `sep`; with an empty separator, the runes of `s`. -/
def Split (s sep : Bytes) : List Bytes :=
  if sep = [] then explodeLoop s.length s
  else splitLoop s.length s sep

/-! ## Reading the file -/

/-- What a path names: nothing that can be opened; something that opens but
whose reads fail, such as a directory; or a file that opens and is read to its
end, with its content. -/
inductive FileState where
  | missing
  | unreadable
  | file (content : Bytes)
  deriving DecidableEq, Repr

/-- The file system: what every path names. -/
structure FileSystem where
  state : Bytes → FileState

/-- The content of the file a path names, for a path that opens and is read
without an error; `fs path` stands for it. -/
def FileSystem.content (fs : FileSystem) (path : Bytes) : Option Bytes :=
  match fs.state path with
  | .file content => some content
  | _ => none

instance : CoeFun FileSystem (fun _ => Bytes → Option Bytes) := ⟨FileSystem.content⟩

/-- The count of the function lineCounter on a file whose reads succeed: the
number of newline bytes of the file.  The error it returns when a read fails
is taken in the loaders, for a path that is `unreadable`. -/
def lineCounter (content : Bytes) : Nat := content.count 10

/-- The helper dropCR of bufio.ScanLines: drops one trailing carriage return. -/
def dropCR (data : Bytes) : Bytes :=
  if data.getLast? = some 13 then data.dropLast else data

/-- The lines of the file as cut at the newline bytes: every newline ends a
line, and bytes behind the last newline are a final line. -/
def rawLines : Bytes → List Bytes
  | [] => []
  | c :: cs =>
    if c = 10 then [] :: rawLines cs
    else
      match rawLines cs with
      | [] => [[c]]
      | l :: ls => (c :: l) :: ls

/-- The constant bufio.MaxScanTokenSize, 64 * 1024: the size up to which the
buffer of a bufio.Scanner grows. -/
def maxScanTokenSize : Nat := 65536

/-- The tokens a bufio.Scanner with the default split function bufio.ScanLines
yields on the file, in order.  A line has to stand in the buffer together with
the newline that ends it, or with room for the read that meets the end of the
file: at the first line of maxScanTokenSize bytes or more Scan returns false
(the error ErrTooLong, which the loaders never read) and no further line is
yielded. -/
def scanLines (content : Bytes) : List Bytes :=
  ((rawLines content).takeWhile (fun l => decide (l.length < maxScanTokenSize))).map dropCR

/-! ## LoadRefDat -/

/-- The errors a loader returns. -/
inductive LoadError where
  /-- The destination is not a pointer (of the given type). -/
  | nonPointer (t : GoType)
  /-- The destination points to a value of the given type, not to a slice. -/
  | nonSlice (t : GoType)
  /-- The error of os.Open for the path. -/
  | openFile (path : Bytes)
  /-- The error of a read of the opened file, as lineCounter returns it. -/
  | readFile (path : Bytes)
  /-- The error with the text
  "[line:%d] line seg num %d != struct field num %d". -/
  | fieldCount (line segs fields : Nat)
  /-- The error of convString, returned as it is. -/
  | conv (e : ConvError)
  /-- The error of LoadRefDatVarTail for a destination of the given type that
  is not a pointer. -/
  | notPointer (t : GoType)
  /-- The error of LoadRefDatVarTail for a pointer that does not point to a
  slice; it names the kind of what is pointed to, which is invalid (`none`)
  for a nil pointer. -/
  | notPointerToSlice (t : Option GoType)
  deriving DecidableEq, Repr

/-- The argument `s interface{}` of a loader: the nil interface, or a dynamic
type with a value of that type. -/
abbrev Arg := Option (GoType × Value)

/-- How a call of a loader ends: it returns a count and an error (no error is
`none`), or it panics.  Both carry the destination as the call leaves it. -/
inductive Outcome where
  | ret (n : Nat) (err : Option LoadError) (s : Arg)
  | panic (s : Arg)
  deriving DecidableEq, Repr

/-- How a loop over tokens ends: all fields set, a conversion error, or a
panic (an index out of range, or a field that cannot be set). -/
inductive FieldsResult where
  | done (elem : List Value)
  | fail (e : ConvError)
  | panic
  deriving DecidableEq, Repr

/-- The type is a struct type: NumField does not panic on it. -/
def GoType.isStruct : GoType → Bool
  | .struct _ => true
  | .structRO _ _ => true
  | _ => false

/-- The field types of a struct type; no fields for any other type. -/
def structFields : GoType → List GoType
  | .struct fs => fs
  | .structRO fs _ => fs
  | _ => []

/-- The marks of the fields of a struct type that are not exported; none for
a struct type whose fields are all exported. -/
def unexportedFields : GoType → List Bool
  | .structRO _ ro => ro
  | _ => []

/-- The fields of a struct value; no fields for any other value. -/
def fieldsOf : Value → List Value
  | .struct fs => fs
  | _ => []

/-- The loop `for i := lo; i < hi; i++` that converts token `i` to the type of
field `i` and sets field `i` of `elem`; `n` is the number of iterations left
and `i` the current index.  The call of Set panics on a field that is not
exported, which `ro` marks. -/
def convFieldsRO (a : Arch) (segs : List Bytes) (fieldTypes : List GoType) (ro : List Bool) :
    Nat → Nat → List Value → FieldsResult
  | 0, _, elem => .done elem
  | n + 1, i, elem =>
    match segs[i]?, fieldTypes[i]? with
    | some seg, some t =>
      match convString a (TrimSpace seg) t with
      | .error e => .fail e
      | .ok v =>
        if ro.getD i false then .panic
        else convFieldsRO a segs fieldTypes ro n (i + 1) (elem.set i v)
    | _, _ => .panic

/-- The loop over the fields for a struct type whose fields are all
exported. -/
def convFields (a : Arch) (segs : List Bytes) (fieldTypes : List GoType) (n i : Nat)
    (elem : List Value) : FieldsResult :=
  convFieldsRO a segs fieldTypes [] n i elem

/-- The variables of the scanning loop: the index of the next record, the
record being filled (one variable, reused for every line), and the slice the
destination points to. -/
structure LoopState where
  index : Nat
  elem : List Value
  dest : List Value
  deriving DecidableEq, Repr

/-- How the scanning loop ends. -/
inductive LoopResult where
  | ret (n : Nat) (err : Option LoadError) (dest : List Value)
  | panic (dest : List Value)
  deriving DecidableEq, Repr

/-- The scanning loop of LoadRefDat over the lines the scanner yields, and the
return behind it; `ro` marks the fields of the record type that are not
exported. -/
def loadLinesRO (a : Arch) (sep : Bytes) (fieldTypes : List GoType) (ro : List Bool)
    (linenum : Nat) : List Bytes → LoopState → LoopResult
  | [], st => .ret st.index none st.dest
  | line :: rest, st =>
    let trimline := TrimSpace line
    if trimline.length = 0 ∧ (st.index : Int) < (linenum : Int) - 1 then
      loadLinesRO a sep fieldTypes ro linenum rest st
    else
      let segs := Split trimline sep
      let numFields := fieldTypes.length
      if segs.length ≠ numFields then
        .ret (st.index + 1) (some (.fieldCount (st.index + 1) segs.length numFields)) st.dest
      else
        match convFieldsRO a segs fieldTypes ro numFields 0 st.elem with
        | .fail e => .ret (st.index + 1) (some (.conv e)) st.dest
        | .panic => .panic st.dest
        | .done elem =>
          if st.index < st.dest.length then
            loadLinesRO a sep fieldTypes ro linenum rest
              { index := st.index + 1, elem := elem,
                dest := st.dest.set st.index (.struct elem) }
          else .panic st.dest

/-- The scanning loop of LoadRefDat for a record type whose fields are all
exported. -/
def loadLines (a : Arch) (sep : Bytes) (fieldTypes : List GoType) (linenum : Nat)
    (lines : List Bytes) (st : LoopState) : LoopResult :=
  loadLinesRO a sep fieldTypes [] linenum lines st

/-- The part of LoadRefDat behind the line count: the destination is set to a
new slice of `linenum` zero records, the lines the scanner yields are loaded,
and the count and the error are returned.  `pt` is the type the destination
points to, a slice of structs with the fields `fieldTypes`. -/
def loadContentRO (a : Arch) (sep : Bytes) (pt : GoType) (fieldTypes : List GoType)
    (ro : List Bool) (linenum : Nat) (lines : List Bytes) : Outcome :=
  match loadLinesRO a sep fieldTypes ro linenum lines
      { index := 0, elem := zeroValues fieldTypes,
        dest := List.replicate linenum (.struct (zeroValues fieldTypes)) } with
  | .ret n err dest => .ret n err (some (.ptr pt, .ptr (.slice dest)))
  | .panic dest => .panic (some (.ptr pt, .ptr (.slice dest)))

/-- The part of LoadRefDat behind the line count for a record type whose
fields are all exported. -/
def loadContent (a : Arch) (sep : Bytes) (pt : GoType) (fieldTypes : List GoType)
    (linenum : Nat) (lines : List Bytes) : Outcome :=
  loadContentRO a sep pt fieldTypes [] linenum lines

/-- The function LoadRefDat(path, sep, s).  It panics where the reflection API
does: on the nil interface and on a nil pointer (the type of the zero Value is
asked for), on a slice whose elements are no structs (NumField), and on a
field that is not exported (Set).  A file that cannot be opened, and a file
whose reads fail in lineCounter, give the error with the count 0 and leave the
destination as it is. -/
def LoadRefDat (a : Arch) (fs : FileSystem) (path sep : Bytes) (s : Arg) : Outcome :=
  match s with
  | none => .panic s
  | some (.ptr pt, v) =>
    match v with
    | .ptr _ =>
      match pt with
      | .slice e =>
        if e.isStruct then
          match fs.state path with
          | .missing => .ret 0 (some (.openFile path)) s
          | .unreadable => .ret 0 (some (.readFile path)) s
          | .file content =>
            loadContentRO a sep pt (structFields e) (unexportedFields e)
              (lineCounter content) (scanLines content)
        else .panic s
      | _ => .ret 0 (some (.nonSlice pt)) s
    | _ => .panic s
  | some (t, _) => .ret 0 (some (.nonPointer t)) s
/-! ## strconv.Atoi -/

/-- The digit loop of strconv.ParseUint for base 10 and a bit size whose
largest value is `maxVal`: as `parseUintLoop`, the sum being checked against
`maxVal`. -/
def parseUintLoopSized (maxVal : Nat) : Bytes → Nat → Except NumErrKind Nat
  | [], n => .ok n
  | c :: cs, n =>
    if 48 ≤ c ∧ c ≤ 57 then
      let d := c - 48
      if n ≥ maxUint64 / 10 + 1 then .error .errRange
      else
        let n10 := wrapU64 (n * 10)
        let n1 := wrapU64 (n10 + d)
        if n1 < n10 ∨ n1 > maxVal then .error .errRange
        else parseUintLoopSized maxVal cs n1
    else .error .errSyntax

/-- The call strconv.ParseUint(s, 10, bitSize). -/
def ParseUintSized (bitSize : Nat) (s : Bytes) : Nat × Option NumError :=
  if s = [] then (0, some ⟨.parseUint, s, .errSyntax⟩)
  else
    match parseUintLoopSized (2 ^ bitSize - 1) s 0 with
    | .ok n => (n, none)
    | .error .errSyntax => (0, some ⟨.parseUint, s, .errSyntax⟩)
    | .error .errRange => (2 ^ bitSize - 1, some ⟨.parseUint, s, .errRange⟩)

/-- The range check at the end of strconv.ParseInt for a bit size. -/
def parseIntRangeSized (bitSize : Nat) (s0 : Bytes) (neg : Bool) (un : Nat) :
    Int × Option NumError :=
  let cutoff : Nat := 2 ^ (bitSize - 1)
  if neg = false ∧ un ≥ cutoff then
    (((cutoff - 1 : Nat) : Int), some ⟨.parseInt, s0, .errRange⟩)
  else if neg = true ∧ un > cutoff then
    (-(cutoff : Int), some ⟨.parseInt, s0, .errRange⟩)
  else
    let n := wrapSigned 64 (un : Int)
    (if neg then wrapSigned 64 (-n) else n, none)

/-- The part of strconv.ParseInt behind the call of ParseUint, for a bit
size. -/
def parseIntCheckSized (bitSize : Nat) (s0 : Bytes) (neg : Bool)
    (r : Nat × Option NumError) : Int × Option NumError :=
  match r.2 with
  | some e =>
    if e.err ≠ .errRange then (0, some { fn := .parseInt, num := s0, err := e.err })
    else parseIntRangeSized bitSize s0 neg r.1
  | none => parseIntRangeSized bitSize s0 neg r.1

/-- The call strconv.ParseInt(s, 10, bitSize) for a bit size that is not 0. -/
def ParseIntSized (bitSize : Nat) (s0 : Bytes) : Int × Option NumError :=
  match s0 with
  | [] => (0, some ⟨.parseInt, s0, .errSyntax⟩)
  | c :: r =>
    if c = 43 then parseIntCheckSized bitSize s0 false (ParseUintSized bitSize r)
    else if c = 45 then parseIntCheckSized bitSize s0 true (ParseUintSized bitSize r)
    else parseIntCheckSized bitSize s0 false (ParseUintSized bitSize s0)

/-- The call strconv.Atoi(s): the value and the error of ParseInt(s, 10, 0),
the bit size 0 standing for the width of int, with the function name of the
error replaced.  (The fast path of Atoi for short texts returns the same.) -/
def Atoi (a : Arch) (s : Bytes) : Int × Option NumError :=
  match ParseIntSized a.intBits s with
  | (i, some e) => (i, some { e with fn := .atoi })
  | (i, none) => (i, none)

/-! ## LoadRefDatVarTail -/

/-- The inner loop `for j := 0; j < tailElemFieldNum; j++` for the tail group
`i`: the token `tailLineSegs[i*tailElemFieldNum+j]` is converted to the type
of field `j` of the group and set there.  `v` is tailElemFieldNum, `n` the
number of iterations left, `gf` the fields of the group; `ro` marks the fields
of the group that are not exported, on which Set panics. -/
def convGroupRO (a : Arch) (tailLineSegs : List Bytes) (groupTypes : List GoType)
    (ro : List Bool) (v i : Nat) : Nat → Nat → List Value → FieldsResult
  | 0, _, gf => .done gf
  | n + 1, j, gf =>
    match tailLineSegs[i * v + j]?, groupTypes[j]? with
    | some seg, some t =>
      match convString a (TrimSpace seg) t with
      | .error e => .fail e
      | .ok x =>
        if ro.getD j false then .panic
        else convGroupRO a tailLineSegs groupTypes ro v i n (j + 1) (gf.set j x)
    | _, _ => .panic

/-- The inner loop for a tail group whose fields are all exported. -/
def convGroup (a : Arch) (tailLineSegs : List Bytes) (groupTypes : List GoType)
    (v i n j : Nat) (gf : List Value) : FieldsResult :=
  convGroupRO a tailLineSegs groupTypes [] v i n j gf

/-- The outer loop `for i := 0; i < tailElemNum; i++` over the tail groups:
`tail` is the tail slice, `r` the number of iterations left, `i` the current
group.  `groupType` is the element type of the tail slice. -/
def tailGroups (a : Arch) (tailLineSegs : List Bytes) (groupType : GoType) (v : Nat) :
    Nat → Nat → List Value → FieldsResult
  | 0, _, tail => .done tail
  | r + 1, i, tail =>
    match tail[i]? with
    | some g =>
      match convGroupRO a tailLineSegs (structFields groupType) (unexportedFields groupType)
          v i v 0 (fieldsOf g) with
      | .done gf => tailGroups a tailLineSegs groupType v r (i + 1) (tail.set i (.struct gf))
      | .fail e => .fail e
      | .panic => .panic
    | none => .panic

/-- The body of the scanning loop of LoadRefDatVarTail for a line that is not
skipped, up to the store of the record: the leading fields, the control token,
the number of tail groups, the tail slice and its groups.  `c` is
ctrlFiledInx, `e` the element type of the destination slice, `elem` the
fields of the record variable.  It panics on a token or field index out of
range, on a division by zero, on a negative length of the tail slice, on a
field at the control index that is no slice, and on a field that is not
exported. -/
def varTailLine (a : Arch) (sep : Bytes) (c : Int) (e : GoType) (elem : List Value)
    (trimedLine : Bytes) : FieldsResult :=
  let lineSegs := Split trimedLine sep
  match convFieldsRO a lineSegs (structFields e) (unexportedFields e) c.toNat 0 elem with
  | .fail err => .fail err
  | .panic => .panic
  | .done elem1 =>
    if c < 0 then .panic
    else
      match lineSegs[c.toNat]? with
      | none => .panic
      | some ctl =>
        let tailElemFieldNum : Int := (Atoi a ctl).1
        if tailElemFieldNum = 0 then .panic
        else
          let tailElemNum : Int :=
            Int.tdiv ((lineSegs.length : Int) - c - 1) tailElemFieldNum
          let tailLineSegs := lineSegs.drop (c.toNat + 1)
          match (structFields e)[c.toNat]? with
          | some (.slice groupType) =>
            if tailElemNum < 0 ∨ (unexportedFields e).getD c.toNat false = true then .panic
            else
              match tailGroups a tailLineSegs groupType tailElemFieldNum.toNat
                  tailElemNum.toNat 0
                  (List.replicate tailElemNum.toNat (zeroValue groupType)) with
              | .done tail => .done (elem1.set c.toNat (.slice tail))
              | .fail err => .fail err
              | .panic => .panic
          | _ => .panic

/-- The scanning loop of LoadRefDatVarTail over the lines the scanner yields,
and the return behind it. -/
def loadLinesVarTail (a : Arch) (sep : Bytes) (c : Int) (e : GoType) (lineNum : Nat) :
    List Bytes → LoopState → LoopResult
  | [], st => .ret st.index none st.dest
  | line :: rest, st =>
    let trimedLine := TrimSpace line
    if trimedLine.length = 0 ∧ (st.index : Int) < (lineNum : Int) - 1 then
      loadLinesVarTail a sep c e lineNum rest st
    else
      match varTailLine a sep c e st.elem trimedLine with
      | .fail err => .ret (st.index + 1) (some (.conv err)) st.dest
      | .panic => .panic st.dest
      | .done elem =>
        if st.index < st.dest.length then
          loadLinesVarTail a sep c e lineNum rest
            { index := st.index + 1, elem := elem,
              dest := st.dest.set st.index (.struct elem) }
        else .panic st.dest

/-- The part of LoadRefDatVarTail behind the line count: the destination is
set to a new slice of `lineNum` zero elements, the lines are loaded, and the
count and the error are returned. -/
def loadContentVarTail (a : Arch) (sep : Bytes) (c : Int) (pt e : GoType)
    (lineNum : Nat) (lines : List Bytes) : Outcome :=
  match loadLinesVarTail a sep c e lineNum lines
      { index := 0, elem := fieldsOf (zeroValue e),
        dest := List.replicate lineNum (zeroValue e) } with
  | .ret n err dest => .ret n err (some (.ptr pt, .ptr (.slice dest)))
  | .panic dest => .panic (some (.ptr pt, .ptr (.slice dest)))

/-- The function LoadRefDatVarTail(path, sep, ctrlFiledInx, s).  On the nil
interface it panics (the type of the zero Value is asked for); for a nil
pointer it returns its error, which names the invalid kind.  A file that
cannot be opened, and a file whose reads fail in lineCounter, give the error
with the count 0 and leave the destination as it is. -/
def LoadRefDatVarTail (a : Arch) (fs : FileSystem) (path sep : Bytes) (ctrlFiledInx : Int)
    (s : Arg) : Outcome :=
  match s with
  | none => .panic s
  | some (.ptr pt, v) =>
    match v with
    | .ptr _ =>
      match pt with
      | .slice e =>
        match fs.state path with
        | .missing => .ret 0 (some (.openFile path)) s
        | .unreadable => .ret 0 (some (.readFile path)) s
        | .file content =>
          loadContentVarTail a sep ctrlFiledInx pt e (lineCounter content)
            (scanLines content)
      | _ => .ret 0 (some (.notPointerToSlice (some pt))) s
    | _ => .ret 0 (some (.notPointerToSlice none)) s
  | some (t, _) => .ret 0 (some (.notPointer t)) s

/-- The UTF-8 bytes of a string literal. -/
def utf8 (s : String) : Bytes := (s.toList.flatMap String.utf8EncodeChar).map UInt8.toNat

/-! ## Notions of the specification -/

/-- The file made of the given lines, each ended by a newline byte. -/
def joinLines (lines : List Bytes) : Bytes := lines.flatMap (· ++ [10])

/-- The destination argument of a loader: a pointer to a slice of structs with
the given field types, all exported, the slice holding the records `prior`. -/
def sliceArg (fieldTypes : List GoType) (prior : List Value) : Arg :=
  some (.ptr (.slice (.struct fieldTypes)), .ptr (.slice prior))

/-- The destination argument of a loader for any element type: a pointer to a
slice of elements of type `e`, the slice holding the records `prior`. -/
def recordsArg (e : GoType) (prior : List Value) : Arg :=
  some (.ptr (.slice e), .ptr (.slice prior))

/-- The decimal digits of `n`, most significant first, put in front of `acc`;
the first argument bounds the number of digits. -/
def natTextLoop : Nat → Nat → Bytes → Bytes
  | 0, _, acc => acc
  | f + 1, n, acc =>
    if n < 10 then (n + 48) :: acc
    else natTextLoop f (n / 10) ((n % 10 + 48) :: acc)

/-- The decimal text of a natural number. -/
def natText (n : Nat) : Bytes := natTextLoop (n + 1) n []

/-- The decimal text of an integer: a minus sign for a negative one, then the
digits of its magnitude. -/
def decimalText (n : Int) : Bytes :=
  if n < 0 then 45 :: natText n.natAbs else natText n.natAbs


/-- The value a digit string denotes when read from the value `x` on. -/
def digitsValue (ds : Bytes) (x : Nat) : Nat := ds.foldl (fun y c => y * 10 + (c - 48)) x


/-- The signed integer types. -/
def GoType.isSigned : GoType → Bool
  | .int | .int8 | .int16 | .int32 | .int64 => true
  | _ => false

/-- The unsigned integer types, the single-byte type among them. -/
def GoType.isUnsigned : GoType → Bool
  | .uint | .uint8 | .uint16 | .uint32 | .uint64 => true
  | _ => false

/-- The integer `n` lies in the range of the integer type `t`. -/
def inRange (a : Arch) (t : GoType) (n : Int) : Prop :=
  if t.isSigned then -(2 : Int) ^ (t.bits a - 1) ≤ n ∧ n < (2 : Int) ^ (t.bits a - 1)
  else 0 ≤ n ∧ n < (2 : Int) ^ (t.bits a)

instance (a : Arch) (t : GoType) (n : Int) : Decidable (inRange a t n) := by
  unfold inRange; infer_instance

/-- The value of the integer type `t` that holds the integer `n`. -/
def intValue (t : GoType) (n : Int) : Value :=
  if t.isSigned then .int n else .uint n.toNat

/-- Every byte of the string is a decimal digit. -/
def allDigits (s : Bytes) : Bool := s.all (fun c => decide (48 ≤ c) && decide (c ≤ 57))

/-- The string is a base-10 integer literal: an optional sign and at least one
decimal digit. -/
def isDecimalLiteral : Bytes → Bool
  | [] => false
  | c :: r =>
    if c = 43 ∨ c = 45 then !r.isEmpty && allDigits r
    else allDigits (c :: r)

/-- The tokens convert field by field: `fields` holds, at every index, the
value convString gives for the trimmed token of that index. -/
def Converted (a : Arch) (tokens : List Bytes) (fieldTypes : List GoType)
    (fields : List Value) : Prop :=
  fields.length = fieldTypes.length ∧
  ∀ (k : Nat) (tok : Bytes) (t : GoType), tokens[k]? = some tok → fieldTypes[k]? = some t →
    ∃ v, fields[k]? = some v ∧ convString a (TrimSpace tok) t = .ok v

/-- The line is whitespace-only: nothing is left of it when trimmed. -/
def isBlank (l : Bytes) : Bool := (TrimSpace l).isEmpty

/-- The line is well-formed for the record type: not blank, as many tokens as
fields, and every trimmed token converts to the type of its field. -/
def GoodLine (a : Arch) (sep : Bytes) (fieldTypes : List GoType) (l : Bytes) : Prop :=
  isBlank l = false ∧
  (Split (TrimSpace l) sep).length = fieldTypes.length ∧
  ∀ (k : Nat) (tok : Bytes) (t : GoType),
    (Split (TrimSpace l) sep)[k]? = some tok → fieldTypes[k]? = some t →
    ∃ v, convString a (TrimSpace tok) t = .ok v

/-- The lines of a list that are not whitespace-only. -/
def nonBlank (lines : List Bytes) : List Bytes := lines.filter (fun l => !isBlank l)

/-- The record type of the tests: struct { Field1 int; Field2 uint; Field3 string }. -/
def testElem : List GoType := [.int, .uint, .string]

/-- A file system in which every path names a file with the given content. -/
def oneFile (content : Bytes) : FileSystem := ⟨fun _ => .file content⟩

/-- A file system in which every path opens and no read succeeds, as for a
path that names a directory. -/
def noRead : FileSystem := ⟨fun _ => .unreadable⟩

/-- The token at an index converts to the field type at an index (both must
exist). -/
def convOk (a : Arch) (tok : Option Bytes) (t : Option GoType) : Bool :=
  match tok, t with
  | some tok, some t => (convString a (TrimSpace tok) t).toBool
  | _, _ => false

/-- The value is the one convString gives for the trimmed token and the field
type (all three must exist). -/
def IsConv (a : Arch) (tok : Option Bytes) (t : Option GoType) (x : Option Value) : Prop :=
  ∃ tok' t' x', tok = some tok' ∧ t = some t' ∧ x = some x' ∧
    convString a (TrimSpace tok') t' = .ok x'

/-- The line is a well-formed variable-tail line for the control index `c`,
the record fields `fieldTypes` and the fields `groupTypes` of a tail group:
it is not blank, it has a token at the index `c`, its leading tokens convert
to the leading fields, its control token (untrimmed, as the loader reads it)
parses to the number of fields of a tail group, and the tokens of its tail
groups convert to the fields of a group. -/
def WellFormedTailLine (a : Arch) (sep : Bytes) (c : Nat) (fieldTypes groupTypes : List GoType)
    (l : Bytes) : Prop :=
  TrimSpace l ≠ [] ∧
  c < (Split (TrimSpace l) sep).length ∧
  (∀ k, k < c → convOk a (Split (TrimSpace l) sep)[k]? fieldTypes[k]? = true) ∧
  (Atoi a ((Split (TrimSpace l) sep)[c]?.getD [])).1 = (groupTypes.length : Int) ∧
  (∀ g, g < ((Split (TrimSpace l) sep).length - c - 1) / groupTypes.length →
    ∀ j, j < groupTypes.length →
      convOk a (Split (TrimSpace l) sep)[c + 1 + (g * groupTypes.length + j)]?
        groupTypes[j]? = true)

instance (a : Arch) (sep : Bytes) (c : Nat) (fieldTypes groupTypes : List GoType) (l : Bytes) :
    Decidable (WellFormedTailLine a sep c fieldTypes groupTypes l) := by
  unfold WellFormedTailLine; infer_instance

/-- The fields of a record are those of a variable-tail line: leading field `k`
is the converted token `k`, and the field at the control index is a tail of
(T - c - 1) / M groups, field `j` of group `g` being the converted token
c+1+g*M+j. -/
def TailRecord (a : Arch) (sep : Bytes) (c : Nat) (fieldTypes groupTypes : List GoType)
    (l : Bytes) (fields : List Value) : Prop :=
  fields.length = fieldTypes.length ∧
  (∀ k, k < c → IsConv a (Split (TrimSpace l) sep)[k]? fieldTypes[k]? fields[k]?) ∧
  ∃ groups, fields[c]? = some (.slice groups) ∧
    groups.length = ((Split (TrimSpace l) sep).length - c - 1) / groupTypes.length ∧
    ∀ g, g < ((Split (TrimSpace l) sep).length - c - 1) / groupTypes.length →
      ∃ gf, groups[g]? = some (.struct gf) ∧ gf.length = groupTypes.length ∧
        ∀ j, j < groupTypes.length →
          IsConv a (Split (TrimSpace l) sep)[c + 1 + (g * groupTypes.length + j)]?
            groupTypes[j]? gf[j]?

/-- The element type of the tests of the variable-tail loader:
struct FileLine with four strings and a tail of struct TailStruct. -/
def fileLine : List GoType := [.string, .string, .string, .string, .slice (.struct [.uint32, .uint64])]

/-- The integer a base-10 literal denotes: the value of its digits, negated
behind a minus sign. -/
def literalValue : Bytes → Int
  | [] => 0
  | c :: r =>
    if c = 43 then (digitsValue r 0 : Int)
    else if c = 45 then -(digitsValue r 0 : Int)
    else (digitsValue (c :: r) 0 : Int)


/-! ## Padding of tokens and lines with spaces and tabs -/

/-- A space or a tab. -/
def isPad (b : Nat) : Bool := b == 9 || b == 32

/-- The second string is the first one with spaces and tabs put in at any
places. -/
inductive PadIns : Bytes → Bytes → Prop where
  | nil : PadIns [] []
  | keep (b : Nat) {s u : Bytes} : PadIns s u → PadIns (b :: s) (b :: u)
  | ins (p : Nat) {s u : Bytes} : isPad p = true → PadIns s u → PadIns s (p :: u)

/-- The shape shared by trimLeft and trimRightRev: runes of one, two and three
bytes recognised by `p1`, `p2` and `p3` are removed from the head. -/
def trimG (p1 : Nat → Bool) (p2 : Nat → Nat → Bool) (p3 : Nat → Nat → Nat → Bool) :
    Bytes → Bytes
  | [] => []
  | b0 :: r1 =>
    if p1 b0 then trimG p1 p2 p3 r1
    else
      match r1 with
      | [] => [b0]
      | b1 :: r2 =>
        if p2 b0 b1 then trimG p1 p2 p3 r2
        else
          match r2 with
          | [] => [b0, b1]
          | b2 :: r3 =>
            if p3 b0 b1 b2 then trimG p1 p2 p3 r3
            else b0 :: b1 :: b2 :: r3

/-- The bytes `trimG` removes from the head. -/
def leadG (p1 : Nat → Bool) (p2 : Nat → Nat → Bool) (p3 : Nat → Nat → Nat → Bool) :
    Bytes → Bytes
  | [] => []
  | b0 :: r1 =>
    if p1 b0 then b0 :: leadG p1 p2 p3 r1
    else
      match r1 with
      | [] => []
      | b1 :: r2 =>
        if p2 b0 b1 then b0 :: b1 :: leadG p1 p2 p3 r2
        else
          match r2 with
          | [] => []
          | b2 :: r3 =>
            if p3 b0 b1 b2 then b0 :: b1 :: b2 :: leadG p1 p2 p3 r3
            else []

/-- No rune recognised by `p1`, `p2` or `p3` stands at the head. -/
def cleanG (p1 : Nat → Bool) (p2 : Nat → Nat → Bool) (p3 : Nat → Nat → Nat → Bool) :
    Bytes → Bool
  | [] => true
  | [b0] => !p1 b0
  | [b0, b1] => !p1 b0 && !p2 b0 b1
  | b0 :: b1 :: b2 :: _ => !p1 b0 && !p2 b0 b1 && !p3 b0 b1 b2

/-- The two-byte white-space test of trimRightRev, which reads the string
backwards. -/
def isSpace2Rev (b1 b0 : Nat) : Bool := isSpace2 b0 b1

/-- The three-byte white-space test of trimRightRev, which reads the string
backwards. -/
def isSpace3Rev (b2 b1 b0 : Nat) : Bool := isSpace3 b0 b1 b2

/-- The leading white space of a line: what TrimSpace removes in front. -/
def lead (l : Bytes) : Bytes := leadG isAsciiSpace isSpace2 isSpace3 l

/-- The trailing white space of a line: what TrimSpace removes at the end. -/
def trail (l : Bytes) : Bytes :=
  (leadG isAsciiSpace isSpace2Rev isSpace3Rev (trimLeft l).reverse).reverse

/-- The tokens joined with the separator between them. -/
def joinSep (sep : Bytes) : List Bytes → Bytes
  | [] => []
  | [t] => t
  | t :: t2 :: ts => t ++ sep ++ joinSep sep (t2 :: ts)

/-- The tokens with padding added: token `i` gets the first string of pair `i`
in front and the second one behind; tokens without a pair stay as they are. -/
def padTokens : List (Bytes × Bytes) → List Bytes → List Bytes
  | _, [] => []
  | [], ts => ts
  | (p, q) :: ps, t :: ts => (p ++ t ++ q) :: padTokens ps ts

/-- The padding added to one line: strings put in front of and behind the
whole line, and a pair of strings for each token. -/
structure LinePad where
  front : Bytes
  tokens : List (Bytes × Bytes)
  back : Bytes
  deriving DecidableEq, Repr

/-- All the added bytes are spaces or tabs. -/
def LinePad.isPadding (w : LinePad) : Bool :=
  w.front.all isPad && w.back.all isPad &&
    w.tokens.all (fun pq => pq.1.all isPad && pq.2.all isPad)

/-- The line with padding added around the whole line and around each of its
tokens.  The tokens are those of the loader, the pieces of the trimmed line
between the separators; the white space the line has in front and at its end
stays where it is. -/
def padLine (sep : Bytes) (w : LinePad) (l : Bytes) : Bytes :=
  w.front ++ lead l ++ joinSep sep (padTokens w.tokens (Split (TrimSpace l) sep)) ++
    trail l ++ w.back

/-- The lines with padding added, line by line; lines without a padding stay
as they are. -/
def padLines (sep : Bytes) : List LinePad → List Bytes → List Bytes
  | _, [] => []
  | [], ls => ls
  | w :: ws, l :: ls => padLine sep w l :: padLines sep ws ls

/-- The bytes behind the last newline of a file with padding added: when there
are none, none are added; otherwise they are a final line and are padded as a
line. -/
def padRest (sep : Bytes) (w : LinePad) (last : Bytes) : Bytes :=
  if last = [] then [] else padLine sep w last
/-! ## The converter -/

theorem digitsValue_cons (c : Nat) (ds : Bytes) (x : Nat) :
    digitsValue (c :: ds) x = digitsValue ds (x * 10 + (c - 48)) := rfl

theorem le_digitsValue (ds : Bytes) (x : Nat) : x ≤ digitsValue ds x := by
  induction ds generalizing x with
  | nil => exact Nat.le_refl x
  | cons c cs ih =>
    rw [digitsValue_cons]
    exact Nat.le_trans (by omega) (ih _)

theorem parseUintLoop_digits (ds : Bytes) (x : Nat)
    (hd : ∀ c ∈ ds, 48 ≤ c ∧ c ≤ 57)
    (hv : digitsValue ds x < 18446744073709551616) :
    parseUintLoop ds x = .ok (digitsValue ds x) := by
  induction ds generalizing x with
  | nil => rfl
  | cons c cs ih =>
    have hc := hd c (List.mem_cons_self c cs)
    rw [digitsValue_cons] at hv ⊢
    have hle := le_digitsValue cs (x * 10 + (c - 48))
    have hrec := ih (x * 10 + (c - 48)) (fun d hdm => hd d (List.mem_cons_of_mem c hdm)) hv
    simp only [parseUintLoop, maxUint64, wrapU64]
    rw [if_pos hc, if_neg (by omega)]
    have e1 : x * 10 % 18446744073709551616 = x * 10 := Nat.mod_eq_of_lt (by omega)
    have e2 : (x * 10 + (c - 48)) % 18446744073709551616 = x * 10 + (c - 48) :=
      Nat.mod_eq_of_lt (by omega)
    rw [e1, e2, if_neg (by omega)]
    exact hrec

theorem natTextLoop_digits (f n : Nat) (acc : Bytes)
    (hacc : ∀ c ∈ acc, 48 ≤ c ∧ c ≤ 57) :
    ∀ c ∈ natTextLoop f n acc, 48 ≤ c ∧ c ≤ 57 := by
  induction f generalizing n acc with
  | zero => exact hacc
  | succ f ih =>
    unfold natTextLoop
    split
    · intro c hcm
      rcases List.mem_cons.mp hcm with h | h
      · omega
      · exact hacc c h
    · apply ih
      intro c hcm
      rcases List.mem_cons.mp hcm with h | h
      · omega
      · exact hacc c h

theorem natTextLoop_value (f n : Nat) (acc : Bytes) (hf : n < f) :
    digitsValue (natTextLoop f n acc) 0 = digitsValue acc n := by
  induction f generalizing n acc with
  | zero => omega
  | succ f ih =>
    unfold natTextLoop
    split
    · rw [digitsValue_cons]; congr 1; omega
    · rw [ih (n / 10) _ (by omega), digitsValue_cons]; congr 1; omega

theorem natTextLoop_ne_nil (f n : Nat) (acc : Bytes) (hf : n < f) :
    natTextLoop f n acc ≠ [] ∧
      ∀ c, (natTextLoop f n acc).head? = some c → (48 ≤ c ∧ c ≤ 57) ∨ acc.head? = some c := by
  induction f generalizing n acc with
  | zero => omega
  | succ f ih =>
    unfold natTextLoop
    split
    · refine ⟨by simp, ?_⟩
      intro c hc
      simp at hc
      left; omega
    · have h := ih (n / 10) ((n % 10 + 48) :: acc) (by omega)
      refine ⟨h.1, ?_⟩
      intro c hc
      rcases h.2 c hc with h1 | h1
      · exact Or.inl h1
      · simp at h1
        left; omega

theorem ParseUint_natText (n : Nat) (hn : n < 18446744073709551616) :
    ParseUint (natText n) = (n, none) := by
  have hne : natText n ≠ [] := (natTextLoop_ne_nil (n + 1) n [] (by omega)).1
  have hval : digitsValue (natText n) 0 = n := natTextLoop_value (n + 1) n [] (by omega)
  have hloop := parseUintLoop_digits (natText n) 0
    (natTextLoop_digits (n + 1) n [] (by simp)) (by rw [hval]; exact hn)
  unfold ParseUint
  rw [if_neg hne, hloop, hval]

theorem natText_head (n : Nat) : ∃ c r, natText n = c :: r ∧ 48 ≤ c ∧ c ≤ 57 := by
  have h := natTextLoop_ne_nil (n + 1) n [] (by omega)
  match hm : natText n with
  | [] => exact absurd hm h.1
  | c :: r =>
    refine ⟨c, r, rfl, ?_⟩
    have h2 := h.2 c (by show (natText n).head? = some c; rw [hm]; rfl)
    rcases h2 with h3 | h3
    · exact h3
    · simp at h3

theorem wrapSigned_eq (w : Nat) (x : Int) (hw : 0 < w)
    (h1 : -(2 : Int) ^ (w - 1) ≤ x) (h2 : x < (2 : Int) ^ (w - 1)) :
    wrapSigned w x = x := by
  unfold wrapSigned
  have hp : (2 : Int) ^ w = 2 * 2 ^ (w - 1) := by
    obtain ⟨k, rfl⟩ : ∃ k, w = k + 1 := ⟨w - 1, by omega⟩
    simp [pow_succ, mul_comm]
  rw [hp]
  have h3 : (x + 2 ^ (w - 1)) % (2 * 2 ^ (w - 1)) = x + 2 ^ (w - 1) :=
    Int.emod_eq_of_lt (by omega) (by omega)
  rw [h3]; omega

theorem wrapSigned_64 (x : Int)
    (h1 : -9223372036854775808 ≤ x) (h2 : x < 9223372036854775808) :
    wrapSigned 64 x = x := by
  unfold wrapSigned
  norm_num
  omega

theorem ParseInt_minus_natText (m : Nat) (hm : m ≤ 9223372036854775808) :
    ParseInt (45 :: natText m) = (-(m : Int), none) := by
  have hu := ParseUint_natText m (by omega)
  simp only [ParseInt, parseIntCheck, parseIntRange, hu]
  simp
  rw [if_neg (by omega)]
  by_cases hmin : m = 9223372036854775808
  · subst hmin
    norm_num [wrapSigned]
  · rw [wrapSigned_64 (m : Int) (by omega) (by omega),
      wrapSigned_64 (-(m : Int)) (by omega) (by omega)]

theorem ParseInt_natText (m : Nat) (hm : m < 9223372036854775808) :
    ParseInt (natText m) = ((m : Int), none) := by
  have hu := ParseUint_natText m (by omega)
  obtain ⟨c, r, hcr, hc1, hc2⟩ := natText_head m
  have hc43 : ¬ c = 43 := by omega
  have hc45 : ¬ c = 45 := by omega
  rw [hcr] at hu ⊢
  simp only [ParseInt, parseIntCheck, parseIntRange, hu, if_neg hc43, if_neg hc45]
  simp
  rw [if_neg (by omega), wrapSigned_64 (m : Int) (by omega) (by omega)]

theorem ParseInt_decimalText (n : Int)
    (h1 : -9223372036854775808 ≤ n) (h2 : n < 9223372036854775808) :
    ParseInt (decimalText n) = (n, none) := by
  unfold decimalText
  by_cases hneg : n < 0
  · rw [if_pos hneg, ParseInt_minus_natText n.natAbs (by omega)]
    congr 1; omega
  · rw [if_neg hneg, ParseInt_natText n.natAbs (by omega)]
    congr 1; omega

/-- C7 as amended: for every signed integer type (width 8, 16, 32, 64 or the
platform default) and every unsigned integer type of width 16, 32, 64 or the
platform default, and every integer inside the range of the type, convString
applied to the decimal text of the integer succeeds and returns that integer.
The unsigned type of width 8 is left out: it is the single-byte target. -/
theorem convString_decimalText (a : Arch) (t : GoType) (n : Int)
    (ht : t.isSigned = true ∨ t.isUnsigned = true) (h8 : t ≠ .uint8)
    (hr : inRange a t n) :
    convString a (decimalText n) t = .ok (intValue t n) := by
  have hne : (decimalText n).length ≠ 0 := by
    obtain ⟨c, r, hcr, -⟩ := natText_head n.natAbs
    unfold decimalText
    split <;> simp [hcr]
  cases t <;> cases a <;>
    simp [GoType.isSigned, GoType.isUnsigned] at ht h8 <;>
    simp [inRange, GoType.isSigned, GoType.bits, Arch.intBits] at hr <;>
    simp only [convString, if_neg hne, intValue, GoType.isSigned, GoType.bits, Arch.intBits]
  all_goals first
    | (rw [ParseInt_decimalText n (by omega) (by omega)]
       simp only [wrapSigned]
       norm_num
       omega)
    | (have h0 : decimalText n = natText n.natAbs := by
         unfold decimalText; rw [if_neg (by omega)]
       rw [h0, ParseUint_natText n.natAbs (by omega)]
       simp only [wrapUnsigned]
       norm_num
       omega)

theorem convString_decimalText_witness :
    convString .bits32 (decimalText (-2147483648)) .int =
      .ok (intValue .int (-2147483648)) :=
  convString_decimalText .bits32 .int (-2147483648) (by decide) (by decide) (by decide)

/-- C7 as stated fails for the unsigned type of width 8: 100 is inside its
range, and its decimal text converts to 49, the byte of the first digit. -/
theorem uint8_takes_first_digit_byte :
    inRange .bits64 .uint8 100 ∧
    convString .bits64 (decimalText 100) .uint8 = .ok (.uint 49) ∧
    convString .bits64 (decimalText 100) .uint8 ≠ .ok (intValue .uint8 100) := by
  decide

/-- C8: the empty token converts without error to zero for every signed and
every unsigned integer type, and for the single-byte type (the unsigned type of
width 8) to the null character, the byte 0. -/
theorem convString_empty_token (a : Arch) :
    convString a [] .int = .ok (.int 0) ∧ convString a [] .int8 = .ok (.int 0) ∧
    convString a [] .int16 = .ok (.int 0) ∧ convString a [] .int32 = .ok (.int 0) ∧
    convString a [] .int64 = .ok (.int 0) ∧
    convString a [] .uint = .ok (.uint 0) ∧ convString a [] .uint8 = .ok (.uint 0) ∧
    convString a [] .uint16 = .ok (.uint 0) ∧ convString a [] .uint32 = .ok (.uint 0) ∧
    convString a [] .uint64 = .ok (.uint 0) := by
  cases a <;> decide

theorem parseUintLoop_ok_allDigits (s : Bytes) (x n : Nat)
    (h : parseUintLoop s x = .ok n) : allDigits s = true := by
  induction s generalizing x with
  | nil => rfl
  | cons c cs ih =>
    unfold parseUintLoop at h
    by_cases hc : 48 ≤ c ∧ c ≤ 57
    · rw [if_pos hc] at h
      split at h
      · exact absurd h (by simp)
      · simp only at h
        split at h
        · exact absurd h (by simp)
        · have := ih _ h
          simp [allDigits] at this ⊢
          exact ⟨hc, this⟩
    · rw [if_neg hc] at h
      exact absurd h (by simp)

theorem ParseUint_result (s : Bytes) :
    (∃ n, ParseUint s = (n, none) ∧ s ≠ [] ∧ allDigits s = true) ∨
    ParseUint s = (0, some ⟨.parseUint, s, .errSyntax⟩) ∨
    ParseUint s = (maxUint64, some ⟨.parseUint, s, .errRange⟩) := by
  unfold ParseUint
  by_cases hs : s = []
  · rw [if_pos hs]; exact Or.inr (Or.inl rfl)
  · rw [if_neg hs]
    match hl : parseUintLoop s 0 with
    | .ok n => exact Or.inl ⟨n, rfl, hs, parseUintLoop_ok_allDigits s 0 n hl⟩
    | .error .errSyntax => exact Or.inr (Or.inl rfl)
    | .error .errRange => exact Or.inr (Or.inr rfl)

theorem parseIntRange_result (s0 : Bytes) (neg : Bool) (un : Nat) :
    (∃ i, parseIntRange s0 neg un = (i, none) ∧ un ≤ 9223372036854775808) ∨
    (∃ v k, parseIntRange s0 neg un = (v, some ⟨.parseInt, s0, k⟩)) := by
  unfold parseIntRange
  simp only
  split
  · exact Or.inr ⟨_, _, rfl⟩
  · split
    · exact Or.inr ⟨_, _, rfl⟩
    · refine Or.inl ⟨_, rfl, ?_⟩
      cases neg <;> simp_all; omega

theorem parseIntCheck_result (s0 s : Bytes) (neg : Bool) :
    (∃ i, parseIntCheck s0 neg (ParseUint s) = (i, none) ∧ s ≠ [] ∧ allDigits s = true) ∨
    (∃ v k, parseIntCheck s0 neg (ParseUint s) = (v, some ⟨.parseInt, s0, k⟩)) := by
  rcases ParseUint_result s with ⟨n, hn, hne, hd⟩ | hv | hv
  · rw [hn]
    simp only [parseIntCheck]
    rcases parseIntRange_result s0 neg n with ⟨i, hi, -⟩ | h
    · exact Or.inl ⟨i, hi, hne, hd⟩
    · exact Or.inr h
  · rw [hv]
    exact Or.inr ⟨_, _, rfl⟩
  · rw [hv]
    simp only [parseIntCheck]
    rcases parseIntRange_result s0 neg maxUint64 with ⟨i, -, hi⟩ | h
    · exact absurd hi (by unfold maxUint64; omega)
    · exact Or.inr (by simpa using h)

theorem ParseInt_result (s : Bytes) :
    (∃ i, ParseInt s = (i, none) ∧ isDecimalLiteral s = true) ∨
    (∃ v k, ParseInt s = (v, some ⟨.parseInt, s, k⟩)) := by
  match s with
  | [] => exact Or.inr ⟨_, _, rfl⟩
  | c :: r =>
    unfold ParseInt
    simp only
    split
    · rcases parseIntCheck_result (c :: r) r false with ⟨i, hi, hne, hd⟩ | h
      · exact Or.inl ⟨i, hi, by simp [isDecimalLiteral, *]⟩
      · exact Or.inr h
    · split
      · rcases parseIntCheck_result (c :: r) r true with ⟨i, hi, hne, hd⟩ | h
        · exact Or.inl ⟨i, hi, by simp [isDecimalLiteral, *]⟩
        · exact Or.inr h
      · rcases parseIntCheck_result (c :: r) (c :: r) false with ⟨i, hi, hne, hd⟩ | h
        · exact Or.inl ⟨i, hi, by simp [isDecimalLiteral, *]⟩
        · exact Or.inr h

/-- C9: for every signed integer type and every unsigned integer type other
than the single-byte one, a token that is not empty and is not a base-10
integer literal (an optional sign and at least one digit) makes convString
return an error and no value; the error is the error of strconv, which carries
the token. -/
theorem convString_non_literal (a : Arch) (s : Bytes) (t : GoType)
    (hs : s ≠ []) (hlit : isDecimalLiteral s = false)
    (ht : t.isSigned = true ∨ (t.isUnsigned = true ∧ t ≠ .uint8)) :
    ∃ k, convString a s t =
      .error (.num ⟨if t.isSigned then .parseInt else .parseUint, s, k⟩) := by
  have hlen : ¬ s.length = 0 := by
    intro h; exact hs (List.length_eq_zero.mp h)
  have hI : ∃ v k, ParseInt s = (v, some ⟨.parseInt, s, k⟩) := by
    rcases ParseInt_result s with ⟨i, -, hl⟩ | h
    · rw [hl] at hlit; exact absurd hlit (by simp)
    · exact h
  have hU : ∃ v k, ParseUint s = (v, some ⟨.parseUint, s, k⟩) := by
    rcases ParseUint_result s with ⟨n, -, hne, hd⟩ | h | h
    · exfalso
      match s, hlit, hd, hne with
      | c :: r, hlit, hd, _ =>
        have hd' := hd
        simp [allDigits] at hd'
        have h43 : ¬ (c = 43 ∨ c = 45) := by omega
        simp only [isDecimalLiteral, if_neg h43] at hlit
        rw [hd] at hlit
        exact absurd hlit (by simp)
    · exact ⟨_, _, h⟩
    · exact ⟨_, _, h⟩
  obtain ⟨vi, ki, hI⟩ := hI
  obtain ⟨vu, ku, hU⟩ := hU
  cases t <;> simp [GoType.isSigned, GoType.isUnsigned] at ht <;>
    simp [convString, hlen, hI, hU, GoType.isSigned]

theorem convString_non_literal_witness :
    ∃ k, convString .bits64 (utf8 "hjiang") .uint32 =
      .error (.num ⟨if GoType.uint32.isSigned then .parseInt else .parseUint,
        utf8 "hjiang", k⟩) :=
  convString_non_literal .bits64 (utf8 "hjiang") .uint32 (by decide) (by decide)
    (by decide)

/-- C10: for the single-byte target a token that is not empty never fails and
converts to its first byte; so two tokens with the same first byte convert to
the same value, as the tokens 100 and 100000000000000000 do. -/
theorem convString_uint8_first_byte (a : Arch) (b : Nat) (r r' : Bytes) (hb : b < 256) :
    convString a (b :: r) .uint8 = .ok (.uint b) ∧
    convString a (b :: r') .uint8 = convString a (b :: r) .uint8 := by
  simp [convString, wrapUnsigned, Nat.mod_eq_of_lt hb]

theorem convString_uint8_first_byte_witness :
    convString .bits64 (utf8 "100") .uint8 = .ok (.uint 49) ∧
    convString .bits64 (utf8 "100000000000000000") .uint8 =
      convString .bits64 (utf8 "100") .uint8 :=
  convString_uint8_first_byte .bits64 49 (utf8 "00") (utf8 "00000000000000000") (by decide)

/-! ## The scanner and the trimming of lines -/

theorem rawLines_line (l rest : Bytes) (hl : 10 ∉ l) :
    rawLines (l ++ 10 :: rest) = l :: rawLines rest := by
  induction l with
  | nil => simp [rawLines]
  | cons c cs ih =>
    have hc : c ≠ 10 := fun h => hl (by simp [h])
    have hcs : 10 ∉ cs := fun h => hl (List.mem_cons_of_mem c h)
    show rawLines (c :: (cs ++ 10 :: rest)) = (c :: cs) :: rawLines rest
    rw [rawLines, if_neg hc, ih hcs]

theorem rawLines_joinLines (lines : List Bytes) (hl : ∀ l ∈ lines, 10 ∉ l) :
    rawLines (joinLines lines) = lines := by
  induction lines with
  | nil => rfl
  | cons l ls ih =>
    have h1 := hl l (List.mem_cons_self l ls)
    have h2 := ih (fun x hx => hl x (List.mem_cons_of_mem l hx))
    have e : joinLines (l :: ls) = l ++ 10 :: joinLines ls := by
      simp [joinLines]
    rw [e, rawLines_line l _ h1, h2]

theorem lineCounter_joinLines (lines : List Bytes) (hl : ∀ l ∈ lines, 10 ∉ l) :
    lineCounter (joinLines lines) = lines.length := by
  induction lines with
  | nil => rfl
  | cons l ls ih =>
    have h1 := hl l (List.mem_cons_self l ls)
    have h2 := ih (fun x hx => hl x (List.mem_cons_of_mem l hx))
    have e : joinLines (l :: ls) = l ++ 10 :: joinLines ls := by
      simp [joinLines]
    unfold lineCounter at h2 ⊢
    rw [e, List.count_append, List.count_cons_self, h2, List.count_eq_zero.mpr h1,
      List.length_cons]
    omega

theorem isSpace2_cr (b : Nat) : isSpace2 b 13 = false := by
  simp [isSpace2]

theorem isSpace3_cr (b0 b1 : Nat) : isSpace3 b0 b1 13 = false := by
  simp [isSpace3]

theorem trimLeft_space (b0 : Nat) (r1 : Bytes) (h : isAsciiSpace b0 = true) :
    trimLeft (b0 :: r1) = trimLeft r1 := by
  rw [trimLeft.eq_def]
  simp [h]

theorem trimLeft_space2 (b0 b1 : Nat) (r2 : Bytes) (h : ¬ isAsciiSpace b0 = true)
    (h2 : isSpace2 b0 b1 = true) : trimLeft (b0 :: b1 :: r2) = trimLeft r2 := by
  rw [trimLeft.eq_def]
  simp [h, h2]

theorem trimLeft_space3 (b0 b1 b2 : Nat) (r3 : Bytes) (h : ¬ isAsciiSpace b0 = true)
    (h2 : ¬ isSpace2 b0 b1 = true) (h3 : isSpace3 b0 b1 b2 = true) :
    trimLeft (b0 :: b1 :: b2 :: r3) = trimLeft r3 := by
  rw [trimLeft.eq_def]
  simp [h, h2, h3]

theorem trimLeft_snoc_cr (m : Bytes) :
    (trimLeft (m ++ [13]) = [] ∧ trimLeft m = []) ∨
    trimLeft (m ++ [13]) = trimLeft m ++ [13] := by
  induction m using trimLeft.induct with
  | case1 => left; decide
  | case2 b0 r1 h ih =>
    rw [List.cons_append, trimLeft_space _ _ h, trimLeft_space _ _ h]
    exact ih
  | case3 b0 h =>
    right
    simp [trimLeft, h, isSpace2_cr]
  | case4 b0 h b1 r2 h2 ih =>
    rw [List.cons_append, List.cons_append, trimLeft_space2 _ _ _ h h2,
      trimLeft_space2 _ _ _ h h2]
    exact ih
  | case5 b0 h b1 h2 =>
    right
    simp [trimLeft, h, h2, isSpace3_cr]
  | case6 b0 h b1 h2 b2 r3 h3 ih =>
    rw [List.cons_append, List.cons_append, List.cons_append,
      trimLeft_space3 _ _ _ _ h h2 h3, trimLeft_space3 _ _ _ _ h h2 h3]
    exact ih
  | case7 b0 h b1 h2 b2 r3 h3 =>
    right
    simp [trimLeft, h, h2, h3]

theorem trimRight_snoc_cr (x : Bytes) : trimRight (x ++ [13]) = trimRight x := by
  have h : trimRightRev (13 :: x.reverse) = trimRightRev x.reverse := by
    rw [trimRightRev.eq_def]
    simp [isAsciiSpace]
  simp [trimRight, h]

theorem TrimSpace_dropCR (l : Bytes) : TrimSpace (dropCR l) = TrimSpace l := by
  unfold dropCR
  split
  · rename_i h
    have hl : l = l.dropLast ++ [13] := by
      rcases List.eq_nil_or_concat l with h0 | ⟨m, c, rfl⟩
      · simp [h0] at h
      · simp at h
        simp [h]
    generalize l.dropLast = m at hl
    subst hl
    unfold TrimSpace
    rcases trimLeft_snoc_cr m with ⟨h1, h2⟩ | h1
    · rw [h1, h2]
    · rw [h1, trimRight_snoc_cr]
  · rfl


/-! ## The loops for exported fields, the file system and the scanner -/

theorem convFields_zero (a : Arch) (segs : List Bytes) (fieldTypes : List GoType) (i : Nat)
    (elem : List Value) : convFields a segs fieldTypes 0 i elem = .done elem := rfl

theorem convFields_succ (a : Arch) (segs : List Bytes) (fieldTypes : List GoType) (n i : Nat)
    (elem : List Value) :
    convFields a segs fieldTypes (n + 1) i elem =
      match segs[i]?, fieldTypes[i]? with
      | some seg, some t =>
        match convString a (TrimSpace seg) t with
        | .error e => .fail e
        | .ok v => convFields a segs fieldTypes n (i + 1) (elem.set i v)
      | _, _ => .panic := by
  simp only [convFields, convFieldsRO, List.getD_nil, Bool.false_eq_true, if_false]

theorem convFieldsRO_nil (a : Arch) (segs : List Bytes) (fieldTypes : List GoType) (n i : Nat)
    (elem : List Value) :
    convFieldsRO a segs fieldTypes [] n i elem = convFields a segs fieldTypes n i elem := rfl

theorem loadLines_nil (a : Arch) (sep : Bytes) (fieldTypes : List GoType) (linenum : Nat)
    (st : LoopState) : loadLines a sep fieldTypes linenum [] st = .ret st.index none st.dest :=
  rfl

theorem loadLines_cons (a : Arch) (sep : Bytes) (fieldTypes : List GoType) (linenum : Nat)
    (line : Bytes) (rest : List Bytes) (st : LoopState) :
    loadLines a sep fieldTypes linenum (line :: rest) st =
      if (TrimSpace line).length = 0 ∧ (st.index : Int) < (linenum : Int) - 1 then
        loadLines a sep fieldTypes linenum rest st
      else
        if (Split (TrimSpace line) sep).length ≠ fieldTypes.length then
          .ret (st.index + 1)
            (some (.fieldCount (st.index + 1) (Split (TrimSpace line) sep).length
              fieldTypes.length)) st.dest
        else
          match convFields a (Split (TrimSpace line) sep) fieldTypes fieldTypes.length 0
              st.elem with
          | .fail e => .ret (st.index + 1) (some (.conv e)) st.dest
          | .panic => .panic st.dest
          | .done elem =>
            if st.index < st.dest.length then
              loadLines a sep fieldTypes linenum rest
                { index := st.index + 1, elem := elem,
                  dest := st.dest.set st.index (.struct elem) }
            else .panic st.dest := by
  simp only [loadLines, loadLinesRO, convFields]

theorem loadContent_eq (a : Arch) (sep : Bytes) (pt : GoType) (fieldTypes : List GoType)
    (linenum : Nat) (lines : List Bytes) :
    loadContent a sep pt fieldTypes linenum lines =
      match loadLines a sep fieldTypes linenum lines
          { index := 0, elem := zeroValues fieldTypes,
            dest := List.replicate linenum (.struct (zeroValues fieldTypes)) } with
      | .ret n err dest => .ret n err (some (.ptr pt, .ptr (.slice dest)))
      | .panic dest => .panic (some (.ptr pt, .ptr (.slice dest))) := rfl

theorem convGroup_zero (a : Arch) (tailLineSegs : List Bytes) (groupTypes : List GoType)
    (v i j : Nat) (gf : List Value) :
    convGroup a tailLineSegs groupTypes v i 0 j gf = .done gf := rfl

theorem convGroup_succ (a : Arch) (tailLineSegs : List Bytes) (groupTypes : List GoType)
    (v i n j : Nat) (gf : List Value) :
    convGroup a tailLineSegs groupTypes v i (n + 1) j gf =
      match tailLineSegs[i * v + j]?, groupTypes[j]? with
      | some seg, some t =>
        match convString a (TrimSpace seg) t with
        | .error e => .fail e
        | .ok x => convGroup a tailLineSegs groupTypes v i n (j + 1) (gf.set j x)
      | _, _ => .panic := by
  simp only [convGroup, convGroupRO, List.getD_nil, Bool.false_eq_true, if_false]

theorem convGroupRO_nil (a : Arch) (tailLineSegs : List Bytes) (groupTypes : List GoType)
    (v i n j : Nat) (gf : List Value) :
    convGroupRO a tailLineSegs groupTypes [] v i n j gf =
      convGroup a tailLineSegs groupTypes v i n j gf := rfl

/-- A path whose content is given opens and is read. -/
theorem state_of_content (fs : FileSystem) (path content : Bytes)
    (h : fs path = some content) : fs.state path = .file content := by
  change FileSystem.content fs path = some content at h
  unfold FileSystem.content at h
  split at h
  · rename_i c hc
    rw [hc]
    simp only [Option.some.injEq] at h
    rw [h]
  · simp at h

theorem content_oneFile (content path : Bytes) : oneFile content path = some content := rfl

/-- The scanner yields every line when every line fits its buffer. -/
theorem scanLines_of_fit (content : Bytes)
    (hfit : ∀ l ∈ rawLines content, l.length < maxScanTokenSize) :
    scanLines content = (rawLines content).map dropCR := by
  unfold scanLines
  rw [List.takeWhile_eq_self_iff.mpr]
  intro l hl
  simpa using hfit l hl

theorem scanLines_joinLines (lines : List Bytes) (hnl : ∀ l ∈ lines, 10 ∉ l) :
    scanLines (joinLines lines) =
      (lines.takeWhile (fun l => decide (l.length < maxScanTokenSize))).map dropCR := by
  unfold scanLines
  rw [rawLines_joinLines lines hnl]

theorem takeWhile_fit (lines : List Bytes) (hfit : ∀ l ∈ lines, l.length < maxScanTokenSize) :
    lines.takeWhile (fun l => decide (l.length < maxScanTokenSize)) = lines := by
  rw [List.takeWhile_eq_self_iff]
  intro l hl
  simpa using hfit l hl

theorem scanLines_joinLines_fit (lines : List Bytes) (hnl : ∀ l ∈ lines, 10 ∉ l)
    (hfit : ∀ l ∈ lines, l.length < maxScanTokenSize) :
    scanLines (joinLines lines) = lines.map dropCR := by
  rw [scanLines_joinLines lines hnl, takeWhile_fit lines hfit]

/-- A loop over the fields that does not panic goes as for exported fields. -/
theorem convFieldsRO_ne_panic (a : Arch) (segs : List Bytes) (fieldTypes : List GoType)
    (ro : List Bool) (n i : Nat) (elem : List Value)
    (h : convFieldsRO a segs fieldTypes ro n i elem ≠ .panic) :
    convFields a segs fieldTypes n i elem = convFieldsRO a segs fieldTypes ro n i elem := by
  induction n generalizing i elem with
  | zero => rfl
  | succ n ih =>
    rw [convFields_succ]
    unfold convFieldsRO at h ⊢
    cases hs : segs[i]? with
    | none => rfl
    | some seg =>
      cases ht : fieldTypes[i]? with
      | none => rfl
      | some t =>
        rw [hs, ht] at h
        simp only at h ⊢
        cases hc : convString a (TrimSpace seg) t with
        | error e => rfl
        | ok v =>
          rw [hc] at h
          simp only at h ⊢
          by_cases hro : ro.getD i false = true
          · rw [if_pos hro] at h
            exact absurd rfl h
          · rw [if_neg hro] at h ⊢
            exact ih (i + 1) _ h

/-- A run of the scanning loop that returns goes as for exported fields. -/
theorem loadLinesRO_ret (a : Arch) (sep : Bytes) (fieldTypes : List GoType) (ro : List Bool)
    (linenum : Nat) (lines : List Bytes) (st : LoopState) (n : Nat) (err : Option LoadError)
    (d : List Value)
    (h : loadLinesRO a sep fieldTypes ro linenum lines st = .ret n err d) :
    loadLines a sep fieldTypes linenum lines st = .ret n err d := by
  induction lines generalizing st with
  | nil => exact h
  | cons l ls ih =>
    rw [loadLines_cons]
    unfold loadLinesRO at h
    simp only at h
    split at h
    · rename_i h0
      rw [if_pos h0]
      exact ih st h
    · rename_i h0
      rw [if_neg h0]
      split at h
      · rename_i h1
        rw [if_pos h1]
        exact h
      · rename_i h1
        rw [if_neg h1]
        have hnp : convFieldsRO a (Split (TrimSpace l) sep) fieldTypes ro fieldTypes.length 0
            st.elem ≠ .panic := by
          intro hp
          rw [hp] at h
          simp at h
        rw [convFieldsRO_ne_panic a _ fieldTypes ro _ 0 st.elem hnp]
        split at h
        · exact h
        · rename_i hp
          exact absurd hp hnp
        · rename_i elem he
          split at h
          · rename_i hlt
            rw [if_pos hlt]
            exact ih _ h
          · simp at h

/-- A call that returns on a file that opens and reads returns what the loop
for exported fields returns on the lines the scanner yields. -/
theorem LoadRefDat_ret (a : Arch) (fs : FileSystem) (path sep : Bytes) (e : GoType)
    (prior : List Value) (content : Bytes) (n : Nat) (err : Option LoadError) (s2 : Arg)
    (he : e.isStruct = true) (hfile : fs path = some content)
    (h : LoadRefDat a fs path sep (recordsArg e prior) = .ret n err s2) :
    ∃ d, s2 = recordsArg e d ∧
      loadLines a sep (structFields e) (lineCounter content) (scanLines content)
        { index := 0, elem := zeroValues (structFields e),
          dest := List.replicate (lineCounter content)
            (.struct (zeroValues (structFields e))) } = .ret n err d := by
  have hs := state_of_content fs path content hfile
  simp only [LoadRefDat, recordsArg, he, hs, if_true, loadContentRO] at h
  split at h
  · rename_i n2 err2 d hl
    simp only [Outcome.ret.injEq] at h
    obtain ⟨h1, h2, h3⟩ := h
    subst h1; subst h2
    exact ⟨d, h3.symm, loadLinesRO_ret a sep _ _ _ _ _ _ _ _ hl⟩
  · simp at h
/-! ## The scanning loop of LoadRefDat -/

theorem convFields_done_aux (a : Arch) (segs : List Bytes) (fieldTypes : List GoType)
    (hlen : segs.length = fieldTypes.length)
    (hconv : ∀ (k : Nat) (tok : Bytes) (t : GoType), segs[k]? = some tok → fieldTypes[k]? = some t →
      ∃ v, convString a (TrimSpace tok) t = .ok v)
    (n i : Nat) (elem : List Value) (hin : i + n = fieldTypes.length)
    (helem : elem.length = fieldTypes.length) :
    ∃ fields, convFields a segs fieldTypes n i elem = .done fields ∧
      fields.length = fieldTypes.length ∧
      (∀ k, k < i → fields[k]? = elem[k]?) ∧
      (∀ (k : Nat) (tok : Bytes) (t : GoType), i ≤ k → segs[k]? = some tok → fieldTypes[k]? = some t →
        ∃ v, fields[k]? = some v ∧ convString a (TrimSpace tok) t = .ok v) := by
  induction n generalizing i elem with
  | zero =>
    refine ⟨elem, rfl, helem, fun _ _ => rfl, ?_⟩
    intro k tok t hk hs _
    have := (List.getElem?_eq_some_iff.mp hs).1
    omega
  | succ n ih =>
    have hi1 : i < segs.length := by omega
    have hi2 : i < fieldTypes.length := by omega
    obtain ⟨v, hv⟩ := hconv i segs[i] fieldTypes[i]
      (List.getElem?_eq_getElem hi1) (List.getElem?_eq_getElem hi2)
    obtain ⟨fields, hf, hfl, hlow, hhigh⟩ :=
      ih (i + 1) (elem.set i v) (by omega) (by simpa using helem)
    refine ⟨fields, ?_, hfl, ?_, ?_⟩
    · simp only [convFields_succ, List.getElem?_eq_getElem hi1, List.getElem?_eq_getElem hi2, hv]
      exact hf
    · intro k hk
      rw [hlow k (by omega), List.getElem?_set_ne (by omega)]
    · intro k tok t hk hs ht
      by_cases hki : k = i
      · subst hki
        rw [List.getElem?_eq_getElem hi1] at hs
        rw [List.getElem?_eq_getElem hi2] at ht
        cases hs; cases ht
        refine ⟨v, ?_, hv⟩
        rw [hlow k (by omega), List.getElem?_set_self (by omega)]
      · exact hhigh k tok t (by omega) hs ht

theorem convFields_done (a : Arch) (segs : List Bytes) (fieldTypes : List GoType)
    (elem : List Value)
    (hlen : segs.length = fieldTypes.length)
    (helem : elem.length = fieldTypes.length)
    (hconv : ∀ (k : Nat) (tok : Bytes) (t : GoType), segs[k]? = some tok → fieldTypes[k]? = some t →
      ∃ v, convString a (TrimSpace tok) t = .ok v) :
    ∃ fields, convFields a segs fieldTypes fieldTypes.length 0 elem = .done fields ∧
      Converted a segs fieldTypes fields := by
  obtain ⟨fields, hf, hfl, -, hhigh⟩ :=
    convFields_done_aux a segs fieldTypes hlen hconv fieldTypes.length 0 elem (by omega) helem
  exact ⟨fields, hf, hfl, fun k tok t hs ht => hhigh k tok t (Nat.zero_le k) hs ht⟩

theorem convFields_fail_aux (a : Arch) (segs : List Bytes) (fieldTypes : List GoType)
    (hlen : segs.length = fieldTypes.length)
    (k : Nat) (tok : Bytes) (t : GoType) (e : ConvError)
    (hs : segs[k]? = some tok) (ht : fieldTypes[k]? = some t)
    (he : convString a (TrimSpace tok) t = .error e)
    (hprev : ∀ (j : Nat) (tok' : Bytes) (t' : GoType), j < k → segs[j]? = some tok' → fieldTypes[j]? = some t' →
      ∃ v, convString a (TrimSpace tok') t' = .ok v)
    (n i : Nat) (elem : List Value) (hin : i + n = fieldTypes.length) (hik : i ≤ k) :
    convFields a segs fieldTypes n i elem = .fail e := by
  induction n generalizing i elem with
  | zero =>
    have := (List.getElem?_eq_some_iff.mp ht).1
    omega
  | succ n ih =>
    have hi1 : i < segs.length := by omega
    have hi2 : i < fieldTypes.length := by omega
    by_cases hki : i = k
    · subst hki
      simp only [convFields_succ, hs, ht, he]
    · obtain ⟨v, hv⟩ := hprev i segs[i] fieldTypes[i] (by omega)
        (List.getElem?_eq_getElem hi1) (List.getElem?_eq_getElem hi2)
      simp only [convFields_succ, List.getElem?_eq_getElem hi1, List.getElem?_eq_getElem hi2, hv]
      exact ih (i + 1) _ (by omega) (by omega)

theorem convFields_cases (a : Arch) (segs : List Bytes) (fieldTypes : List GoType)
    (n i : Nat) (elem : List Value) :
    (∃ fields, convFields a segs fieldTypes n i elem = .done fields ∧
      fields.length = elem.length) ∨
    (∃ e, convFields a segs fieldTypes n i elem = .fail e) ∨
    convFields a segs fieldTypes n i elem = .panic := by
  induction n generalizing i elem with
  | zero => exact Or.inl ⟨elem, rfl, rfl⟩
  | succ n ih =>
    rw [convFields_succ]
    split
    · split
      · exact Or.inr (Or.inl ⟨_, rfl⟩)
      · rename_i v _
        rcases ih (i + 1) (elem.set i v) with ⟨f, hf, hl⟩ | h | h
        · exact Or.inl ⟨f, hf, by simpa using hl⟩
        · exact Or.inr (Or.inl h)
        · exact Or.inr (Or.inr h)
    · exact Or.inr (Or.inr rfl)

theorem isBlank_iff (l : Bytes) : isBlank l = true ↔ (TrimSpace l).length = 0 := by
  simp [isBlank, List.isEmpty_iff]

theorem loadLines_blank (a : Arch) (sep : Bytes) (fieldTypes : List GoType) (linenum : Nat)
    (l : Bytes) (rest : List Bytes) (st : LoopState)
    (hb : isBlank l = true) (hi : st.index + 2 ≤ linenum) :
    loadLines a sep fieldTypes linenum (l :: rest) st =
      loadLines a sep fieldTypes linenum rest st := by
  have h0 := (isBlank_iff l).mp hb
  rw [loadLines_cons, if_pos ⟨h0, by omega⟩]

theorem loadLines_not_skipped (a : Arch) (sep : Bytes) (fieldTypes : List GoType)
    (linenum : Nat) (l : Bytes) (rest : List Bytes) (st : LoopState)
    (hb : isBlank l = false ∨ linenum ≤ st.index + 1) :
    loadLines a sep fieldTypes linenum (l :: rest) st =
      if (Split (TrimSpace l) sep).length ≠ fieldTypes.length then
        .ret (st.index + 1)
          (some (.fieldCount (st.index + 1) (Split (TrimSpace l) sep).length fieldTypes.length))
          st.dest
      else
        match convFields a (Split (TrimSpace l) sep) fieldTypes fieldTypes.length 0 st.elem with
        | .fail e => .ret (st.index + 1) (some (.conv e)) st.dest
        | .panic => .panic st.dest
        | .done elem =>
          if st.index < st.dest.length then
            loadLines a sep fieldTypes linenum rest
              { index := st.index + 1, elem := elem,
                dest := st.dest.set st.index (.struct elem) }
          else .panic st.dest := by
  have h0 : ¬ ((TrimSpace l).length = 0 ∧ (st.index : Int) < (linenum : Int) - 1) := by
    rintro ⟨h1, h2⟩
    rcases hb with hb | hb
    · rw [(isBlank_iff l).mpr h1] at hb
      exact absurd hb (by simp)
    · omega
  rw [loadLines_cons, if_neg h0]

theorem loadLines_map_dropCR (a : Arch) (sep : Bytes) (fieldTypes : List GoType)
    (linenum : Nat) (lines : List Bytes) (st : LoopState) :
    loadLines a sep fieldTypes linenum (lines.map dropCR) st =
      loadLines a sep fieldTypes linenum lines st := by
  induction lines generalizing st with
  | nil => rfl
  | cons l ls ih =>
    rw [List.map_cons, loadLines_cons, loadLines_cons]
    simp only [TrimSpace_dropCR, ih]

theorem set_take_succ {α : Type} (l : List α) (i : Nat) (x : α) (h : i < l.length) :
    (l.set i x).take (i + 1) = l.take i ++ [x] := by
  apply List.ext_getElem?
  intro k
  rw [List.getElem?_take]
  by_cases hk : k < i
  · rw [if_pos (by omega), List.getElem?_set_ne (by omega),
      List.getElem?_append_left (by rw [List.length_take]; omega), List.getElem?_take,
      if_pos hk]
  · by_cases hki : k = i
    · subst hki
      rw [if_pos (by omega), List.getElem?_set_self h,
        List.getElem?_append_right (by rw [List.length_take]; omega)]
      simp [List.length_take, Nat.min_eq_left (Nat.le_of_lt h)]
    · rw [if_neg (by omega), List.getElem?_append_right (by rw [List.length_take]; omega)]
      simp [List.length_take, Nat.min_eq_left (Nat.le_of_lt h)]
      omega

theorem loadLines_good_lines (a : Arch) (sep : Bytes) (fieldTypes : List GoType)
    (linenum : Nat) (pre : List Bytes) (st : LoopState)
    (hpre : ∀ l ∈ pre, isBlank l = true ∨ GoodLine a sep fieldTypes l)
    (helem : st.elem.length = fieldTypes.length)
    (hstore : st.index + (nonBlank pre).length ≤ st.dest.length)
    (hskip : (∃ l ∈ pre, isBlank l = true) →
      st.index + (nonBlank pre).length + 2 ≤ linenum) :
    ∃ (recs : List (List Value)) (elem' : List Value),
      List.Forall₂ (fun l fields => Converted a (Split (TrimSpace l) sep) fieldTypes fields)
        (nonBlank pre) recs ∧
      elem'.length = fieldTypes.length ∧
      ∀ rest, loadLines a sep fieldTypes linenum (pre ++ rest) st =
        loadLines a sep fieldTypes linenum rest
          { index := st.index + recs.length, elem := elem',
            dest := st.dest.take st.index ++ recs.map Value.struct ++
              st.dest.drop (st.index + recs.length) } := by
  induction pre generalizing st with
  | nil =>
    refine ⟨[], st.elem, List.Forall₂.nil, helem, ?_⟩
    intro rest
    simp
  | cons l pre' ih =>
    have hl := hpre l (List.mem_cons_self l pre')
    have hpre' : ∀ x ∈ pre', isBlank x = true ∨ GoodLine a sep fieldTypes x :=
      fun x hx => hpre x (List.mem_cons_of_mem l hx)
    by_cases hb : isBlank l = true
    · have hnb : nonBlank (l :: pre') = nonBlank pre' := by
        simp [nonBlank, List.filter_cons, hb]
      rw [hnb] at hstore hskip
      have hsk := hskip ⟨l, List.mem_cons_self l pre', hb⟩
      obtain ⟨recs, elem', hrec, hel, hrun⟩ := ih st hpre' helem hstore (fun _ => hsk)
      refine ⟨recs, elem', by rw [hnb]; exact hrec, hel, ?_⟩
      intro rest
      rw [List.cons_append, loadLines_blank a sep fieldTypes linenum l _ st hb (by omega)]
      exact hrun rest
    · have hb' : isBlank l = false := by simpa using hb
      have hg : GoodLine a sep fieldTypes l := by
        rcases hl with h | h
        · exact absurd h hb
        · exact h
      have hnb : nonBlank (l :: pre') = l :: nonBlank pre' := by
        simp [nonBlank, List.filter_cons, hb']
      rw [hnb, List.length_cons] at hstore hskip
      obtain ⟨fields, hf, hconv⟩ :=
        convFields_done a (Split (TrimSpace l) sep) fieldTypes st.elem hg.2.1 helem hg.2.2
      have hidx : st.index < st.dest.length := by omega
      obtain ⟨recs, elem', hrec, hel, hrun⟩ :=
        ih { index := st.index + 1, elem := fields,
             dest := st.dest.set st.index (.struct fields) } hpre' hconv.1
          (by simp only [List.length_set]; omega)
          (fun h => by
            have := hskip (by
              obtain ⟨x, hx, hxb⟩ := h
              exact ⟨x, List.mem_cons_of_mem l hx, hxb⟩)
            simp only; omega)
      refine ⟨fields :: recs, elem', by rw [hnb]; exact List.Forall₂.cons hconv hrec, hel, ?_⟩
      intro rest
      rw [List.cons_append, loadLines_not_skipped a sep fieldTypes linenum l _ st (Or.inl hb'),
        if_neg (by simpa using hg.2.1), hf]
      simp only
      rw [if_pos hidx, hrun rest]
      dsimp only
      rw [set_take_succ _ _ _ hidx, List.drop_set_of_lt _ _ (by omega)]
      simp only [List.length_cons, List.map_cons, List.append_assoc, List.singleton_append,
        Nat.add_assoc, Nat.add_comm 1]

theorem joinLines_cons (l : Bytes) (ls : List Bytes) :
    joinLines (l :: ls) = l ++ 10 :: joinLines ls := by
  simp [joinLines]

theorem rawLines_joinLines_append (lines : List Bytes) (rest : Bytes)
    (hl : ∀ l ∈ lines, 10 ∉ l) :
    rawLines (joinLines lines ++ rest) = lines ++ rawLines rest := by
  induction lines with
  | nil => rfl
  | cons l ls ih =>
    have h1 := hl l (List.mem_cons_self l ls)
    have h2 := ih (fun x hx => hl x (List.mem_cons_of_mem l hx))
    rw [joinLines_cons, List.append_assoc, List.cons_append, rawLines_line l _ h1, h2,
      List.cons_append]

theorem lineCounter_joinLines_append (lines : List Bytes) (rest : Bytes)
    (hl : ∀ l ∈ lines, 10 ∉ l) :
    lineCounter (joinLines lines ++ rest) = lines.length + lineCounter rest := by
  unfold lineCounter
  rw [List.count_append]
  have := lineCounter_joinLines lines hl
  unfold lineCounter at this
  rw [this]

theorem zeroValues_length (ts : List GoType) : (zeroValues ts).length = ts.length := by
  induction ts with
  | nil => rfl
  | cons t ts ih => simp [zeroValues, ih]

theorem forall₂_getElem? {α β : Type} {R : α → β → Prop} {xs : List α} {ys : List β}
    (h : List.Forall₂ R xs ys) (i : Nat) (x : α) (y : β)
    (hx : xs[i]? = some x) (hy : ys[i]? = some y) : R x y := by
  induction h generalizing i with
  | nil => simp at hx
  | cons hr _ ih =>
    cases i with
    | zero =>
      simp at hx hy
      subst hx; subst hy
      exact hr
    | succ j =>
      simp at hx hy
      exact ih j hx hy

theorem nonBlank_eq_self (lines : List Bytes) (h : ∀ l ∈ lines, isBlank l = false) :
    nonBlank lines = lines := by
  unfold nonBlank
  rw [List.filter_eq_self]
  intro l hl
  simp [h l hl]

theorem toBool_eq_true {ε α : Type} (x : Except ε α) (h : x.toBool = true) :
    ∃ v, x = .ok v := by
  cases x with
  | ok v => exact ⟨v, rfl⟩
  | error e => simp [Except.toBool] at h

theorem goodLine_of_zip (a : Arch) (sep : Bytes) (fieldTypes : List GoType) (l : Bytes)
    (hb : TrimSpace l ≠ [])
    (hc : (Split (TrimSpace l) sep).length = fieldTypes.length)
    (hz : ∀ p ∈ (Split (TrimSpace l) sep).zip fieldTypes,
      (convString a (TrimSpace p.1) p.2).toBool = true) :
    GoodLine a sep fieldTypes l := by
  refine ⟨by simp [isBlank, List.isEmpty_iff, hb], hc, ?_⟩
  intro k tok t hs ht
  have hm : (tok, t) ∈ (Split (TrimSpace l) sep).zip fieldTypes :=
    List.getElem?_mem (List.getElem?_zip_eq_some.mpr ⟨hs, ht⟩)
  exact toBool_eq_true _ (hz _ hm)

theorem loadContent_map_dropCR (a : Arch) (sep : Bytes) (pt : GoType)
    (fieldTypes : List GoType) (linenum : Nat) (lines : List Bytes) :
    loadContent a sep pt fieldTypes linenum (lines.map dropCR) =
      loadContent a sep pt fieldTypes linenum lines := by
  simp only [loadContent_eq, loadLines_map_dropCR]

/-- The call for a destination that points to a slice of structs, on a path
that opens and reads. -/
theorem LoadRefDat_recordsArg (a : Arch) (fs : FileSystem) (path sep : Bytes)
    (e : GoType) (prior : List Value) (content : Bytes)
    (he : e.isStruct = true) (hfile : fs path = some content) :
    LoadRefDat a fs path sep (recordsArg e prior) =
      loadContentRO a sep (.slice e) (structFields e) (unexportedFields e)
        (lineCounter content) (scanLines content) := by
  have hs := state_of_content fs path content hfile
  simp only [LoadRefDat, recordsArg, he, hs, if_true]

theorem LoadRefDat_sliceArg (a : Arch) (fs : FileSystem) (path sep : Bytes)
    (fieldTypes : List GoType) (prior : List Value) (content : Bytes)
    (hfile : fs path = some content) :
    LoadRefDat a fs path sep (sliceArg fieldTypes prior) =
      loadContent a sep (.slice (.struct fieldTypes)) fieldTypes (lineCounter content)
        (scanLines content) :=
  LoadRefDat_recordsArg a fs path sep (.struct fieldTypes) prior content rfl hfile

/-- C1 as amended: a file made of L newline-terminated lines, each shorter
than 64 KiB and none of them blank, each with as many tokens as the record
type has fields and every trimmed token convertible to its field type, is
loaded completely into a slice of records whose fields are all exported:
LoadRefDat returns L and no error, the destination holds exactly L records,
and field k of record i is the value convString gives for the trimmed k-th
token of line i. -/
theorem LoadRefDat_loads_every_line (a : Arch) (fs : FileSystem) (path sep : Bytes)
    (fieldTypes : List GoType) (lines : List Bytes) (prior : List Value)
    (hfile : fs path = some (joinLines lines))
    (hnl : ∀ l ∈ lines, 10 ∉ l)
    (hfit : ∀ l ∈ lines, l.length < 65536)
    (hblank : ∀ l ∈ lines, TrimSpace l ≠ [])
    (hcount : ∀ l ∈ lines, (Split (TrimSpace l) sep).length = fieldTypes.length)
    (hconv : ∀ l ∈ lines, ∀ p ∈ (Split (TrimSpace l) sep).zip fieldTypes,
      (convString a (TrimSpace p.1) p.2).toBool = true) :
    ∃ recs : List (List Value),
      LoadRefDat a fs path sep (sliceArg fieldTypes prior) =
        .ret lines.length none (sliceArg fieldTypes (recs.map Value.struct)) ∧
      recs.length = lines.length ∧
      ∀ (i : Nat) (l : Bytes) (fields : List Value),
        lines[i]? = some l → recs[i]? = some fields →
        fields.length = fieldTypes.length ∧
        ∀ (k : Nat) (tok : Bytes) (t : GoType),
          (Split (TrimSpace l) sep)[k]? = some tok → fieldTypes[k]? = some t →
          ∃ v, fields[k]? = some v ∧ convString a (TrimSpace tok) t = .ok v := by
  have hgood : ∀ l ∈ lines, isBlank l = true ∨ GoodLine a sep fieldTypes l :=
    fun l hl => Or.inr (goodLine_of_zip a sep fieldTypes l (hblank l hl) (hcount l hl)
      (hconv l hl))
  have hnb : nonBlank lines = lines :=
    nonBlank_eq_self lines (fun l hl => by
      simp [isBlank, List.isEmpty_iff, hblank l hl])
  have hnoblank : ¬ ∃ l ∈ lines, isBlank l = true := by
    rintro ⟨l, hl, hb⟩
    have := hblank l hl
    simp [isBlank, List.isEmpty_iff] at hb
    exact this hb
  have hraw : scanLines (joinLines lines) = lines.map dropCR :=
    scanLines_joinLines_fit lines hnl hfit
  have hcnt := lineCounter_joinLines lines hnl
  obtain ⟨recs, elem', hrec, -, hrun⟩ :=
    loadLines_good_lines a sep fieldTypes lines.length lines
      { index := 0, elem := zeroValues fieldTypes,
        dest := List.replicate lines.length (.struct (zeroValues fieldTypes)) }
      hgood (zeroValues_length fieldTypes) (by simp [hnb])
      (fun h => absurd h hnoblank)
  rw [hnb] at hrec
  have hlen : recs.length = lines.length := hrec.length_eq.symm
  refine ⟨recs, ?_, hlen, ?_⟩
  · rw [LoadRefDat_sliceArg a fs path sep fieldTypes prior _ hfile, hraw, hcnt,
      loadContent_map_dropCR, loadContent_eq]
    have h := hrun []
    rw [List.append_nil] at h
    rw [h]
    simp [loadLines_nil, hlen, sliceArg]
  · intro i l fields hl hf
    exact forall₂_getElem? hrec i l fields hl hf

theorem LoadRefDat_loads_every_line_witness :
    ∃ recs : List (List Value),
      LoadRefDat .bits64 (oneFile (joinLines [utf8 "1|2|abc", utf8 " -3 | 4 | x y\r"]))
          (utf8 "ref.dat") (utf8 "|") (sliceArg testElem []) =
        .ret 2 none (sliceArg testElem (recs.map Value.struct)) ∧ recs.length = 2 := by
  obtain ⟨recs, h1, h2, -⟩ := LoadRefDat_loads_every_line .bits64
    (oneFile (joinLines [utf8 "1|2|abc", utf8 " -3 | 4 | x y\r"])) (utf8 "ref.dat") (utf8 "|")
    testElem [utf8 "1|2|abc", utf8 " -3 | 4 | x y\r"] [] rfl (by decide) (by decide)
    (by decide) (by decide) (by decide)
  exact ⟨recs, h1, h2⟩

/-- The scanner yields nothing from a first line of 64 KiB or more on. -/
theorem scanLines_long_line (l rest : Bytes) (hl : 10 ∉ l) (hlong : maxScanTokenSize ≤ l.length) :
    scanLines (l ++ 10 :: rest) = [] := by
  unfold scanLines
  rw [rawLines_line l rest hl, List.takeWhile_cons_of_neg (by simpa using hlong)]
  rfl

theorem lineCounter_line (l rest : Bytes) (hl : 10 ∉ l) :
    lineCounter (l ++ 10 :: rest) = lineCounter rest + 1 := by
  unfold lineCounter
  rw [List.count_append, List.count_cons_self, List.count_eq_zero_of_not_mem hl]
  omega

/-- The outcome on a file that starts with a line of 64 KiB or more: no line
is scanned, the call returns 0 and no error, and the destination holds a zero
record for every newline of the file. -/
theorem LoadRefDat_long_first_line (a : Arch) (fs : FileSystem) (path sep : Bytes)
    (fieldTypes : List GoType) (prior : List Value) (l rest : Bytes)
    (hfile : fs path = some (l ++ 10 :: rest)) (hl : 10 ∉ l)
    (hlong : maxScanTokenSize ≤ l.length) :
    LoadRefDat a fs path sep (sliceArg fieldTypes prior) =
      .ret 0 none (sliceArg fieldTypes
        (List.replicate (lineCounter rest + 1) (.struct (zeroValues fieldTypes)))) := by
  rw [LoadRefDat_sliceArg a fs path sep fieldTypes prior _ hfile, scanLines_long_line l rest hl
    hlong, lineCounter_line l rest hl, loadContent_eq, loadLines_nil]
  rfl

theorem newline_not_mem_replicate (n b : Nat) (hb : b ≠ 10) : 10 ∉ List.replicate n b := by
  intro h
  exact hb (List.eq_of_mem_replicate h).symm

/-- C1 as stated fails in two ways.  A well-formed line of 65536 bytes is not
scanned: the call returns 0 and no error, and leaves a zero record, where the
claim has the count 1 and the record of the line.  A record type with a field
that is not exported makes the call panic on the first well-formed line. -/
theorem long_line_or_unexported_field_not_loaded :
    LoadRefDat .bits64 (oneFile (List.replicate 65536 97 ++ [10])) (utf8 "ref.dat") (utf8 "|")
        (sliceArg [.string] []) =
      .ret 0 none (sliceArg [.string] [.struct [.str []]]) ∧
    LoadRefDat .bits64 (oneFile (utf8 "7\n")) (utf8 "ref.dat") (utf8 "|")
        (recordsArg (.structRO [.int] [true]) []) =
      .panic (recordsArg (.structRO [.int] [true]) [.struct [.int 0]]) :=
  ⟨LoadRefDat_long_first_line .bits64 (oneFile (List.replicate 65536 97 ++ [10]))
      (utf8 "ref.dat") (utf8 "|") [.string] [] (List.replicate 65536 97) []
      (content_oneFile _ _) (newline_not_mem_replicate 65536 97 (by decide))
      (by rw [List.length_replicate]; decide),
    by decide⟩
/-! ## Blank lines and the length of the destination -/

/-- C4, the code at the failing input: the final line of the file has no
newline, so the blank line 2 is not the final line; it is not skipped but
tokenized and field-count checked, and the call stops with the field-count
error of one token for three fields, where the claim and the comment in the
code have the line skipped and the records of lines 1 and 3 returned. -/
theorem blank_line_before_unterminated_line_not_skipped :
    LoadRefDat .bits64 (oneFile (utf8 "1|2|abc\n\n4|5|6")) (utf8 "ref.dat") (utf8 "|")
        (sliceArg testElem []) =
      .ret 2 (some (.fieldCount 2 1 3))
        (sliceArg testElem [.struct [.int 1, .uint 2, .str (utf8 "abc")],
          .struct [.int 0, .uint 0, .str []]]) := by
  decide

/-- C5, the code at the failing input: the file ends with two blank lines, the
first of them is skipped, and then the final line is skipped as well, where
the claim has it tokenized and field-count checked (which for three fields
would be a field-count error): the call returns one record and no error. -/
theorem LoadRefDat_final_blank_line_skipped :
    LoadRefDat .bits64 (oneFile (utf8 "1|2|abc\n\n\n")) (utf8 "ref.dat") (utf8 "|")
        (sliceArg testElem []) =
      .ret 1 none
        (sliceArg testElem [.struct [.int 1, .uint 2, .str (utf8 "abc")],
          .struct [.int 0, .uint 0, .str []], .struct [.int 0, .uint 0, .str []]]) := by
  decide

theorem loadLines_success_invariant (a : Arch) (sep : Bytes) (fieldTypes : List GoType)
    (linenum : Nat) (lines : List Bytes) (st : LoopState) (n : Nat) (d : List Value)
    (hidx : st.index ≤ st.dest.length)
    (h : loadLines a sep fieldTypes linenum lines st = .ret n none d) :
    d.length = st.dest.length ∧ st.index ≤ n ∧ n ≤ d.length ∧
    ((∀ l ∈ lines, isBlank l = false) → n = st.index + lines.length) := by
  induction lines generalizing st with
  | nil =>
    rw [loadLines_nil] at h
    simp only [LoopResult.ret.injEq, true_and] at h
    obtain ⟨h1, h2⟩ := h
    subst h1; subst h2
    exact ⟨rfl, Nat.le_refl _, hidx, fun _ => by simp⟩
  | cons l ls ih =>
    by_cases hskip : isBlank l = true ∧ st.index + 2 ≤ linenum
    · rw [loadLines_blank a sep fieldTypes linenum l ls st hskip.1 hskip.2] at h
      obtain ⟨h1, h2, h3, -⟩ := ih st hidx h
      refine ⟨h1, h2, h3, fun hall => ?_⟩
      have := hall l (List.mem_cons_self l ls)
      rw [hskip.1] at this
      exact absurd this (by simp)
    · have hns : isBlank l = false ∨ linenum ≤ st.index + 1 := by
        by_cases hb : isBlank l = true
        · right
          have : ¬ st.index + 2 ≤ linenum := fun h => hskip ⟨hb, h⟩
          omega
        · left; simpa using hb
      rw [loadLines_not_skipped a sep fieldTypes linenum l ls st hns] at h
      split at h
      · simp at h
      · split at h
        · simp at h
        · simp at h
        · rename_i fields _
          split at h
          · rename_i hlt
            obtain ⟨h1, h2, h3, h4⟩ := ih _ (by simp only [List.length_set]; omega) h
            simp only [List.length_set] at h1
            refine ⟨h1, by simp only at h2; omega, h3, fun hall => ?_⟩
            have := h4 (fun x hx => hall x (List.mem_cons_of_mem l hx))
            simp only [List.length_cons] at this ⊢
            omega
          · simp at h

theorem lineCounter_le_rawLines (content : Bytes) :
    lineCounter content ≤ (rawLines content).length := by
  unfold lineCounter
  induction content with
  | nil => simp [rawLines]
  | cons c cs ih =>
    by_cases hc : c = 10
    · subst hc
      simp only [rawLines, if_true, List.count_cons_self, List.length_cons]
      omega
    · rw [List.count_cons_of_ne (fun h => hc h.symm)]
      simp only [rawLines, if_neg hc]
      split
      · rename_i h0
        rw [h0] at ih
        simp only [List.length_cons, List.length_nil] at ih ⊢
        omega
      · rename_i x xs h0
        rw [h0] at ih
        simp only [List.length_cons] at ih ⊢
        omega

/-- C6 as amended: when LoadRefDat succeeds on a file it can open and read,
the final length of the destination is the number of newline bytes of the
file, and the count returned is at most that length; the two are equal when
every line of the file is shorter than 64 KiB (65536 bytes) and none is
whitespace-only, so that every line was consumed. -/
theorem LoadRefDat_success_length (a : Arch) (fs : FileSystem) (path sep : Bytes)
    (e : GoType) (prior : List Value) (content : Bytes) (n : Nat) (s2 : Arg)
    (he : e.isStruct = true)
    (hfile : fs path = some content)
    (h : LoadRefDat a fs path sep (recordsArg e prior) = .ret n none s2) :
    ∃ recs : List Value, s2 = recordsArg e recs ∧
      recs.length = lineCounter content ∧ n ≤ recs.length ∧
      ((∀ l ∈ rawLines content, l.length < 65536 ∧ isBlank l = false) → n = recs.length) := by
  obtain ⟨d, hs, hl⟩ := LoadRefDat_ret a fs path sep e prior content n none s2 he hfile h
  obtain ⟨h1, -, h3, h4⟩ := loadLines_success_invariant a sep (structFields e) _ _ _ _ _
    (by simp) hl
  simp only [List.length_replicate] at h1
  refine ⟨d, hs, h1, h3, fun hall => ?_⟩
  have hscan : scanLines content = (rawLines content).map dropCR :=
    scanLines_of_fit content (fun l hl => (hall l hl).1)
  have hall2 : ∀ l ∈ scanLines content, isBlank l = false := by
    intro l hl
    rw [hscan] at hl
    obtain ⟨r, hr, rfl⟩ := List.mem_map.mp hl
    have := (hall r hr).2
    simpa [isBlank, TrimSpace_dropCR] using this
  have h5 := h4 hall2
  have h6 := lineCounter_le_rawLines content
  rw [hscan, List.length_map] at h5
  simp only at h5
  omega

theorem LoadRefDat_success_length_witness :
    ∃ recs : List Value,
      (recordsArg (.struct testElem) [.struct [.int 1, .uint 2, .str (utf8 "abc")],
        .struct [.int 0, .uint 0, .str []]]) = recordsArg (.struct testElem) recs ∧
      recs.length = lineCounter (utf8 "\n1|2|abc\n") ∧ 1 ≤ recs.length ∧
      ((∀ l ∈ rawLines (utf8 "\n1|2|abc\n"), l.length < 65536 ∧ isBlank l = false) →
        1 = recs.length) :=
  LoadRefDat_success_length .bits64 (oneFile (utf8 "\n1|2|abc\n")) (utf8 "ref.dat")
    (utf8 "|") (.struct testElem) [] (utf8 "\n1|2|abc\n") 1 _ rfl rfl (by decide)

/-- C6 as stated fails in two ways.  Behind a skipped blank line one record is
loaded, the call returns the count 1 and no error, and the destination has
length 2.  On a file whose only line has 65536 bytes, with no blank line in
it, the call returns the count 0 and no error, and the destination has
length 1. -/
theorem skipped_line_leaves_longer_destination :
    (LoadRefDat .bits64 (oneFile (utf8 "\n1|2|abc\n")) (utf8 "ref.dat") (utf8 "|")
        (sliceArg testElem []) =
      .ret 1 none
        (sliceArg testElem [.struct [.int 1, .uint 2, .str (utf8 "abc")],
          .struct [.int 0, .uint 0, .str []]]) ∧
    [Value.struct [.int 1, .uint 2, .str (utf8 "abc")],
      Value.struct [.int 0, .uint 0, .str []]].length ≠ 1) ∧
    (LoadRefDat .bits64 (oneFile (List.replicate 65536 98 ++ [10])) (utf8 "ref.dat")
        (utf8 "|") (sliceArg [.string] []) =
      .ret 0 none (sliceArg [.string] [.struct [.str []]]) ∧
    [Value.struct [.str []]].length ≠ 0) :=
  ⟨by decide,
    LoadRefDat_long_first_line .bits64 (oneFile (List.replicate 65536 98 ++ [10]))
      (utf8 "ref.dat") (utf8 "|") [.string] [] (List.replicate 65536 98) []
      (content_oneFile _ _) (newline_not_mem_replicate 65536 98 (by decide))
      (by rw [List.length_replicate]; decide), by decide⟩
/-! ## The variable-tail loader -/

theorem convOk_isConv (a : Arch) (tok : Option Bytes) (t : Option GoType)
    (h : convOk a tok t = true) :
    ∃ tok' t' x', tok = some tok' ∧ t = some t' ∧ convString a (TrimSpace tok') t' = .ok x' := by
  match tok, t, h with
  | some tok', some t', h =>
    obtain ⟨x', hx⟩ := toBool_eq_true _ h
    exact ⟨tok', t', x', rfl, rfl, hx⟩

/-- A run of the field loop over indices whose tokens all convert sets exactly
those fields, to the converted values. -/
theorem convFields_run (a : Arch) (segs : List Bytes) (fieldTypes : List GoType)
    (n i : Nat) (elem : List Value)
    (hlen : i + n ≤ elem.length)
    (hok : ∀ k, i ≤ k → k < i + n → convOk a segs[k]? fieldTypes[k]? = true) :
    ∃ fields, convFields a segs fieldTypes n i elem = .done fields ∧
      fields.length = elem.length ∧
      (∀ k, k < i ∨ i + n ≤ k → fields[k]? = elem[k]?) ∧
      (∀ k, i ≤ k → k < i + n → IsConv a segs[k]? fieldTypes[k]? fields[k]?) := by
  induction n generalizing i elem with
  | zero =>
    exact ⟨elem, rfl, rfl, fun _ _ => rfl, fun k h1 h2 => by omega⟩
  | succ n ih =>
    obtain ⟨tok, t, x, hs, ht, hx⟩ := convOk_isConv a _ _ (hok i (Nat.le_refl i) (by omega))
    obtain ⟨fields, hf, hfl, hout, hin⟩ := ih (i + 1) (elem.set i x)
      (by simp only [List.length_set]; omega)
      (fun k h1 h2 => hok k (by omega) (by omega))
    refine ⟨fields, ?_, by simpa using hfl, ?_, ?_⟩
    · rw [convFields_succ]
      simp only [hs, ht, hx]
      exact hf
    · intro k hk
      rw [hout k (by omega), List.getElem?_set_ne (by omega)]
    · intro k h1 h2
      by_cases hki : k = i
      · subst hki
        refine ⟨tok, t, x, hs, ht, ?_, hx⟩
        rw [hout k (by omega), List.getElem?_set_self (by omega)]
      · exact hin k (by omega) (by omega)

theorem convGroup_eq_convFields (a : Arch) (tailLineSegs : List Bytes)
    (groupTypes : List GoType) (v i n j : Nat) (gf : List Value) :
    convGroup a tailLineSegs groupTypes v i n j gf =
      convFields a (tailLineSegs.drop (i * v)) groupTypes n j gf := by
  induction n generalizing j gf with
  | zero => rfl
  | succ n ih =>
    rw [convGroup_succ, convFields_succ]
    simp only [List.getElem?_drop, ih]

/-- The loop over the tail groups, when every token of every group converts:
group `g` holds in its first `v` fields the converted tokens `g*v+j`, and is
unchanged in the fields behind. -/
theorem tailGroups_run (a : Arch) (tailLineSegs : List Bytes) (groupTypes : List GoType)
    (v n : Nat) (hv : v ≤ groupTypes.length)
    (hok : ∀ g, g < n → ∀ j, j < v →
      convOk a tailLineSegs[g * v + j]? groupTypes[j]? = true)
    (r i : Nat) (tail : List Value) (hri : i + r = n) (hlen : tail.length = n)
    (hzero : ∀ g, i ≤ g → g < n → tail[g]? = some (.struct (zeroValues groupTypes))) :
    ∃ tail', tailGroups a tailLineSegs (.struct groupTypes) v r i tail = .done tail' ∧
      tail'.length = n ∧
      (∀ g, g < i → tail'[g]? = tail[g]?) ∧
      (∀ g, i ≤ g → g < n → ∃ gf, tail'[g]? = some (.struct gf) ∧
        gf.length = groupTypes.length ∧
        (∀ j, j < v → IsConv a tailLineSegs[g * v + j]? groupTypes[j]? gf[j]?) ∧
        (∀ j, v ≤ j → gf[j]? = (zeroValues groupTypes)[j]?)) := by
  induction r generalizing i tail with
  | zero =>
    exact ⟨tail, rfl, hlen, fun _ _ => rfl, fun g h1 h2 => by omega⟩
  | succ r ih =>
    have hi : i < n := by omega
    have hz := hzero i (Nat.le_refl i) hi
    obtain ⟨gf, hgf, hgl, hgout, hgin⟩ :=
      convFields_run a (tailLineSegs.drop (i * v)) groupTypes v 0 (zeroValues groupTypes)
        (by rw [zeroValues_length]; omega)
        (fun j _ h2 => by
          rw [List.getElem?_drop]
          exact hok i hi j (by omega))
    obtain ⟨tail', ht, htl, hlow, hhigh⟩ := ih (i + 1) (tail.set i (.struct gf))
      (by omega) (by simpa using hlen)
      (fun g h1 h2 => by
        rw [List.getElem?_set_ne (by omega)]
        exact hzero g (by omega) h2)
    refine ⟨tail', ?_, htl, ?_, ?_⟩
    · simp only [tailGroups, hz, structFields, unexportedFields, fieldsOf, convGroupRO_nil,
        convGroup_eq_convFields, hgf]
      exact ht
    · intro g hg
      rw [hlow g (by omega), List.getElem?_set_ne (by omega)]
    · intro g h1 h2
      by_cases hgi : g = i
      · subst hgi
        refine ⟨gf, ?_, ?_, ?_, ?_⟩
        · rw [hlow g (by omega), List.getElem?_set_self (by omega)]
        · rw [hgl, zeroValues_length]
        · intro j hj
          have := hgin j (Nat.zero_le j) (by omega)
          rwa [List.getElem?_drop] at this
        · intro j hj
          exact hgout j (Or.inr (by omega))
      · exact hhigh g (by omega) h2

theorem tdiv_natCast (T c v : Nat) (hT : c < T) :
    Int.tdiv ((T : Int) - (c : Int) - 1) (v : Int) = (((T - c - 1) / v : Nat) : Int) := by
  have h : (T : Int) - (c : Int) - 1 = ((T - c - 1 : Nat) : Int) := by omega
  rw [h, Int.ofNat_tdiv]

/-- The body of the loop of LoadRefDatVarTail on a well-formed line: the
leading tokens convert, the control token parses to `v` with 1 ≤ v ≤ M, and
the tokens of the (T - c - 1) / v tail groups convert.  The record then holds
the converted leading tokens and a tail of (T - c - 1) / v groups, group `g`
holding the converted tokens c+1+g*v+j in its fields j < v. -/
theorem varTailLine_done (a : Arch) (sep : Bytes) (c : Nat) (fieldTypes groupTypes : List GoType)
    (elem : List Value) (trimedLine ctl : Bytes) (v : Nat)
    (hc : fieldTypes[c]? = some (.slice (.struct groupTypes)))
    (helem : elem.length = fieldTypes.length)
    (hlead : ∀ k, k < c → convOk a (Split trimedLine sep)[k]? fieldTypes[k]? = true)
    (hctl : (Split trimedLine sep)[c]? = some ctl)
    (hv : (Atoi a ctl).1 = (v : Int)) (hv1 : 1 ≤ v) (hvM : v ≤ groupTypes.length)
    (htail : ∀ g, g < ((Split trimedLine sep).length - c - 1) / v → ∀ j, j < v →
      convOk a (Split trimedLine sep)[c + 1 + (g * v + j)]? groupTypes[j]? = true) :
    ∃ elem' groups,
      varTailLine a sep (c : Int) (.struct fieldTypes) elem trimedLine = .done elem' ∧
      elem'.length = fieldTypes.length ∧
      (∀ k, k < c → IsConv a (Split trimedLine sep)[k]? fieldTypes[k]? elem'[k]?) ∧
      (∀ k, c < k → elem'[k]? = elem[k]?) ∧
      elem'[c]? = some (.slice groups) ∧
      groups.length = ((Split trimedLine sep).length - c - 1) / v ∧
      (∀ g, g < ((Split trimedLine sep).length - c - 1) / v →
        ∃ gf, groups[g]? = some (.struct gf) ∧ gf.length = groupTypes.length ∧
          (∀ j, j < v →
            IsConv a (Split trimedLine sep)[c + 1 + (g * v + j)]? groupTypes[j]? gf[j]?) ∧
          (∀ j, v ≤ j → gf[j]? = (zeroValues groupTypes)[j]?)) := by
  have hcl : c < fieldTypes.length := (List.getElem?_eq_some_iff.mp hc).1
  have hT : c < (Split trimedLine sep).length := (List.getElem?_eq_some_iff.mp hctl).1
  obtain ⟨elem1, he1, hl1, hout1, hin1⟩ :=
    convFields_run a (Split trimedLine sep) fieldTypes c 0 elem (by omega)
      (fun k _ h2 => hlead k (by omega))
  obtain ⟨tail, ht, htl, -, hgroups⟩ :=
    tailGroups_run a ((Split trimedLine sep).drop (c + 1)) groupTypes v
      (((Split trimedLine sep).length - c - 1) / v) hvM
      (fun g hg j hj => by
        rw [List.getElem?_drop]
        exact htail g hg j hj)
      (((Split trimedLine sep).length - c - 1) / v) 0
      (List.replicate (((Split trimedLine sep).length - c - 1) / v)
        (.struct (zeroValues groupTypes)))
      (by omega) (by simp)
      (fun g _ h2 => by simp [List.getElem?_replicate, h2])
  refine ⟨elem1.set c (.slice tail), tail, ?_, by rw [List.length_set, hl1, helem], ?_, ?_, ?_,
    htl, ?_⟩
  · have hv0 : ¬ ((v : Int) = 0) := by omega
    have hneg : ¬ ((((Split trimedLine sep).length - c - 1) / v : Nat) : Int) < 0 := by omega
    have hneg2 : ¬ (((((Split trimedLine sep).length - c - 1) / v : Nat) : Int) < 0 ∨
        ([] : List Bool).getD c false = true) := by
      rintro (h | h)
      · exact hneg h
      · simp at h
    simp only [varTailLine, structFields, unexportedFields, convFieldsRO_nil, Int.toNat_ofNat,
      he1, hctl, hv, hc, tdiv_natCast _ c v hT, zeroValue]
    rw [if_neg (by omega), if_neg hv0, if_neg hneg2, ht]
  · intro k hk
    rw [List.getElem?_set_ne (by omega)]
    exact hin1 k (Nat.zero_le k) (by omega)
  · intro k hk
    rw [List.getElem?_set_ne (by omega), hout1 k (Or.inr (by omega))]
  · rw [List.getElem?_set_self (by omega)]
  · intro g hg
    obtain ⟨gf, h1, h2, h3, h4⟩ := hgroups g (Nat.zero_le g) hg
    refine ⟨gf, h1, h2, ?_, h4⟩
    intro j hj
    have := h3 j hj
    rwa [List.getElem?_drop] at this

theorem loadLinesVarTail_not_skipped (a : Arch) (sep : Bytes) (c : Int) (e : GoType)
    (lineNum : Nat) (l : Bytes) (rest : List Bytes) (st : LoopState)
    (hb : isBlank l = false ∨ lineNum ≤ st.index + 1) :
    loadLinesVarTail a sep c e lineNum (l :: rest) st =
      match varTailLine a sep c e st.elem (TrimSpace l) with
      | .fail err => .ret (st.index + 1) (some (.conv err)) st.dest
      | .panic => .panic st.dest
      | .done elem =>
        if st.index < st.dest.length then
          loadLinesVarTail a sep c e lineNum rest
            { index := st.index + 1, elem := elem,
              dest := st.dest.set st.index (.struct elem) }
        else .panic st.dest := by
  have h0 : ¬ ((TrimSpace l).length = 0 ∧ (st.index : Int) < (lineNum : Int) - 1) := by
    rintro ⟨h1, h2⟩
    rcases hb with hb | hb
    · rw [(isBlank_iff l).mpr h1] at hb
      exact absurd hb (by simp)
    · omega
  rw [loadLinesVarTail, if_neg h0]

theorem loadLinesVarTail_map_dropCR (a : Arch) (sep : Bytes) (c : Int) (e : GoType)
    (lineNum : Nat) (lines : List Bytes) (st : LoopState) :
    loadLinesVarTail a sep c e lineNum (lines.map dropCR) st =
      loadLinesVarTail a sep c e lineNum lines st := by
  induction lines generalizing st with
  | nil => rfl
  | cons l ls ih =>
    rw [List.map_cons, loadLinesVarTail, loadLinesVarTail]
    simp only [TrimSpace_dropCR, ih]

theorem tailRecord_of_line (a : Arch) (sep : Bytes) (c : Nat)
    (fieldTypes groupTypes : List GoType) (elem : List Value) (l : Bytes)
    (hc : fieldTypes[c]? = some (.slice (.struct groupTypes)))
    (hM : 1 ≤ groupTypes.length)
    (helem : elem.length = fieldTypes.length)
    (hl : WellFormedTailLine a sep c fieldTypes groupTypes l) :
    ∃ elem', varTailLine a sep (c : Int) (.struct fieldTypes) elem (TrimSpace l) = .done elem' ∧
      TailRecord a sep c fieldTypes groupTypes l elem' := by
  obtain ⟨-, hT, hlead, hv, htail⟩ := hl
  have hctl : (Split (TrimSpace l) sep)[c]? = some ((Split (TrimSpace l) sep)[c]?.getD []) := by
    rw [List.getElem?_eq_getElem hT]; rfl
  obtain ⟨elem', groups, h1, h2, h3, -, h5, h6, h7⟩ :=
    varTailLine_done a sep c fieldTypes groupTypes elem (TrimSpace l) _ groupTypes.length
      hc helem hlead hctl hv hM (Nat.le_refl _) htail
  refine ⟨elem', h1, h2, h3, groups, h5, h6, ?_⟩
  intro g hg
  obtain ⟨gf, g1, g2, g3, -⟩ := h7 g hg
  exact ⟨gf, g1, g2, g3⟩

theorem loadLinesVarTail_good_lines (a : Arch) (sep : Bytes) (c : Nat)
    (fieldTypes groupTypes : List GoType) (lineNum : Nat) (lines : List Bytes)
    (st : LoopState)
    (hc : fieldTypes[c]? = some (.slice (.struct groupTypes)))
    (hM : 1 ≤ groupTypes.length)
    (hgood : ∀ l ∈ lines, WellFormedTailLine a sep c fieldTypes groupTypes l)
    (helem : st.elem.length = fieldTypes.length)
    (hstore : st.index + lines.length ≤ st.dest.length) :
    ∃ (recs : List (List Value)) (elem' : List Value),
      List.Forall₂ (TailRecord a sep c fieldTypes groupTypes) lines recs ∧
      elem'.length = fieldTypes.length ∧
      ∀ rest, loadLinesVarTail a sep (c : Int) (.struct fieldTypes) lineNum (lines ++ rest) st =
        loadLinesVarTail a sep (c : Int) (.struct fieldTypes) lineNum rest
          { index := st.index + recs.length, elem := elem',
            dest := st.dest.take st.index ++ recs.map Value.struct ++
              st.dest.drop (st.index + recs.length) } := by
  induction lines generalizing st with
  | nil =>
    refine ⟨[], st.elem, List.Forall₂.nil, helem, ?_⟩
    intro rest
    simp
  | cons l ls ih =>
    have hl := hgood l (List.mem_cons_self l ls)
    have hb : isBlank l = false := by simp [isBlank, List.isEmpty_iff, hl.1]
    obtain ⟨fields, hf, hrec⟩ :=
      tailRecord_of_line a sep c fieldTypes groupTypes st.elem l hc hM helem hl
    rw [List.length_cons] at hstore
    have hidx : st.index < st.dest.length := by omega
    obtain ⟨recs, elem', hrecs, hel, hrun⟩ :=
      ih ⟨st.index + 1, fields, st.dest.set st.index (.struct fields)⟩
        (fun x hx => hgood x (List.mem_cons_of_mem l hx)) hrec.1
        (by simp only [List.length_set]; omega)
    refine ⟨fields :: recs, elem', List.Forall₂.cons hrec hrecs, hel, ?_⟩
    intro rest
    rw [List.cons_append,
      loadLinesVarTail_not_skipped a sep c _ lineNum l _ st (Or.inl hb), hf]
    dsimp only
    rw [if_pos hidx, hrun rest]
    dsimp only
    rw [set_take_succ _ _ _ hidx, List.drop_set_of_lt _ _ (by omega)]
    simp only [List.length_cons, List.map_cons, List.append_assoc, List.singleton_append,
      Nat.add_assoc, Nat.add_comm 1]

/-- C14 as amended: a newline-terminated file of well-formed variable-tail
lines, each shorter than 64 KiB (65536 bytes), whose control token parses to
M, the number of fields of a tail group, is loaded completely by
LoadRefDatVarTail with the control index c into records whose fields, and
those of the tail groups, are all exported: leading field k of record i is
the value convString gives for the trimmed token k of line i, its tail has
(T - c - 1) / M groups, and field j of group g is the value convString gives
for the trimmed token c+1+g*M+j. -/
theorem LoadRefDatVarTail_loads_every_line (a : Arch) (fs : FileSystem) (path sep : Bytes)
    (c : Nat) (fieldTypes groupTypes : List GoType) (lines : List Bytes) (prior : List Value)
    (hfile : fs path = some (joinLines lines))
    (hnl : ∀ l ∈ lines, 10 ∉ l)
    (hfit : ∀ l ∈ lines, l.length < 65536)
    (hc : fieldTypes[c]? = some (.slice (.struct groupTypes)))
    (hM : 1 ≤ groupTypes.length)
    (hgood : ∀ l ∈ lines, WellFormedTailLine a sep c fieldTypes groupTypes l) :
    ∃ recs : List (List Value),
      LoadRefDatVarTail a fs path sep (c : Int) (sliceArg fieldTypes prior) =
        .ret lines.length none (sliceArg fieldTypes (recs.map Value.struct)) ∧
      recs.length = lines.length ∧
      ∀ (i : Nat) (l : Bytes) (fields : List Value),
        lines[i]? = some l → recs[i]? = some fields →
        TailRecord a sep c fieldTypes groupTypes l fields := by
  have hraw : scanLines (joinLines lines) = lines.map dropCR :=
    scanLines_joinLines_fit lines hnl hfit
  have hcnt := lineCounter_joinLines lines hnl
  have hstate := state_of_content fs path _ hfile
  obtain ⟨recs, elem', hrec, -, hrun⟩ :=
    loadLinesVarTail_good_lines a sep c fieldTypes groupTypes lines.length lines
      ⟨0, zeroValues fieldTypes,
        List.replicate lines.length (.struct (zeroValues fieldTypes))⟩
      hc hM hgood (zeroValues_length fieldTypes) (by simp)
  have hlen : recs.length = lines.length := hrec.length_eq.symm
  refine ⟨recs, ?_, hlen, fun i l fields hl hf => forall₂_getElem? hrec i l fields hl hf⟩
  simp only [LoadRefDatVarTail, sliceArg, hstate, loadContentVarTail, hraw, hcnt,
    loadLinesVarTail_map_dropCR, zeroValue, fieldsOf]
  have h := hrun []
  rw [List.append_nil] at h
  rw [h]
  simp [loadLinesVarTail, hlen]

theorem LoadRefDatVarTail_loads_every_line_witness :
    ∃ recs : List (List Value),
      LoadRefDatVarTail .bits64 (oneFile (joinLines [utf8 "a|b|c|d|2|1|2|3|4|5|6"]))
          (utf8 "test.txt") (utf8 "|") ((4 : Nat) : Int) (sliceArg fileLine []) =
        .ret 1 none (sliceArg fileLine (recs.map Value.struct)) ∧ recs.length = 1 := by
  obtain ⟨recs, h1, h2, -⟩ := LoadRefDatVarTail_loads_every_line .bits64
    (oneFile (joinLines [utf8 "a|b|c|d|2|1|2|3|4|5|6"])) (utf8 "test.txt") (utf8 "|") 4
    fileLine [.uint32, .uint64] [utf8 "a|b|c|d|2|1|2|3|4|5|6"] [] rfl (by decide) (by decide)
    rfl (by decide) (by decide)
  exact ⟨recs, h1, h2⟩

/-- The outcome of LoadRefDatVarTail on a file that starts with a line of
64 KiB or more: no line is scanned, the call returns 0 and no error, and the
destination holds a zero record for every newline of the file. -/
theorem LoadRefDatVarTail_long_first_line (a : Arch) (fs : FileSystem) (path sep : Bytes)
    (c : Int) (e : GoType) (prior : List Value) (l rest : Bytes)
    (hfile : fs path = some (l ++ 10 :: rest)) (hl : 10 ∉ l)
    (hlong : maxScanTokenSize ≤ l.length) :
    LoadRefDatVarTail a fs path sep c (recordsArg e prior) =
      .ret 0 none (recordsArg e (List.replicate (lineCounter rest + 1) (zeroValue e))) := by
  have hstate := state_of_content fs path _ hfile
  simp only [LoadRefDatVarTail, recordsArg, hstate, loadContentVarTail,
    scanLines_long_line l rest hl hlong, lineCounter_line l rest hl, loadLinesVarTail]

/-- C14 as stated fails in three ways.  On a line of the shape the
specification gives, whose control token is the number of tail groups (c = 4,
M = 2, six trailing tokens and the control token 3), the loader takes 3 as the
number of fields of a group and panics on the third field of the first group;
with the control token 2 the tail has the three groups of the claim.  A
well-formed line of 65536 bytes and more is not scanned: the call returns 0
and no error, and leaves a zero record.  A record type with a field that is
not exported makes the call panic on the first well-formed line. -/
theorem control_token_is_group_width :
    (LoadRefDatVarTail .bits64 (oneFile (utf8 "a|b|c|d|3|1|2|3|4|5|6\n")) (utf8 "test.txt")
        (utf8 "|") 4 (sliceArg fileLine []) =
      .panic (sliceArg fileLine [zeroValue (.struct fileLine)]) ∧
    LoadRefDatVarTail .bits64 (oneFile (utf8 "a|b|c|d|2|1|2|3|4|5|6\n")) (utf8 "test.txt")
        (utf8 "|") 4 (sliceArg fileLine []) =
      .ret 1 none (sliceArg fileLine [.struct [.str (utf8 "a"), .str (utf8 "b"),
        .str (utf8 "c"), .str (utf8 "d"),
        .slice [.struct [.uint 1, .uint 2], .struct [.uint 3, .uint 4],
          .struct [.uint 5, .uint 6]]]])) ∧
    LoadRefDatVarTail .bits64
        (oneFile ((List.replicate 65536 97 ++ utf8 "|b|c|d|2|1|2|3|4|5|6") ++ [10]))
        (utf8 "test.txt") (utf8 "|") 4 (sliceArg fileLine []) =
      .ret 0 none (sliceArg fileLine [zeroValue (.struct fileLine)]) ∧
    LoadRefDatVarTail .bits64 (oneFile (utf8 "a|b|c|d|2|1|2|3|4|5|6\n")) (utf8 "test.txt")
        (utf8 "|") 4
        (recordsArg (.structRO fileLine [false, true, false, false, false]) []) =
      .panic (recordsArg (.structRO fileLine [false, true, false, false, false])
        [zeroValue (.struct fileLine)]) :=
  ⟨by decide,
    LoadRefDatVarTail_long_first_line .bits64
      (oneFile ((List.replicate 65536 97 ++ utf8 "|b|c|d|2|1|2|3|4|5|6") ++ [10]))
      (utf8 "test.txt") (utf8 "|") 4 (.struct fileLine) []
      (List.replicate 65536 97 ++ utf8 "|b|c|d|2|1|2|3|4|5|6") []
      (content_oneFile _ _)
      (fun h => (List.mem_append.mp h).elim (newline_not_mem_replicate 65536 97 (by decide))
        (by decide))
      (by rw [List.length_append, List.length_replicate]; exact Nat.le_add_right _ _),
    by decide⟩

/-- C13 as amended: on a line whose leading tokens convert, whose control
token parses to an integer v with 1 ≤ v ≤ M, and whose tail tokens convert,
the loader builds (T - c - 1) / v tail groups, T being the number of tokens of
the line: the divisor is the value of the control token.  Tokens left over
behind the last full group are dropped without an error. -/
theorem varTailLine_group_count (a : Arch) (sep : Bytes) (c : Nat)
    (fieldTypes groupTypes : List GoType) (elem : List Value) (trimedLine ctl : Bytes)
    (v : Nat)
    (hc : fieldTypes[c]? = some (.slice (.struct groupTypes)))
    (helem : elem.length = fieldTypes.length)
    (hlead : ∀ k, k < c → convOk a (Split trimedLine sep)[k]? fieldTypes[k]? = true)
    (hctl : (Split trimedLine sep)[c]? = some ctl)
    (hv : (Atoi a ctl).1 = (v : Int)) (hv1 : 1 ≤ v) (hvM : v ≤ groupTypes.length)
    (htail : ∀ g, g < ((Split trimedLine sep).length - c - 1) / v → ∀ j, j < v →
      convOk a (Split trimedLine sep)[c + 1 + (g * v + j)]? groupTypes[j]? = true) :
    ∃ elem' groups,
      varTailLine a sep (c : Int) (.struct fieldTypes) elem trimedLine = .done elem' ∧
      elem'[c]? = some (.slice groups) ∧
      groups.length = ((Split trimedLine sep).length - c - 1) / v := by
  obtain ⟨elem', groups, h1, -, -, -, h5, h6, -⟩ :=
    varTailLine_done a sep c fieldTypes groupTypes elem trimedLine ctl v hc helem hlead hctl
      hv hv1 hvM htail
  exact ⟨elem', groups, h1, h5, h6⟩

theorem varTailLine_group_count_witness :
    ∃ elem' groups,
      varTailLine .bits64 (utf8 "|") ((4 : Nat) : Int) (.struct fileLine) (zeroValues fileLine)
        (utf8 "a|b|c|d|1|10|20|30") = .done elem' ∧
      elem'[4]? = some (.slice groups) ∧
      groups.length = ((Split (utf8 "a|b|c|d|1|10|20|30") (utf8 "|")).length - 4 - 1) / 1 :=
  varTailLine_group_count .bits64 (utf8 "|") 4 fileLine [.uint32, .uint64]
    (zeroValues fileLine) (utf8 "a|b|c|d|1|10|20|30") (utf8 "1") 1 rfl rfl (by decide)
    (by decide) (by decide) (by decide) (by decide) (by decide)

/-- C13 as stated fails: with c = 4, a tail group of M = 2 fields and three
trailing tokens, the quotient 3 / 2 is 1, and the loader builds 3 groups for
the control token 1 and 1 group for the control token 2: the count depends on
the control token. -/
theorem group_count_follows_control_token :
    LoadRefDatVarTail .bits64 (oneFile (utf8 "a|b|c|d|1|10|20|30\n")) (utf8 "test.txt")
        (utf8 "|") 4 (sliceArg fileLine []) =
      .ret 1 none (sliceArg fileLine [.struct [.str (utf8 "a"), .str (utf8 "b"),
        .str (utf8 "c"), .str (utf8 "d"),
        .slice [.struct [.uint 10, .uint 0], .struct [.uint 20, .uint 0],
          .struct [.uint 30, .uint 0]]]]) ∧
    LoadRefDatVarTail .bits64 (oneFile (utf8 "a|b|c|d|2|10|20|30\n")) (utf8 "test.txt")
        (utf8 "|") 4 (sliceArg fileLine []) =
      .ret 1 none (sliceArg fileLine [.struct [.str (utf8 "a"), .str (utf8 "b"),
        .str (utf8 "c"), .str (utf8 "d"),
        .slice [.struct [.uint 10, .uint 20]]]]) := by
  decide

/-- C15, the code at failing inputs: LoadRefDatVarTail with the control index
4 panics, and returns no error, on a line with fewer than five tokens (token
index out of range) and on a line whose control token is empty, not numeric,
padded with a space, or zero (the error of Atoi is dropped and the division
is by zero). -/
theorem LoadRefDatVarTail_malformed_line_panics :
    LoadRefDatVarTail .bits64 (oneFile (utf8 "a|b\n")) (utf8 "test.txt") (utf8 "|") 4
        (sliceArg fileLine []) = .panic (sliceArg fileLine [zeroValue (.struct fileLine)]) ∧
    LoadRefDatVarTail .bits64 (oneFile (utf8 "a|b|c|d||1|2\n")) (utf8 "test.txt") (utf8 "|") 4
        (sliceArg fileLine []) = .panic (sliceArg fileLine [zeroValue (.struct fileLine)]) ∧
    LoadRefDatVarTail .bits64 (oneFile (utf8 "a|b|c|d|x|1|2\n")) (utf8 "test.txt") (utf8 "|") 4
        (sliceArg fileLine []) = .panic (sliceArg fileLine [zeroValue (.struct fileLine)]) ∧
    LoadRefDatVarTail .bits64 (oneFile (utf8 "a|b|c|d| 2|1|2\n")) (utf8 "test.txt") (utf8 "|") 4
        (sliceArg fileLine []) = .panic (sliceArg fileLine [zeroValue (.struct fileLine)]) ∧
    LoadRefDatVarTail .bits64 (oneFile (utf8 "a|b|c|d|0|1|2\n")) (utf8 "test.txt") (utf8 "|") 4
        (sliceArg fileLine []) = .panic (sliceArg fileLine [zeroValue (.struct fileLine)]) := by
  decide

/-- C12, the code at failing inputs: called with a nil pointer to an int, a
pointer to something other than a slice, LoadRefDat panics where
LoadRefDatVarTail returns its error; called with the nil interface, both
panic.  No error is returned in the panicking calls. -/
theorem nil_destination_panics (a : Arch) (fs : FileSystem) (path sep : Bytes) (c : Int) :
    LoadRefDat a fs path sep (some (.ptr .int, .nilPtr)) = .panic (some (.ptr .int, .nilPtr)) ∧
    LoadRefDatVarTail a fs path sep c (some (.ptr .int, .nilPtr)) =
      .ret 0 (some (.notPointerToSlice none)) (some (.ptr .int, .nilPtr)) ∧
    LoadRefDat a fs path sep none = .panic none ∧
    LoadRefDatVarTail a fs path sep c none = .panic none :=
  ⟨rfl, rfl, rfl, rfl⟩

/-- The part of C12 the code meets: with a value that is no pointer, or with a
pointer that is not nil to a value that is no slice, both loaders return 0 and
an error and leave the destination as it is, whatever the file system, the
path and the separator are. -/
theorem bad_destination_error (a : Arch) (fs : FileSystem) (path sep : Bytes) (c : Int)
    (t : GoType) (v : Value)
    (h : (∀ pt, t ≠ .ptr pt) ∨ ∃ pt w, t = .ptr pt ∧ v = .ptr w ∧ ∀ e, pt ≠ .slice e) :
    (∃ err, LoadRefDat a fs path sep (some (t, v)) = .ret 0 (some err) (some (t, v))) ∧
    (∃ err, LoadRefDatVarTail a fs path sep c (some (t, v)) =
      .ret 0 (some err) (some (t, v))) := by
  rcases h with h | ⟨pt, w, rfl, rfl, h⟩
  · cases t <;> first
      | exact ⟨⟨_, rfl⟩, ⟨_, rfl⟩⟩
      | exact absurd rfl (h _)
  · cases pt <;> first
      | exact ⟨⟨_, rfl⟩, ⟨_, rfl⟩⟩
      | exact absurd rfl (h _)
/-! ## Prior contents, narrowing, and the bounds of the destination -/

/-- C16 as amended: for a file that LoadRefDat can open and read, the outcome
does not depend on the prior contents of the destination slice: any two prior
states give the same count, the same error and the same final collection,
which is the one built from the file alone. -/
theorem LoadRefDat_discards_prior (a : Arch) (fs : FileSystem) (path sep : Bytes)
    (e : GoType) (prior prior2 : List Value) (content : Bytes)
    (he : e.isStruct = true)
    (hfile : fs path = some content) :
    LoadRefDat a fs path sep (recordsArg e prior) =
      LoadRefDat a fs path sep (recordsArg e prior2) ∧
    LoadRefDat a fs path sep (recordsArg e prior) =
      loadContentRO a sep (.slice e) (structFields e) (unexportedFields e)
        (lineCounter content) (scanLines content) := by
  rw [LoadRefDat_recordsArg a fs path sep e prior content he hfile,
    LoadRefDat_recordsArg a fs path sep e prior2 content he hfile]
  exact ⟨rfl, rfl⟩

theorem LoadRefDat_discards_prior_witness :
    LoadRefDat .bits64 (oneFile (utf8 "1|2|abc\n")) (utf8 "ref.dat") (utf8 "|")
        (recordsArg (.struct testElem) []) =
      LoadRefDat .bits64 (oneFile (utf8 "1|2|abc\n")) (utf8 "ref.dat") (utf8 "|")
        (recordsArg (.struct testElem) [.struct [.int 7, .uint 8, .str (utf8 "old")],
          .struct [.int 9, .uint 10, .str (utf8 "older")]]) :=
  (LoadRefDat_discards_prior .bits64 (oneFile (utf8 "1|2|abc\n")) (utf8 "ref.dat") (utf8 "|")
    (.struct testElem) [] [.struct [.int 7, .uint 8, .str (utf8 "old")],
      .struct [.int 9, .uint 10, .str (utf8 "older")]] (utf8 "1|2|abc\n") rfl rfl).1

/-- C16 as stated fails for a path that opens and cannot be read, such as a
directory: the error of the line count is returned before the destination is
replaced, so the prior records stay in the destination, and two prior states
leave two different final collections. -/
theorem unreadable_file_keeps_prior :
    LoadRefDat .bits64 noRead (utf8 "dir") (utf8 "|") (sliceArg testElem []) =
      .ret 0 (some (.readFile (utf8 "dir"))) (sliceArg testElem []) ∧
    LoadRefDat .bits64 noRead (utf8 "dir") (utf8 "|")
        (sliceArg testElem [.struct [.int 7, .uint 8, .str (utf8 "old")]]) =
      .ret 0 (some (.readFile (utf8 "dir")))
        (sliceArg testElem [.struct [.int 7, .uint 8, .str (utf8 "old")]]) ∧
    sliceArg testElem [] ≠ sliceArg testElem [.struct [.int 7, .uint 8, .str (utf8 "old")]] := by
  decide

theorem allDigits_iff (s : Bytes) :
    allDigits s = true ↔ ∀ c ∈ s, 48 ≤ c ∧ c ≤ 57 := by
  simp [allDigits]

theorem ParseUint_digits (s : Bytes) (hne : s ≠ []) (hd : allDigits s = true)
    (hv : digitsValue s 0 < 18446744073709551616) :
    ParseUint s = (digitsValue s 0, none) := by
  have hloop := parseUintLoop_digits s 0 ((allDigits_iff s).mp hd) hv
  unfold ParseUint
  rw [if_neg hne, hloop]

theorem parseIntCheck_digits (s0 r : Bytes) (neg : Bool) (hne : r ≠ [])
    (hd : allDigits r = true)
    (hv : if neg = true then digitsValue r 0 ≤ 9223372036854775808
      else digitsValue r 0 < 9223372036854775808) :
    parseIntCheck s0 neg (ParseUint r) =
      (if neg = true then -(digitsValue r 0 : Int) else (digitsValue r 0 : Int), none) := by
  have hu := ParseUint_digits r hne hd (by split at hv <;> omega)
  cases neg with
  | false =>
    simp only [Bool.false_eq_true, if_false] at hv ⊢
    simp only [parseIntCheck, parseIntRange, hu]
    simp
    rw [if_neg (by omega), wrapSigned_64 _ (by omega) (by omega)]
  | true =>
    simp only [if_true] at hv ⊢
    simp only [parseIntCheck, parseIntRange, hu]
    simp
    rw [if_neg (by omega)]
    by_cases hmin : digitsValue r 0 = 9223372036854775808
    · rw [hmin]
      norm_num [wrapSigned]
    · rw [wrapSigned_64 (digitsValue r 0 : Int) (by omega) (by omega),
        wrapSigned_64 (-(digitsValue r 0 : Int)) (by omega) (by omega)]

theorem ParseInt_literal (s : Bytes) (hlit : isDecimalLiteral s = true)
    (h1 : -9223372036854775808 ≤ literalValue s)
    (h2 : literalValue s < 9223372036854775808) :
    ParseInt s = (literalValue s, none) := by
  match s, hlit, h1, h2 with
  | c :: r, hlit, h1, h2 =>
    by_cases h43 : c = 43
    · subst h43
      simp [isDecimalLiteral, List.isEmpty_iff] at hlit
      simp only [literalValue, if_true] at h1 h2 ⊢
      simp only [ParseInt, if_true]
      rw [parseIntCheck_digits _ r false hlit.1 hlit.2 (by simp only [Bool.false_eq_true, if_false]; omega)]
      simp
    · by_cases h45 : c = 45
      · subst h45
        simp [isDecimalLiteral, List.isEmpty_iff] at hlit
        simp only [literalValue, if_neg h43, if_true] at h1 h2 ⊢
        simp only [ParseInt, if_neg h43, if_true]
        rw [parseIntCheck_digits _ r true hlit.1 hlit.2 (by simp only [if_true]; omega)]
        simp
      · have hor : ¬ (c = 43 ∨ c = 45) := by omega
        simp only [isDecimalLiteral, if_neg hor] at hlit
        simp only [literalValue, if_neg h43, if_neg h45] at h1 h2 ⊢
        simp only [ParseInt, if_neg h43, if_neg h45]
        rw [parseIntCheck_digits _ (c :: r) false (by simp) hlit
          (by simp only [Bool.false_eq_true, if_false]; omega)]
        simp

/-- C17: a token that is a base-10 integer literal with a value n in the
signed 64-bit range converts, for every signed integer type, without error to
n wrapped to the width of the type in two's complement; a token of decimal
digits with a value n up to 2^64 - 1 converts, for every unsigned integer type
other than the single-byte one, without error to n modulo 2^w.  No narrowing
overflow is reported. -/
theorem convString_narrows (a : Arch) (s : Bytes) (t : GoType) :
    (t.isSigned = true → isDecimalLiteral s = true →
      -9223372036854775808 ≤ literalValue s → literalValue s < 9223372036854775808 →
      convString a s t = .ok (.int (wrapSigned (t.bits a) (literalValue s)))) ∧
    (t.isUnsigned = true → t ≠ .uint8 → s ≠ [] → allDigits s = true →
      digitsValue s 0 < 18446744073709551616 →
      convString a s t = .ok (.uint (digitsValue s 0 % 2 ^ (t.bits a)))) := by
  constructor
  · intro ht hlit h1 h2
    have hp := ParseInt_literal s hlit h1 h2
    have hne : ¬ s.length = 0 := by
      intro h
      rw [List.length_eq_zero.mp h] at hlit
      simp [isDecimalLiteral] at hlit
    cases t <;> simp [GoType.isSigned] at ht <;>
      simp only [convString, if_neg hne, hp]
  · intro ht h8 hne hd hv
    have hp := ParseUint_digits s hne hd hv
    have hne' : ¬ s.length = 0 := fun h => hne (List.length_eq_zero.mp h)
    cases t <;> simp [GoType.isUnsigned] at ht h8 <;>
      simp only [convString, if_neg hne', hp, wrapUnsigned]

theorem convString_narrows_witness :
    convString .bits64 (utf8 "100000000000000000") .int8 = .ok (.int 0) ∧
    convString .bits64 (utf8 "100000000000000000") .uint16 = .ok (.uint 0) :=
  ⟨(convString_narrows .bits64 (utf8 "100000000000000000") .int8).1 (by decide) (by decide)
      (by decide) (by decide),
    (convString_narrows .bits64 (utf8 "100000000000000000") .uint16).2 (by decide)
      (by decide) (by decide) (by decide) (by decide)⟩

theorem Split_nil (sep : Bytes) : Split [] sep = if sep = [] then [] else [[]] := by
  by_cases h : sep = []
  · simp [Split, h, explodeLoop]
  · simp [Split, h, splitLoop]

/-- C18 as amended: for a record type with at least two fields and every
separator, and for a record type with one field and the empty separator, a
whitespace-only line that the loop of LoadRefDat does not skip fails the
field-count check: the call returns there with the field-count error, which
names one token (no token for the empty separator), and stores no record. -/
theorem loadLines_blank_line_field_count (a : Arch) (sep : Bytes) (fieldTypes : List GoType)
    (linenum : Nat) (l : Bytes) (rest : List Bytes) (st : LoopState)
    (hblank : TrimSpace l = [])
    (hnot : ¬ ((st.index : Int) < (linenum : Int) - 1))
    (hN : 2 ≤ fieldTypes.length ∨ (1 ≤ fieldTypes.length ∧ sep = [])) :
    loadLines a sep fieldTypes linenum (l :: rest) st =
      .ret (st.index + 1)
        (some (.fieldCount (st.index + 1) (if sep = [] then 0 else 1) fieldTypes.length))
        st.dest := by
  rw [loadLines_not_skipped a sep fieldTypes linenum l rest st (Or.inr (by omega)), hblank,
    Split_nil]
  by_cases hs : sep = []
  · simp only [hs, if_true, List.length_nil]
    rw [if_pos (by omega)]
  · simp only [hs, if_false, List.length_singleton]
    have hne : 1 ≠ fieldTypes.length := by
      rcases hN with h | h
      · omega
      · exact absurd h.2 hs
    rw [if_pos hne]

theorem loadLines_blank_line_field_count_witness :
    loadLines .bits64 (utf8 "|") testElem 2 [utf8 " \t"]
        ⟨1, [.int 1, .uint 2, .str (utf8 "abc")],
          [.struct [.int 1, .uint 2, .str (utf8 "abc")], .struct (zeroValues testElem)]⟩ =
      .ret 2 (some (.fieldCount 2 (if utf8 "|" = [] then 0 else 1) testElem.length))
        [.struct [.int 1, .uint 2, .str (utf8 "abc")], .struct (zeroValues testElem)] :=
  loadLines_blank_line_field_count .bits64 (utf8 "|") testElem 2 (utf8 " \t") []
    ⟨1, [.int 1, .uint 2, .str (utf8 "abc")],
      [.struct [.int 1, .uint 2, .str (utf8 "abc")], .struct (zeroValues testElem)]⟩
    (by decide) (by decide) (by decide)

/-- C18 as stated fails for a record type with one field: the blank final line
of the file is not skipped, it splits into one empty token, which is the field
count, and the empty token converts to zero; the call returns a record and no
error. -/
theorem blank_line_loads_as_one_field_record :
    LoadRefDat .bits64 (oneFile (utf8 "7\n \n")) (utf8 "ref.dat") (utf8 "|")
        (sliceArg [.int] []) =
      .ret 2 none (sliceArg [.int] [.struct [.int 7], .struct [.int 0]]) := by
  decide

theorem convFields_no_panic (a : Arch) (segs : List Bytes) (fieldTypes : List GoType)
    (n i : Nat) (elem : List Value)
    (h1 : i + n ≤ segs.length) (h2 : i + n ≤ fieldTypes.length) :
    convFields a segs fieldTypes n i elem ≠ .panic := by
  induction n generalizing i elem with
  | zero => simp [convFields_zero]
  | succ n ih =>
    have hi1 : i < segs.length := by omega
    have hi2 : i < fieldTypes.length := by omega
    rw [convFields_succ]
    simp only [List.getElem?_eq_getElem hi1, List.getElem?_eq_getElem hi2]
    split
    · simp
    · exact ih (i + 1) _ (by omega) (by omega)

/-- While as many lines are left as slots of the destination behind the index,
the loop of LoadRefDat never panics: every store is in range, and the count
returned is at most the length of the destination. -/
theorem loadLines_in_range (a : Arch) (sep : Bytes) (fieldTypes : List GoType)
    (linenum : Nat) (lines : List Bytes) (st : LoopState)
    (h : st.index + lines.length ≤ st.dest.length) :
    ∃ n err d, loadLines a sep fieldTypes linenum lines st = .ret n err d ∧
      n ≤ st.dest.length ∧ d.length = st.dest.length := by
  induction lines generalizing st with
  | nil => exact ⟨st.index, none, st.dest, rfl, by simpa using h, rfl⟩
  | cons l ls ih =>
    rw [List.length_cons] at h
    by_cases hskip : isBlank l = true ∧ st.index + 2 ≤ linenum
    · rw [loadLines_blank a sep fieldTypes linenum l ls st hskip.1 hskip.2]
      exact ih st (by omega)
    · have hns : isBlank l = false ∨ linenum ≤ st.index + 1 := by
        by_cases hb : isBlank l = true
        · right
          have : ¬ st.index + 2 ≤ linenum := fun h => hskip ⟨hb, h⟩
          omega
        · left; simpa using hb
      rw [loadLines_not_skipped a sep fieldTypes linenum l ls st hns]
      by_cases hne : (Split (TrimSpace l) sep).length ≠ fieldTypes.length
      · rw [if_pos hne]
        exact ⟨_, _, _, rfl, by omega, rfl⟩
      · have heq : (Split (TrimSpace l) sep).length = fieldTypes.length := by simpa using hne
        rw [if_neg hne]
        rcases convFields_cases a (Split (TrimSpace l) sep) fieldTypes fieldTypes.length 0
          st.elem with ⟨fields, hf, -⟩ | ⟨e, hf⟩ | hf
        · rw [hf]
          dsimp only
          rw [if_pos (by omega)]
          obtain ⟨n, err, d, h1, h2, h3⟩ :=
            ih ⟨st.index + 1, fields, st.dest.set st.index (.struct fields)⟩
              (by simp only [List.length_set]; omega)
          exact ⟨n, err, d, h1, by simpa using h2, by simpa using h3⟩
        · rw [hf]
          exact ⟨_, _, _, rfl, by omega, rfl⟩
        · exact absurd hf (convFields_no_panic a _ fieldTypes _ 0 st.elem (by omega) (by omega))

/-- C19: for a file in which every line, the last included, ends with a
newline byte, LoadRefDat never writes a record out of range: the call does not
panic, and the count it returns is at most the length allocated, the number
of newline bytes.  Without the newline at the end of the final line the bound
does not hold: a file of one well-formed line without newline makes the write
of its record, at index 0 of a slice of length 0, panic. -/
theorem LoadRefDat_writes_in_range (a : Arch) (fs : FileSystem) (path sep : Bytes)
    (fieldTypes : List GoType) (lines : List Bytes) (prior : List Value)
    (hfile : fs path = some (joinLines lines))
    (hnl : ∀ l ∈ lines, 10 ∉ l) :
    (∃ n err recs, LoadRefDat a fs path sep (sliceArg fieldTypes prior) =
        .ret n err (sliceArg fieldTypes recs) ∧
      n ≤ lineCounter (joinLines lines) ∧ recs.length = lineCounter (joinLines lines)) ∧
    LoadRefDat .bits64 (oneFile (utf8 "1|2|abc")) (utf8 "ref.dat") (utf8 "|")
        (sliceArg testElem []) = .panic (sliceArg testElem []) := by
  refine ⟨?_, by decide⟩
  have hcnt := lineCounter_joinLines lines hnl
  rw [LoadRefDat_sliceArg a fs path sep fieldTypes prior _ hfile, scanLines_joinLines _ hnl,
    loadContent_map_dropCR, hcnt]
  obtain ⟨n, err, d, h1, h2, h3⟩ := loadLines_in_range a sep fieldTypes lines.length
    (lines.takeWhile (fun l => decide (l.length < maxScanTokenSize)))
    ⟨0, zeroValues fieldTypes, List.replicate lines.length (.struct (zeroValues fieldTypes))⟩
    (by simpa using (List.takeWhile_prefix _ (l := lines)).length_le)
  refine ⟨n, err, d, ?_, by simpa using h2, by simpa using h3⟩
  simp only [loadContent_eq, h1, sliceArg]

theorem LoadRefDat_writes_in_range_witness :
    ∃ n err recs, LoadRefDat .bits64 (oneFile (joinLines [utf8 "1|2|abc", utf8 "", utf8 "x"]))
        (utf8 "ref.dat") (utf8 "|") (sliceArg testElem []) =
        .ret n err (sliceArg testElem recs) ∧
      n ≤ lineCounter (joinLines [utf8 "1|2|abc", utf8 "", utf8 "x"]) ∧
      recs.length = lineCounter (joinLines [utf8 "1|2|abc", utf8 "", utf8 "x"]) :=
  (LoadRefDat_writes_in_range .bits64 (oneFile (joinLines [utf8 "1|2|abc", utf8 "", utf8 "x"]))
    (utf8 "ref.dat") (utf8 "|") testElem [utf8 "1|2|abc", utf8 "", utf8 "x"] [] rfl
    (by decide)).1

theorem convFields_done_convOk (a : Arch) (segs : List Bytes) (fieldTypes : List GoType)
    (n i : Nat) (elem fields : List Value)
    (h : convFields a segs fieldTypes n i elem = .done fields) :
    ∀ k, i ≤ k → k < i + n → convOk a segs[k]? fieldTypes[k]? = true := by
  induction n generalizing i elem with
  | zero => intro k h1 h2; omega
  | succ n ih =>
    rw [convFields_succ] at h
    split at h
    · rename_i seg t hs ht
      split at h
      · simp at h
      · rename_i x hx
        intro k h1 h2
        by_cases hki : k = i
        · subst hki
          simp [convOk, hs, ht, hx, Except.toBool]
        · exact ih (i + 1) _ h k (by omega) (by omega)
    · simp at h

theorem convFields_done_converted (a : Arch) (segs : List Bytes) (fieldTypes : List GoType)
    (elem fields : List Value)
    (helem : elem.length = fieldTypes.length)
    (h : convFields a segs fieldTypes fieldTypes.length 0 elem = .done fields) :
    Converted a segs fieldTypes fields := by
  have hok := convFields_done_convOk a segs fieldTypes _ 0 elem fields h
  obtain ⟨fields', hf, hfl, -, hin⟩ :=
    convFields_run a segs fieldTypes fieldTypes.length 0 elem (by omega) hok
  rw [h] at hf
  cases hf
  refine ⟨by rw [hfl, helem], ?_⟩
  intro k tok t hs ht
  have hk : k < fieldTypes.length := (List.getElem?_eq_some_iff.mp ht).1
  obtain ⟨tok', t', x', e1, e2, e3, e4⟩ := hin k (Nat.zero_le k) (by omega)
  rw [hs] at e1
  rw [ht] at e2
  cases e1; cases e2
  exact ⟨x', e3, e4⟩

/-- The records a successful run of the loop leaves: they are the records of
the lines consumed, a sublist of the lines that holds every line that is not
blank, and they stand in the destination from the index on. -/
theorem loadLines_success_contents (a : Arch) (sep : Bytes) (fieldTypes : List GoType)
    (linenum : Nat) (lines : List Bytes) (st : LoopState) (n : Nat) (d : List Value)
    (helem : st.elem.length = fieldTypes.length)
    (hidx : st.index ≤ st.dest.length)
    (h : loadLines a sep fieldTypes linenum lines st = .ret n none d) :
    ∃ (consumed : List Bytes) (recs : List (List Value)),
      List.Sublist consumed lines ∧ List.Sublist (nonBlank lines) consumed ∧
      List.Forall₂ (fun l fields => Converted a (Split (TrimSpace l) sep) fieldTypes fields)
        consumed recs ∧
      n = st.index + recs.length ∧
      d = st.dest.take st.index ++ recs.map Value.struct ++
        st.dest.drop (st.index + recs.length) := by
  induction lines generalizing st with
  | nil =>
    rw [loadLines_nil] at h
    simp only [LoopResult.ret.injEq, true_and] at h
    obtain ⟨h1, h2⟩ := h
    subst h1; subst h2
    exact ⟨[], [], List.Sublist.slnil, by simp [nonBlank], List.Forall₂.nil, by simp, by simp⟩
  | cons l ls ih =>
    by_cases hskip : isBlank l = true ∧ st.index + 2 ≤ linenum
    · rw [loadLines_blank a sep fieldTypes linenum l ls st hskip.1 hskip.2] at h
      obtain ⟨consumed, recs, h1, h2, h3, h4, h5⟩ := ih st helem hidx h
      refine ⟨consumed, recs, List.Sublist.cons l h1, ?_, h3, h4, h5⟩
      have : nonBlank (l :: ls) = nonBlank ls := by
        simp [nonBlank, List.filter_cons, hskip.1]
      rw [this]
      exact h2
    · have hns : isBlank l = false ∨ linenum ≤ st.index + 1 := by
        by_cases hb : isBlank l = true
        · right
          have : ¬ st.index + 2 ≤ linenum := fun h => hskip ⟨hb, h⟩
          omega
        · left; simpa using hb
      rw [loadLines_not_skipped a sep fieldTypes linenum l ls st hns] at h
      split at h
      · simp at h
      · rename_i hcount
        split at h
        · simp at h
        · simp at h
        · rename_i fields hf
          split at h
          · rename_i hlt
            have hconv := convFields_done_converted a _ fieldTypes st.elem fields helem hf
            obtain ⟨consumed, recs, h1, h2, h3, h4, h5⟩ :=
              ih ⟨st.index + 1, fields, st.dest.set st.index (.struct fields)⟩ hconv.1
                (by simp only [List.length_set]; omega) h
            refine ⟨l :: consumed, fields :: recs, List.Sublist.cons₂ l h1, ?_,
              List.Forall₂.cons hconv h3, ?_, ?_⟩
            · by_cases hb : isBlank l = true
              · have : nonBlank (l :: ls) = nonBlank ls := by
                  simp [nonBlank, List.filter_cons, hb]
                rw [this]
                exact List.Sublist.cons l h2
              · have : nonBlank (l :: ls) = l :: nonBlank ls := by
                  simp [nonBlank, List.filter_cons, hb]
                rw [this]
                exact List.Sublist.cons₂ l h2
            · simp only [List.length_cons] at h4 ⊢
              omega
            · rw [h5]
              dsimp only
              rw [set_take_succ _ _ _ hlt, List.drop_set_of_lt _ _ (by omega)]
              simp only [List.length_cons, List.map_cons, List.append_assoc,
                List.singleton_append, Nat.add_assoc, Nat.add_comm 1]
          · simp at h

theorem zeroValue_of_isStruct (e : GoType) (he : e.isStruct = true) :
    zeroValue e = .struct (zeroValues (structFields e)) := by
  cases e <;> simp [GoType.isStruct] at he <;> simp [zeroValue, structFields]

/-- C20 as amended: when LoadRefDat returns (n, no error) on a file of L lines
that all end with a newline, the destination has length L; its first n
entries are the records of the lines consumed, in the order of the file; the
lines consumed are lines in front of the first line of 64 KiB (65536 bytes)
or more, and all of those that are not blank are among them; its entries from
n on are L - n zero records, one for each skipped line and one for each line
from the first line of 64 KiB or more on. -/
theorem LoadRefDat_success_contents (a : Arch) (fs : FileSystem) (path sep : Bytes)
    (e : GoType) (lines : List Bytes) (prior : List Value) (n : Nat) (s2 : Arg)
    (he : e.isStruct = true)
    (hfile : fs path = some (joinLines lines))
    (hnl : ∀ l ∈ lines, 10 ∉ l)
    (h : LoadRefDat a fs path sep (recordsArg e prior) = .ret n none s2) :
    ∃ (consumed : List Bytes) (recs : List (List Value)),
      s2 = recordsArg e (recs.map Value.struct ++
        List.replicate (lines.length - n) (zeroValue e)) ∧
      (recs.map Value.struct ++
        List.replicate (lines.length - n) (zeroValue e)).length = lines.length ∧
      recs.length = n ∧ consumed.length = n ∧
      List.Sublist consumed (lines.takeWhile (fun l => decide (l.length < 65536))) ∧
      List.Sublist (nonBlank (lines.takeWhile (fun l => decide (l.length < 65536))))
        consumed ∧
      List.Forall₂
        (fun l fields => Converted a (Split (TrimSpace l) sep) (structFields e) fields)
        consumed recs := by
  have hcnt := lineCounter_joinLines lines hnl
  obtain ⟨d, hs, hl⟩ := LoadRefDat_ret a fs path sep e prior _ n none s2 he hfile h
  rw [scanLines_joinLines lines hnl, loadLines_map_dropCR, hcnt] at hl
  obtain ⟨consumed, recs, h1, h2, h3, h4, h5⟩ :=
    loadLines_success_contents a sep (structFields e) _ _ _ _ _
      (zeroValues_length (structFields e)) (by simp) hl
  have hdl : d.length = lines.length := by
    have := (loadLines_success_invariant a sep (structFields e) _ _ _ _ _ (by simp) hl).1
    simpa using this
  simp only [Nat.zero_add] at h4
  have hd : d = recs.map Value.struct ++
      List.replicate (lines.length - n) (zeroValue e) := by
    rw [h5, h4, zeroValue_of_isStruct e he]
    simp
  refine ⟨consumed, recs, ?_, ?_, h4.symm, ?_, h1, h2, h3⟩
  · rw [hs, hd]
  · rw [← hd]; exact hdl
  · rw [h3.length_eq, h4]

theorem LoadRefDat_success_contents_witness :
    ∃ (consumed : List Bytes) (recs : List (List Value)),
      recordsArg (.struct testElem) [.struct [.int 1, .uint 2, .str (utf8 "abc")],
          .struct [.int 0, .uint 0, .str []]] =
        recordsArg (.struct testElem) (recs.map Value.struct ++
          List.replicate ([utf8 "", utf8 "1|2|abc"].length - 1)
            (zeroValue (.struct testElem))) ∧
      (recs.map Value.struct ++
        List.replicate ([utf8 "", utf8 "1|2|abc"].length - 1)
          (zeroValue (.struct testElem))).length = [utf8 "", utf8 "1|2|abc"].length ∧
      recs.length = 1 ∧ consumed.length = 1 ∧
      List.Sublist consumed
        ([utf8 "", utf8 "1|2|abc"].takeWhile (fun l => decide (l.length < 65536))) ∧
      List.Sublist
        (nonBlank ([utf8 "", utf8 "1|2|abc"].takeWhile (fun l => decide (l.length < 65536))))
        consumed ∧
      List.Forall₂
        (fun l fields => Converted .bits64 (Split (TrimSpace l) (utf8 "|"))
          (structFields (.struct testElem)) fields)
        consumed recs :=
  LoadRefDat_success_contents .bits64 (oneFile (joinLines [utf8 "", utf8 "1|2|abc"]))
    (utf8 "ref.dat") (utf8 "|") (.struct testElem) [utf8 "", utf8 "1|2|abc"] [] 1 _ rfl rfl
    (by decide) (by decide)

/-- C20 as stated fails on a file with a line of 65536 bytes: the scan stops
at that line, the call returns the count 0 and no error, and both entries of
the destination are zero records, though no line of the file is blank and the
second line is well-formed. -/
theorem long_line_leaves_zero_records :
    LoadRefDat .bits64 (oneFile (List.replicate 65536 99 ++ 10 :: utf8 "7\n")) (utf8 "ref.dat")
        (utf8 "|") (sliceArg [.int] []) =
      .ret 0 none (sliceArg [.int] [.struct [.int 0], .struct [.int 0]]) :=
  LoadRefDat_long_first_line .bits64 (oneFile (List.replicate 65536 99 ++ 10 :: utf8 "7\n"))
    (utf8 "ref.dat") (utf8 "|") [.int] [] (List.replicate 65536 99) (utf8 "7\n")
    (content_oneFile _ _) (newline_not_mem_replicate 65536 99 (by decide))
    (by rw [List.length_replicate]; decide)

/-! ## The count and the error of a call that stops on a malformed line -/

theorem toBool_eq_false {ε α : Type} (x : Except ε α) (h : x.toBool = false) :
    ∃ e, x = .error e := by
  cases x with
  | ok v => simp [Except.toBool] at h
  | error e => exact ⟨e, rfl⟩

/-- Some token of a line does not convert: then the loop over the fields fails
with the error of the first such token. -/
theorem convFields_first_failure (a : Arch) (segs : List Bytes) (fieldTypes : List GoType)
    (elem : List Value) (hlen : segs.length = fieldTypes.length)
    (hfail : ∃ p ∈ segs.zip fieldTypes, (convString a (TrimSpace p.1) p.2).toBool = false) :
    ∃ (k : Nat) (tok : Bytes) (t : GoType) (e : ConvError),
      segs[k]? = some tok ∧ fieldTypes[k]? = some t ∧
      convString a (TrimSpace tok) t = .error e ∧
      (∀ (j : Nat) (tok' : Bytes) (t' : GoType), j < k →
        segs[j]? = some tok' → fieldTypes[j]? = some t' →
        ∃ v, convString a (TrimSpace tok') t' = .ok v) ∧
      convFields a segs fieldTypes fieldTypes.length 0 elem = .fail e := by
  classical
  have hex : ∃ k : Nat, ∃ tok t, segs[k]? = some tok ∧ fieldTypes[k]? = some t ∧
      (convString a (TrimSpace tok) t).toBool = false := by
    obtain ⟨p, hp, hpf⟩ := hfail
    obtain ⟨k, hk⟩ := List.mem_iff_getElem?.mp hp
    obtain ⟨h1, h2⟩ := List.getElem?_zip_eq_some.mp hk
    exact ⟨k, p.1, p.2, h1, h2, hpf⟩
  obtain ⟨tok, t, hs, ht, hf⟩ := Nat.find_spec hex
  obtain ⟨e, he⟩ := toBool_eq_false _ hf
  have hprev : ∀ (j : Nat) (tok' : Bytes) (t' : GoType), j < Nat.find hex →
      segs[j]? = some tok' → fieldTypes[j]? = some t' →
      ∃ v, convString a (TrimSpace tok') t' = .ok v := by
    intro j tok' t' hj hs' ht'
    have hmin := Nat.find_min hex hj
    match hc : convString a (TrimSpace tok') t' with
    | .ok v => exact ⟨v, rfl⟩
    | .error e' =>
      exact absurd ⟨tok', t', hs', ht', by rw [hc]; rfl⟩ hmin
  exact ⟨Nat.find hex, tok, t, e, hs, ht, he, hprev,
    convFields_fail_aux a segs fieldTypes hlen (Nat.find hex) tok t e hs ht he hprev
      fieldTypes.length 0 elem (by omega) (by omega)⟩

/-- A loop over the fields that fails has met a token that does not convert,
behind tokens that convert, and fails with the error of that token. -/
theorem convFields_fail_inv (a : Arch) (segs : List Bytes) (fieldTypes : List GoType)
    (n i : Nat) (elem : List Value) (e : ConvError)
    (h : convFields a segs fieldTypes n i elem = .fail e) :
    ∃ (k : Nat) (tok : Bytes) (t : GoType), i ≤ k ∧
      segs[k]? = some tok ∧ fieldTypes[k]? = some t ∧
      convString a (TrimSpace tok) t = .error e ∧
      ∀ j, i ≤ j → j < k → convOk a segs[j]? fieldTypes[j]? = true := by
  induction n generalizing i elem with
  | zero =>
    rw [convFields_zero] at h
    simp at h
  | succ n ih =>
    rw [convFields_succ] at h
    split at h
    · rename_i seg t hs ht
      split at h
      · rename_i e2 he2
        simp only [FieldsResult.fail.injEq] at h
        subst h
        exact ⟨i, seg, t, Nat.le_refl i, hs, ht, he2, fun j h1 h2 => by omega⟩
      · rename_i v hv
        obtain ⟨k, tok, t2, hk, h1, h2, h3, h4⟩ := ih (i + 1) _ h
        refine ⟨k, tok, t2, by omega, h1, h2, h3, fun j hj1 hj2 => ?_⟩
        by_cases hji : j = i
        · subst hji
          simp [convOk, hs, ht, hv, Except.toBool]
        · exact h4 j (by omega) hj2
    · simp at h

theorem rawLines_length_le (content : Bytes) :
    (rawLines content).length ≤ lineCounter content + 1 := by
  unfold lineCounter
  induction content with
  | nil => simp [rawLines]
  | cons c cs ih =>
    by_cases hc : c = 10
    · subst hc
      simp only [rawLines, if_true, List.count_cons_self, List.length_cons]
      omega
    · rw [List.count_cons_of_ne (fun h => hc h.symm)]
      simp only [rawLines, if_neg hc]
      split
      · simp
      · rename_i x xs h0
        rw [h0] at ih
        simp only [List.length_cons] at ih ⊢
        omega

theorem nonBlank_cons_blank (l : Bytes) (ls : List Bytes) (h : isBlank l = true) :
    nonBlank (l :: ls) = nonBlank ls := by
  simp [nonBlank, List.filter_cons, h]

theorem nonBlank_length_cons_le (l : Bytes) (ls : List Bytes) :
    (nonBlank (l :: ls)).length ≤ (nonBlank ls).length + 1 := by
  unfold nonBlank
  rw [List.filter_cons]
  split <;> simp

/-- The loop of LoadRefDat in front of a malformed line that it does not skip,
behind lines that are blank or well-formed: it stops with an error and the
number of the records stored plus one; the records are those of lines in
front of the malformed line, all that are not blank among them. -/
theorem loadLines_stops (a : Arch) (sep : Bytes) (fieldTypes : List GoType)
    (linenum : Nat) (pre : List Bytes) (bad : Bytes) (rest : List Bytes) (st : LoopState)
    (hd : st.dest.length = linenum)
    (hstore : st.index + pre.length ≤ st.dest.length)
    (helem : st.elem.length = fieldTypes.length)
    (hpre : ∀ l ∈ pre, isBlank l = true ∨ GoodLine a sep fieldTypes l)
    (hns : isBlank bad = false ∨
      (linenum ≤ st.index + pre.length + 1 ∧ ∀ l ∈ pre, isBlank l = false))
    (hfail : (Split (TrimSpace bad) sep).length ≠ fieldTypes.length ∨
      ∃ p ∈ (Split (TrimSpace bad) sep).zip fieldTypes,
        (convString a (TrimSpace p.1) p.2).toBool = false) :
    ∃ (err : LoadError) (consumed : List Bytes) (recs : List (List Value)),
      loadLines a sep fieldTypes linenum (pre ++ bad :: rest) st =
        .ret (st.index + recs.length + 1) (some err)
          (st.dest.take st.index ++ recs.map Value.struct ++
            st.dest.drop (st.index + recs.length)) ∧
      List.Sublist consumed pre ∧ List.Sublist (nonBlank pre) consumed ∧
      List.Forall₂ (fun l fields => Converted a (Split (TrimSpace l) sep) fieldTypes fields)
        consumed recs := by
  induction pre generalizing st with
  | nil =>
    have hns2 : isBlank bad = false ∨ linenum ≤ st.index + 1 := by
      rcases hns with h | h
      · exact Or.inl h
      · exact Or.inr (by simpa using h.1)
    rw [List.nil_append, loadLines_not_skipped a sep fieldTypes linenum bad rest st hns2]
    by_cases hne : (Split (TrimSpace bad) sep).length ≠ fieldTypes.length
    · rw [if_pos hne]
      exact ⟨.fieldCount (st.index + 1) (Split (TrimSpace bad) sep).length fieldTypes.length,
        [], [], by simp, List.Sublist.slnil, by simp [nonBlank], List.Forall₂.nil⟩
    · have heq : (Split (TrimSpace bad) sep).length = fieldTypes.length := by simpa using hne
      rcases hfail with hf | hf
      · exact absurd hf hne
      · obtain ⟨k, tok, t, e, -, -, -, -, hfl⟩ :=
          convFields_first_failure a _ fieldTypes st.elem heq hf
        rw [if_neg hne, hfl]
        exact ⟨.conv e, [], [], by simp, List.Sublist.slnil, by simp [nonBlank],
          List.Forall₂.nil⟩
  | cons l pre2 ih =>
    rw [List.length_cons] at hstore
    have hpre2 : ∀ x ∈ pre2, isBlank x = true ∨ GoodLine a sep fieldTypes x :=
      fun x hx => hpre x (List.mem_cons_of_mem l hx)
    by_cases hskip : isBlank l = true ∧ st.index + 2 ≤ linenum
    · have hns2 : isBlank bad = false ∨
          (linenum ≤ st.index + pre2.length + 1 ∧ ∀ x ∈ pre2, isBlank x = false) := by
        rcases hns with h | h
        · exact Or.inl h
        · have := h.2 l (List.mem_cons_self l pre2)
          rw [hskip.1] at this
          exact absurd this (by simp)
      obtain ⟨err, consumed, recs, h1, h2, h3, h4⟩ := ih st hd (by omega) helem hpre2 hns2
      refine ⟨err, consumed, recs, ?_, List.Sublist.cons l h2, ?_, h4⟩
      · rw [List.cons_append, loadLines_blank a sep fieldTypes linenum l _ st hskip.1 hskip.2]
        exact h1
      · rw [nonBlank_cons_blank l pre2 hskip.1]
        exact h3
    · have hnsl : isBlank l = false ∨ linenum ≤ st.index + 1 := by
        by_cases hb : isBlank l = true
        · right
          have : ¬ st.index + 2 ≤ linenum := fun h => hskip ⟨hb, h⟩
          omega
        · left; simpa using hb
      have hidx : st.index < st.dest.length := by omega

      have hgo : ∀ fields : List Value,
          convFields a (Split (TrimSpace l) sep) fieldTypes fieldTypes.length 0 st.elem =
            .done fields →
          (Split (TrimSpace l) sep).length = fieldTypes.length →
          ∃ (err : LoadError) (consumed : List Bytes) (recs : List (List Value)),
            loadLines a sep fieldTypes linenum (l :: pre2 ++ bad :: rest) st =
              .ret (st.index + recs.length + 1) (some err)
                (st.dest.take st.index ++ recs.map Value.struct ++
                  st.dest.drop (st.index + recs.length)) ∧
            List.Sublist consumed (l :: pre2) ∧ List.Sublist (nonBlank (l :: pre2)) consumed ∧
            List.Forall₂
              (fun l fields => Converted a (Split (TrimSpace l) sep) fieldTypes fields)
              consumed recs := by
        intro fields hf heq
        have hconv := convFields_done_converted a _ fieldTypes st.elem fields helem hf
        have hns2 : isBlank bad = false ∨
            (linenum ≤ st.index + 1 + pre2.length + 1 ∧ ∀ x ∈ pre2, isBlank x = false) := by
          rcases hns with h | h
          · exact Or.inl h
          · refine Or.inr ⟨?_, fun x hx => h.2 x (List.mem_cons_of_mem l hx)⟩
            have := h.1
            simp only [List.length_cons] at this
            omega
        obtain ⟨err, consumed, recs, h1, h2, h3, h4⟩ :=
          ih ⟨st.index + 1, fields, st.dest.set st.index (.struct fields)⟩
            (by simpa using hd) (by simp only [List.length_set]; omega) hconv.1 hpre2 hns2
        refine ⟨err, l :: consumed, fields :: recs, ?_, List.Sublist.cons₂ l h2, ?_,
          List.Forall₂.cons hconv h4⟩
        · rw [List.cons_append, loadLines_not_skipped a sep fieldTypes linenum l _ st hnsl,
            if_neg (by simpa using heq), hf]
          dsimp only
          rw [if_pos hidx, h1]
          dsimp only
          rw [set_take_succ _ _ _ hidx, List.drop_set_of_lt _ _ (by omega)]
          simp only [List.length_cons, List.map_cons, List.append_assoc,
            List.singleton_append, Nat.add_assoc, Nat.add_comm 1]
        · by_cases hb : isBlank l = true
          · rw [nonBlank_cons_blank l pre2 hb]
            exact List.Sublist.cons l h3
          · have : nonBlank (l :: pre2) = l :: nonBlank pre2 := by
              simp [nonBlank, List.filter_cons, hb]
            rw [this]
            exact List.Sublist.cons₂ l h3
      rcases hpre l (List.mem_cons_self l pre2) with hb | hgood
      ·
        have hlast : pre2 = [] := by
          rcases hnsl with h | h
          · rw [hb] at h; exact absurd h (by simp)
          · exact List.length_eq_zero.mp (by omega)
        subst hlast
        have hnb : nonBlank [l] = [] := by rw [nonBlank_cons_blank l [] hb]; rfl
        by_cases hne : (Split (TrimSpace l) sep).length ≠ fieldTypes.length
        · refine ⟨.fieldCount (st.index + 1) (Split (TrimSpace l) sep).length
            fieldTypes.length, [], [], ?_, List.nil_sublist _, by rw [hnb], List.Forall₂.nil⟩
          rw [List.cons_append, loadLines_not_skipped a sep fieldTypes linenum l _ st hnsl,
            if_pos hne]
          simp
        · have heq : (Split (TrimSpace l) sep).length = fieldTypes.length := by
            simpa using hne
          rcases convFields_cases a (Split (TrimSpace l) sep) fieldTypes fieldTypes.length 0
            st.elem with ⟨fields, hf, -⟩ | ⟨e, hf⟩ | hf
          · exact hgo fields hf heq
          · refine ⟨.conv e, [], [], ?_, List.nil_sublist _, by rw [hnb], List.Forall₂.nil⟩
            rw [List.cons_append, loadLines_not_skipped a sep fieldTypes linenum l _ st hnsl,
              if_neg hne, hf]
            simp
          · exact absurd hf
              (convFields_no_panic a _ fieldTypes _ 0 st.elem (by omega) (by omega))
      · obtain ⟨fields, hf, -⟩ :=
          convFields_done a (Split (TrimSpace l) sep) fieldTypes st.elem hgood.2.1 helem
            hgood.2.2
        exact hgo fields hf hgood.2.1

/-- A run of the loop of LoadRefDat that returns an error has stopped on a
line: the count is the number of the lines consumed in front of it plus one,
and the error is the field-count error of the line, with that count as the
line number, or the error of the first token of the line that does not
convert. -/
theorem loadLines_error_inv (a : Arch) (sep : Bytes) (fieldTypes : List GoType)
    (linenum : Nat) (lines : List Bytes) (st : LoopState) (n : Nat) (err : LoadError)
    (d : List Value)
    (h : loadLines a sep fieldTypes linenum lines st = .ret n (some err) d) :
    ∃ (pre : List Bytes) (bad : Bytes) (rest : List Bytes),
      lines = pre ++ bad :: rest ∧
      st.index + (nonBlank pre).length + 1 ≤ n ∧ n ≤ st.index + pre.length + 1 ∧
      ((∀ l ∈ pre, isBlank l = false) → n = st.index + pre.length + 1) ∧
      (((Split (TrimSpace bad) sep).length ≠ fieldTypes.length ∧
          err = .fieldCount n (Split (TrimSpace bad) sep).length fieldTypes.length) ∨
        ((Split (TrimSpace bad) sep).length = fieldTypes.length ∧
          ∃ (k : Nat) (tok : Bytes) (t : GoType) (ce : ConvError),
            (Split (TrimSpace bad) sep)[k]? = some tok ∧ fieldTypes[k]? = some t ∧
            convString a (TrimSpace tok) t = .error ce ∧
            (∀ j, j < k → convOk a (Split (TrimSpace bad) sep)[j]? fieldTypes[j]? = true) ∧
            err = .conv ce)) := by
  induction lines generalizing st with
  | nil =>
    rw [loadLines_nil] at h
    simp at h
  | cons l ls ih =>
    by_cases hskip : isBlank l = true ∧ st.index + 2 ≤ linenum
    · rw [loadLines_blank a sep fieldTypes linenum l ls st hskip.1 hskip.2] at h
      obtain ⟨pre, bad, rest, h1, h2, h3, h4, h5⟩ := ih st h
      refine ⟨l :: pre, bad, rest, by rw [h1]; rfl, ?_, ?_, ?_, h5⟩
      · rw [nonBlank_cons_blank l pre hskip.1]; exact h2
      · simp only [List.length_cons]; omega
      · intro hall
        have := hall l (List.mem_cons_self l pre)
        rw [hskip.1] at this
        exact absurd this (by simp)
    · have hns : isBlank l = false ∨ linenum ≤ st.index + 1 := by
        by_cases hb : isBlank l = true
        · right
          have : ¬ st.index + 2 ≤ linenum := fun h => hskip ⟨hb, h⟩
          omega
        · left; simpa using hb
      rw [loadLines_not_skipped a sep fieldTypes linenum l ls st hns] at h
      split at h
      · rename_i hne
        simp only [LoopResult.ret.injEq, Option.some.injEq] at h
        obtain ⟨hn, herr, -⟩ := h
        subst hn
        exact ⟨[], l, ls, rfl, by simp [nonBlank], by simp, fun _ => by simp,
          Or.inl ⟨hne, herr.symm⟩⟩
      · rename_i hne
        have heq : (Split (TrimSpace l) sep).length = fieldTypes.length := by simpa using hne
        split at h
        · rename_i e hf
          simp only [LoopResult.ret.injEq, Option.some.injEq] at h
          obtain ⟨hn, herr, -⟩ := h
          subst hn
          obtain ⟨k, tok, t, -, h1, h2, h3, h4⟩ := convFields_fail_inv a _ _ _ _ _ _ hf
          exact ⟨[], l, ls, rfl, by simp [nonBlank], by simp, fun _ => by simp,
            Or.inr ⟨heq, k, tok, t, e, h1, h2, h3, fun j hj => h4 j (Nat.zero_le j) hj,
              herr.symm⟩⟩
        · simp at h
        · rename_i fields hf
          split at h
          · obtain ⟨pre, bad, rest, h1, h2, h3, h4, h5⟩ := ih _ h
            simp only at h2 h3 h4
            refine ⟨l :: pre, bad, rest, by rw [h1]; rfl, ?_, ?_, ?_, h5⟩
            · have := nonBlank_length_cons_le l pre
              omega
            · simp only [List.length_cons]; omega
            · intro hall
              have := h4 (fun x hx => hall x (List.mem_cons_of_mem l hx))
              simp only [List.length_cons]
              omega
          · simp at h

theorem good_or_blank_of_zip (a : Arch) (sep : Bytes) (fieldTypes : List GoType) (l : Bytes)
    (h : TrimSpace l = [] ∨
      ((Split (TrimSpace l) sep).length = fieldTypes.length ∧
        ∀ p ∈ (Split (TrimSpace l) sep).zip fieldTypes,
          (convString a (TrimSpace p.1) p.2).toBool = true)) :
    isBlank l = true ∨ GoodLine a sep fieldTypes l := by
  by_cases hb : TrimSpace l = []
  · left; simp [isBlank, hb]
  · rcases h with h | h
    · exact absurd h hb
    · exact Or.inr (goodLine_of_zip a sep fieldTypes l hb h.1 h.2)

theorem scanLines_upto (content : Bytes) (pre : List Bytes) (bad : Bytes) (rest : List Bytes)
    (hlines : rawLines content = pre ++ bad :: rest)
    (hfit : ∀ l ∈ pre ++ [bad], l.length < maxScanTokenSize) :
    scanLines content =
      (pre ++ bad :: rest.takeWhile (fun l => decide (l.length < maxScanTokenSize))).map
        dropCR := by
  unfold scanLines
  have e : pre ++ bad :: rest = (pre ++ [bad]) ++ rest := by simp
  rw [hlines, e, List.takeWhile_append_of_pos (fun l hl => by simpa using hfit l hl)]
  simp

/-- C2 as amended: take a file that LoadRefDat can open and read, a record
type whose fields are all exported, and a line j of the file such that line j
and the lines before it are shorter than 64 KiB (65536 bytes), every line
before line j is whitespace-only or well-formed, and line j is malformed (its
token count differs from the field count, or one of its tokens does not
convert) and is not skipped: it is not whitespace-only, or no line before it
is whitespace-only and the file has at most j newline bytes.  Then LoadRefDat
returns an error together with a count that is one more than the number of
records assembled from the lines before line j: 1 when the very first line
fails.  The records assembled are those of lines before line j, those of all
the lines that are not whitespace-only among them; they stand at the head of
the destination, zero records behind them. -/
theorem LoadRefDat_error_count (a : Arch) (fs : FileSystem) (path sep : Bytes)
    (fieldTypes : List GoType) (content : Bytes) (pre : List Bytes) (bad : Bytes)
    (rest : List Bytes) (prior : List Value)
    (hfile : fs path = some content)
    (hlines : rawLines content = pre ++ bad :: rest)
    (hfit : ∀ l ∈ pre ++ [bad], l.length < 65536)
    (hpre : ∀ l ∈ pre, TrimSpace l = [] ∨
      ((Split (TrimSpace l) sep).length = fieldTypes.length ∧
        ∀ p ∈ (Split (TrimSpace l) sep).zip fieldTypes,
          (convString a (TrimSpace p.1) p.2).toBool = true))
    (hbad : TrimSpace bad ≠ [] ∨
      (lineCounter content ≤ pre.length + 1 ∧ ∀ l ∈ pre, TrimSpace l ≠ []))
    (hfail : (Split (TrimSpace bad) sep).length ≠ fieldTypes.length ∨
      ∃ p ∈ (Split (TrimSpace bad) sep).zip fieldTypes,
        (convString a (TrimSpace p.1) p.2).toBool = false) :
    ∃ (err : LoadError) (consumed : List Bytes) (recs : List (List Value)),
      LoadRefDat a fs path sep (sliceArg fieldTypes prior) =
        .ret (recs.length + 1) (some err)
          (sliceArg fieldTypes (recs.map Value.struct ++
            List.replicate (lineCounter content - recs.length)
              (zeroValue (.struct fieldTypes)))) ∧
      List.Sublist consumed pre ∧ List.Sublist (nonBlank pre) consumed ∧
      List.Forall₂ (fun l fields => Converted a (Split (TrimSpace l) sep) fieldTypes fields)
        consumed recs := by
  have hlen : pre.length ≤ lineCounter content := by
    have := rawLines_length_le content
    rw [hlines] at this
    simp only [List.length_append, List.length_cons] at this
    omega
  have hns : isBlank bad = false ∨
      (lineCounter content ≤ 0 + pre.length + 1 ∧ ∀ l ∈ pre, isBlank l = false) := by
    rcases hbad with h | h
    · exact Or.inl (by simp [isBlank, List.isEmpty_iff, h])
    · exact Or.inr ⟨by omega, fun l hl => by simp [isBlank, List.isEmpty_iff, h.2 l hl]⟩
  obtain ⟨err, consumed, recs, h1, h2, h3, h4⟩ :=
    loadLines_stops a sep fieldTypes (lineCounter content) pre bad
      (rest.takeWhile (fun l => decide (l.length < maxScanTokenSize)))
      ⟨0, zeroValues fieldTypes,
        List.replicate (lineCounter content) (.struct (zeroValues fieldTypes))⟩
      (by simp) (by simpa using hlen) (zeroValues_length fieldTypes)
      (fun l hl => good_or_blank_of_zip a sep fieldTypes l (hpre l hl)) hns hfail
  refine ⟨err, consumed, recs, ?_, h2, h3, h4⟩
  rw [LoadRefDat_sliceArg a fs path sep fieldTypes prior _ hfile,
    scanLines_upto content pre bad rest hlines hfit, loadContent_map_dropCR, loadContent_eq,
    h1]
  simp [sliceArg, zeroValue]

theorem LoadRefDat_error_count_witness :
    ∃ (err : LoadError) (consumed : List Bytes) (recs : List (List Value)),
      LoadRefDat .bits64 (oneFile (utf8 "1|2|abc\n  \nx|5|6\n7|8|9")) (utf8 "ref.dat")
          (utf8 "|") (sliceArg testElem []) =
        .ret (recs.length + 1) (some err)
          (sliceArg testElem (recs.map Value.struct ++
            List.replicate (lineCounter (utf8 "1|2|abc\n  \nx|5|6\n7|8|9") - recs.length)
              (zeroValue (.struct testElem)))) ∧
      List.Sublist consumed [utf8 "1|2|abc", utf8 "  "] ∧
      List.Sublist (nonBlank [utf8 "1|2|abc", utf8 "  "]) consumed ∧
      List.Forall₂
        (fun l fields => Converted .bits64 (Split (TrimSpace l) (utf8 "|")) testElem fields)
        consumed recs :=
  LoadRefDat_error_count .bits64 (oneFile (utf8 "1|2|abc\n  \nx|5|6\n7|8|9")) (utf8 "ref.dat")
    (utf8 "|") testElem (utf8 "1|2|abc\n  \nx|5|6\n7|8|9") [utf8 "1|2|abc", utf8 "  "]
    (utf8 "x|5|6") [utf8 "7|8|9"] [] rfl (by decide) (by decide) (by decide)
    (Or.inl (by decide)) (by decide)

/-- C2 as stated fails, and each condition of the amended claim is needed.
The very first line of a file has two tokens for a record of three fields: no
record was assembled before it, and LoadRefDat returns the count 1, not 0.  A
whitespace-only first line has one token for three fields, and it is skipped:
the call returns no error.  Behind a line of 65536 bytes a line with two
tokens for three fields is not scanned: the call returns no error.  With a
field that is not exported the call panics on the well-formed first line and
returns no error for the malformed second line. -/
theorem first_line_failure_returns_one :
    LoadRefDat .bits64 (oneFile (utf8 "1|2\n")) (utf8 "ref.dat") (utf8 "|")
        (sliceArg testElem []) =
      .ret 1 (some (.fieldCount 1 2 3))
        (sliceArg testElem [.struct [.int 0, .uint 0, .str []]]) ∧
    ((Split (TrimSpace (utf8 " ")) (utf8 "|")).length ≠ testElem.length ∧
      LoadRefDat .bits64 (oneFile (utf8 " \n1|2|abc\n")) (utf8 "ref.dat") (utf8 "|")
          (sliceArg testElem []) =
        .ret 1 none
          (sliceArg testElem [.struct [.int 1, .uint 2, .str (utf8 "abc")],
            .struct [.int 0, .uint 0, .str []]])) ∧
    LoadRefDat .bits64 (oneFile (List.replicate 65536 97 ++ 10 :: utf8 "1|2\n"))
        (utf8 "ref.dat") (utf8 "|") (sliceArg testElem []) =
      .ret 0 none
        (sliceArg testElem [.struct [.int 0, .uint 0, .str []],
          .struct [.int 0, .uint 0, .str []]]) ∧
    LoadRefDat .bits64 (oneFile (utf8 "7\nx\n")) (utf8 "ref.dat") (utf8 "|")
        (recordsArg (.structRO [.int] [true]) []) =
      .panic (recordsArg (.structRO [.int] [true]) [.struct [.int 0], .struct [.int 0]]) :=
  ⟨by decide, by decide,
    LoadRefDat_long_first_line .bits64
      (oneFile (List.replicate 65536 97 ++ 10 :: utf8 "1|2\n")) (utf8 "ref.dat") (utf8 "|")
      testElem [] (List.replicate 65536 97) (utf8 "1|2\n") (content_oneFile _ _)
      (newline_not_mem_replicate 65536 97 (by decide))
      (by rw [List.length_replicate]; decide),
    by decide⟩

/-- C3 as amended: when LoadRefDat, on a file it can open and read, returns an
error, it has stopped on a line of the file, and the count it returns is one
more than the number of the lines consumed before that line: at most the
1-based line number of the line, and equal to it when no line before it is
whitespace-only.  For a field-count mismatch the error carries the count
returned as its line number, the token count of the line and the field count
of the record type; for a conversion failure the error is the error of
convString for the first token of the line that does not convert, returned as
it is, with no line number. -/
theorem LoadRefDat_error_line (a : Arch) (fs : FileSystem) (path sep : Bytes)
    (e : GoType) (prior : List Value) (content : Bytes) (n : Nat) (err : LoadError) (s2 : Arg)
    (he : e.isStruct = true)
    (hfile : fs path = some content)
    (h : LoadRefDat a fs path sep (recordsArg e prior) = .ret n (some err) s2) :
    ∃ (pre : List Bytes) (bad : Bytes) (rest : List Bytes),
      rawLines content = pre ++ bad :: rest ∧
      (nonBlank pre).length + 1 ≤ n ∧ n ≤ pre.length + 1 ∧
      ((∀ l ∈ pre, isBlank l = false) → n = pre.length + 1) ∧
      (((Split (TrimSpace bad) sep).length ≠ (structFields e).length ∧
          err = .fieldCount n (Split (TrimSpace bad) sep).length (structFields e).length) ∨
        ((Split (TrimSpace bad) sep).length = (structFields e).length ∧
          ∃ (k : Nat) (tok : Bytes) (t : GoType) (ce : ConvError),
            (Split (TrimSpace bad) sep)[k]? = some tok ∧ (structFields e)[k]? = some t ∧
            convString a (TrimSpace tok) t = .error ce ∧
            (∀ j, j < k →
              convOk a (Split (TrimSpace bad) sep)[j]? (structFields e)[j]? = true) ∧
            err = .conv ce)) := by
  obtain ⟨d, -, hl⟩ := LoadRefDat_ret a fs path sep e prior content n (some err) s2 he hfile h
  unfold scanLines at hl
  rw [loadLines_map_dropCR] at hl
  obtain ⟨pre, bad, rest, h1, h2, h3, h4, h5⟩ := loadLines_error_inv a sep _ _ _ _ _ _ _ hl
  simp only [Nat.zero_add] at h2 h3 h4
  refine ⟨pre, bad,
    rest ++ (rawLines content).dropWhile (fun l => decide (l.length < maxScanTokenSize)),
    ?_, h2, h3, h4, h5⟩
  have := List.takeWhile_append_dropWhile (fun l => decide (l.length < maxScanTokenSize))
    (rawLines content)
  rw [h1] at this
  rw [← List.cons_append, ← List.append_assoc]
  exact this.symm

theorem LoadRefDat_error_line_witness :
    ∃ (pre : List Bytes) (bad : Bytes) (rest : List Bytes),
      rawLines (utf8 "1|2|abc\n4|5\n7|8|9\n") = pre ++ bad :: rest ∧
      (nonBlank pre).length + 1 ≤ 2 ∧ 2 ≤ pre.length + 1 ∧
      ((∀ l ∈ pre, isBlank l = false) → 2 = pre.length + 1) ∧
      (((Split (TrimSpace bad) (utf8 "|")).length ≠ (structFields (.struct testElem)).length ∧
          LoadError.fieldCount 2 2 3 =
            .fieldCount 2 (Split (TrimSpace bad) (utf8 "|")).length
              (structFields (.struct testElem)).length) ∨
        ((Split (TrimSpace bad) (utf8 "|")).length = (structFields (.struct testElem)).length ∧
          ∃ (k : Nat) (tok : Bytes) (t : GoType) (ce : ConvError),
            (Split (TrimSpace bad) (utf8 "|"))[k]? = some tok ∧
            (structFields (.struct testElem))[k]? = some t ∧
            convString .bits64 (TrimSpace tok) t = .error ce ∧
            (∀ j, j < k →
              convOk .bits64 (Split (TrimSpace bad) (utf8 "|"))[j]?
                (structFields (.struct testElem))[j]? = true) ∧
            LoadError.fieldCount 2 2 3 = .conv ce)) :=
  LoadRefDat_error_line .bits64 (oneFile (utf8 "1|2|abc\n4|5\n7|8|9\n")) (utf8 "ref.dat")
    (utf8 "|") (.struct testElem) [] (utf8 "1|2|abc\n4|5\n7|8|9\n") 2 (.fieldCount 2 2 3)
    (recordsArg (.struct testElem) [.struct [.int 1, .uint 2, .str (utf8 "abc")],
      .struct [.int 0, .uint 0, .str []], .struct [.int 0, .uint 0, .str []]])
    rfl rfl (by decide)

/-- C3 as stated fails.  Behind a skipped blank line the malformed line is line
2 of the file, and the error carries the number 1.  A conversion error carries
no line number: the same error is returned for the malformed line as line 1
and as line 2 of a file. -/
theorem error_line_number_is_record_ordinal :
    LoadRefDat .bits64 (oneFile (utf8 "\n1|2\n")) (utf8 "ref.dat") (utf8 "|")
        (sliceArg testElem []) =
      .ret 1 (some (.fieldCount 1 2 3))
        (sliceArg testElem [.struct [.int 0, .uint 0, .str []],
          .struct [.int 0, .uint 0, .str []]]) ∧
    LoadRefDat .bits64 (oneFile (utf8 "x|2|abc\n")) (utf8 "ref.dat") (utf8 "|")
        (sliceArg testElem []) =
      .ret 1 (some (.conv (.num ⟨.parseInt, utf8 "x", .errSyntax⟩)))
        (sliceArg testElem [.struct [.int 0, .uint 0, .str []]]) ∧
    LoadRefDat .bits64 (oneFile (utf8 "1|2|abc\nx|2|abc\n")) (utf8 "ref.dat") (utf8 "|")
        (sliceArg testElem []) =
      .ret 2 (some (.conv (.num ⟨.parseInt, utf8 "x", .errSyntax⟩)))
        (sliceArg testElem [.struct [.int 1, .uint 2, .str (utf8 "abc")],
          .struct [.int 0, .uint 0, .str []]]) := by
  decide

/-! ## Padding with spaces and tabs -/

theorem trimG_one (p1 : Nat → Bool) (p2 : Nat → Nat → Bool) (p3 : Nat → Nat → Nat → Bool)
    (b0 : Nat) (r1 : Bytes) (h : p1 b0 = true) :
    trimG p1 p2 p3 (b0 :: r1) = trimG p1 p2 p3 r1 := by
  rw [trimG.eq_def]
  simp [h]

theorem trimG_two (p1 : Nat → Bool) (p2 : Nat → Nat → Bool) (p3 : Nat → Nat → Nat → Bool)
    (b0 b1 : Nat) (r2 : Bytes) (h : ¬ p1 b0 = true) (h2 : p2 b0 b1 = true) :
    trimG p1 p2 p3 (b0 :: b1 :: r2) = trimG p1 p2 p3 r2 := by
  rw [trimG.eq_def]
  simp [h, h2]

theorem trimG_three (p1 : Nat → Bool) (p2 : Nat → Nat → Bool) (p3 : Nat → Nat → Nat → Bool)
    (b0 b1 b2 : Nat) (r3 : Bytes) (h : ¬ p1 b0 = true) (h2 : ¬ p2 b0 b1 = true)
    (h3 : p3 b0 b1 b2 = true) :
    trimG p1 p2 p3 (b0 :: b1 :: b2 :: r3) = trimG p1 p2 p3 r3 := by
  rw [trimG.eq_def]
  simp [h, h2, h3]

theorem trimLeft_eq_trimG (s : Bytes) : trimLeft s = trimG isAsciiSpace isSpace2 isSpace3 s := by
  induction s using trimLeft.induct with
  | case1 => simp [trimLeft, trimG]
  | case2 b0 r1 h ih => rw [trimLeft_space _ _ h, ih, trimG_one _ _ _ _ _ h]
  | case3 b0 h => simp [trimLeft, trimG, h]
  | case4 b0 h b1 r2 h2 ih => rw [trimLeft_space2 _ _ _ h h2, ih, trimG_two _ _ _ _ _ _ h h2]
  | case5 b0 h b1 h2 => simp [trimLeft, trimG, h, h2]
  | case6 b0 h b1 h2 b2 r3 h3 ih =>
    rw [trimLeft_space3 _ _ _ _ h h2 h3, ih, trimG_three _ _ _ _ _ _ _ h h2 h3]
  | case7 b0 h b1 h2 b2 r3 h3 => simp [trimLeft, trimG, h, h2, h3]

theorem trimRightRev_eq_trimG (s : Bytes) :
    trimRightRev s = trimG isAsciiSpace isSpace2Rev isSpace3Rev s := by
  induction s using trimRightRev.induct with
  | case1 => simp [trimRightRev, trimG]
  | case2 b0 r1 h ih =>
    rw [trimG_one _ _ _ _ _ h, ← ih, trimRightRev.eq_def]
    simp [h]
  | case3 b0 h => simp [trimRightRev, trimG, h]
  | case4 b0 h b1 r2 h2 ih =>
    rw [trimG_two _ _ _ _ _ _ h (by simpa [isSpace2Rev] using h2), ← ih, trimRightRev.eq_def]
    simp [h, h2]
  | case5 b0 h b1 h2 => simp [trimRightRev, trimG, h, h2, isSpace2Rev]
  | case6 b0 h b1 h2 b2 r3 h3 ih =>
    rw [trimG_three _ _ _ _ _ _ _ h (by simpa [isSpace2Rev] using h2)
      (by simpa [isSpace3Rev] using h3), ← ih, trimRightRev.eq_def]
    simp [h, h2, h3]
  | case7 b0 h b1 h2 b2 r3 h3 => simp [trimRightRev, trimG, h, h2, h3, isSpace2Rev, isSpace3Rev]

theorem leadG_one (p1 : Nat → Bool) (p2 : Nat → Nat → Bool) (p3 : Nat → Nat → Nat → Bool)
    (b0 : Nat) (r1 : Bytes) (h : p1 b0 = true) :
    leadG p1 p2 p3 (b0 :: r1) = b0 :: leadG p1 p2 p3 r1 := by
  rw [leadG.eq_def]
  simp [h]

theorem leadG_two (p1 : Nat → Bool) (p2 : Nat → Nat → Bool) (p3 : Nat → Nat → Nat → Bool)
    (b0 b1 : Nat) (r2 : Bytes) (h : ¬ p1 b0 = true) (h2 : p2 b0 b1 = true) :
    leadG p1 p2 p3 (b0 :: b1 :: r2) = b0 :: b1 :: leadG p1 p2 p3 r2 := by
  rw [leadG.eq_def]
  simp [h, h2]

theorem leadG_three (p1 : Nat → Bool) (p2 : Nat → Nat → Bool) (p3 : Nat → Nat → Nat → Bool)
    (b0 b1 b2 : Nat) (r3 : Bytes) (h : ¬ p1 b0 = true) (h2 : ¬ p2 b0 b1 = true)
    (h3 : p3 b0 b1 b2 = true) :
    leadG p1 p2 p3 (b0 :: b1 :: b2 :: r3) = b0 :: b1 :: b2 :: leadG p1 p2 p3 r3 := by
  rw [leadG.eq_def]
  simp [h, h2, h3]

/-- What `trimG` removes and what it leaves make up the string. -/
theorem leadG_append_trimG (p1 : Nat → Bool) (p2 : Nat → Nat → Bool)
    (p3 : Nat → Nat → Nat → Bool) (s : Bytes) :
    leadG p1 p2 p3 s ++ trimG p1 p2 p3 s = s := by
  induction s using trimG.induct p1 p2 p3 with
  | case1 => simp [leadG, trimG]
  | case2 b0 r1 h ih => rw [leadG_one _ _ _ _ _ h, trimG_one _ _ _ _ _ h, List.cons_append, ih]
  | case3 b0 h => simp [leadG, trimG, h]
  | case4 b0 h b1 r2 h2 ih =>
    rw [leadG_two _ _ _ _ _ _ h h2, trimG_two _ _ _ _ _ _ h h2, List.cons_append,
      List.cons_append, ih]
  | case5 b0 h b1 h2 => simp [leadG, trimG, h, h2]
  | case6 b0 h b1 h2 b2 r3 h3 ih =>
    rw [leadG_three _ _ _ _ _ _ _ h h2 h3, trimG_three _ _ _ _ _ _ _ h h2 h3,
      List.cons_append, List.cons_append, List.cons_append, ih]
  | case7 b0 h b1 h2 b2 r3 h3 => simp [leadG, trimG, h, h2, h3]

/-- What `trimG` removes from a string, it removes in front of any string. -/
theorem trimG_leadG_append (p1 : Nat → Bool) (p2 : Nat → Nat → Bool)
    (p3 : Nat → Nat → Nat → Bool) (s x : Bytes) :
    trimG p1 p2 p3 (leadG p1 p2 p3 s ++ x) = trimG p1 p2 p3 x := by
  induction s using trimG.induct p1 p2 p3 with
  | case1 => simp [leadG]
  | case2 b0 r1 h ih => rw [leadG_one _ _ _ _ _ h, List.cons_append, trimG_one _ _ _ _ _ h, ih]
  | case3 b0 h => simp [leadG, h]
  | case4 b0 h b1 r2 h2 ih =>
    rw [leadG_two _ _ _ _ _ _ h h2, List.cons_append, List.cons_append,
      trimG_two _ _ _ _ _ _ h h2, ih]
  | case5 b0 h b1 h2 => simp [leadG, h, h2]
  | case6 b0 h b1 h2 b2 r3 h3 ih =>
    rw [leadG_three _ _ _ _ _ _ _ h h2 h3, List.cons_append, List.cons_append,
      List.cons_append, trimG_three _ _ _ _ _ _ _ h h2 h3, ih]
  | case7 b0 h b1 h2 b2 r3 h3 => simp [leadG, h, h2, h3]

theorem cleanG_trimG (p1 : Nat → Bool) (p2 : Nat → Nat → Bool)
    (p3 : Nat → Nat → Nat → Bool) (s : Bytes) :
    cleanG p1 p2 p3 (trimG p1 p2 p3 s) = true := by
  induction s using trimG.induct p1 p2 p3 with
  | case1 => simp [trimG, cleanG]
  | case2 b0 r1 h ih => rw [trimG_one _ _ _ _ _ h]; exact ih
  | case3 b0 h => simp [trimG, cleanG, h]
  | case4 b0 h b1 r2 h2 ih => rw [trimG_two _ _ _ _ _ _ h h2]; exact ih
  | case5 b0 h b1 h2 => simp [trimG, cleanG, h, h2]
  | case6 b0 h b1 h2 b2 r3 h3 ih => rw [trimG_three _ _ _ _ _ _ _ h h2 h3]; exact ih
  | case7 b0 h b1 h2 b2 r3 h3 => simp [trimG, cleanG, h, h2, h3]

theorem trimG_of_cleanG (p1 : Nat → Bool) (p2 : Nat → Nat → Bool)
    (p3 : Nat → Nat → Nat → Bool) (s : Bytes) (h : cleanG p1 p2 p3 s = true) :
    trimG p1 p2 p3 s = s := by
  match s, h with
  | [], _ => simp [trimG]
  | [b0], h => simp [cleanG] at h; simp [trimG, h]
  | [b0, b1], h => simp [cleanG] at h; simp [trimG, h]
  | b0 :: b1 :: b2 :: r, h => simp [cleanG] at h; simp [trimG, h]

theorem cleanG_of_append (p1 : Nat → Bool) (p2 : Nat → Nat → Bool)
    (p3 : Nat → Nat → Nat → Bool) (x y : Bytes) (h : cleanG p1 p2 p3 (x ++ y) = true) :
    cleanG p1 p2 p3 x = true := by
  match x, h with
  | [], _ => simp [cleanG]
  | [b0], h =>
    match y, h with
    | [], h => simpa using h
    | [c], h => simp [cleanG] at h ⊢; exact h.1
    | c :: d :: _, h => simp [cleanG] at h ⊢; exact h.1.1
  | [b0, b1], h =>
    match y, h with
    | [], h => simpa using h
    | c :: _, h => simp [cleanG] at h ⊢; exact h.1
  | b0 :: b1 :: b2 :: r, h => simpa [cleanG] using h

theorem PadIns.refl (s : Bytes) : PadIns s s := by
  induction s with
  | nil => exact .nil
  | cons b s ih => exact .keep b ih

theorem PadIns.of_pads (w : Bytes) (hw : ∀ b ∈ w, isPad b = true) : PadIns [] w := by
  induction w with
  | nil => exact .nil
  | cons p w ih =>
    exact .ins p (hw p (List.mem_cons_self _ _)) (ih fun b hb => hw b (List.mem_cons_of_mem _ hb))

theorem PadIns.append {s u t v : Bytes} (h1 : PadIns s u) (h2 : PadIns t v) :
    PadIns (s ++ t) (u ++ v) := by
  induction h1 with
  | nil => exact h2
  | keep b _ ih => exact .keep b ih
  | ins p hp _ ih => exact .ins p hp ih

theorem PadIns.reverse {s u : Bytes} (h : PadIns s u) : PadIns s.reverse u.reverse := by
  induction h with
  | nil => exact .nil
  | keep b _ ih =>
    rw [List.reverse_cons, List.reverse_cons]
    exact ih.append (PadIns.refl [b])
  | @ins p s u hp _ ih =>
    rw [List.reverse_cons]
    have := ih.append (PadIns.of_pads [p] (by simpa using hp))
    simpa using this

theorem PadIns.pads_of_nil {u : Bytes} (h : PadIns [] u) : ∀ b ∈ u, isPad b = true := by
  generalize hs : ([] : Bytes) = s at h
  induction h with
  | nil => simp
  | keep b _ _ => simp at hs
  | ins p hp _ ih =>
    intro b hb
    rcases List.mem_cons.mp hb with h | h
    · rw [h]; exact hp
    · exact ih hs b h

/-- A padded copy of a string that is not empty starts with added bytes and
then has the first byte of the string. -/
theorem PadIns.head {b : Nat} {s u : Bytes} (h : PadIns (b :: s) u) :
    ∃ w v, (∀ x ∈ w, isPad x = true) ∧ u = w ++ b :: v ∧ PadIns s v := by
  generalize hs : b :: s = t at h
  induction h with
  | nil => simp at hs
  | keep c h _ =>
    simp only [List.cons.injEq] at hs
    obtain ⟨h1, h2⟩ := hs
    subst h1; subst h2
    exact ⟨[], _, by simp, rfl, h⟩
  | ins p hp _ ih =>
    obtain ⟨w, v, hw, hu, hv⟩ := ih hs
    refine ⟨p :: w, v, ?_, by rw [hu]; rfl, hv⟩
    intro x hx
    rcases List.mem_cons.mp hx with h | h
    · rw [h]; exact hp
    · exact hw x h

theorem PadIns.mem {s u : Bytes} (h : PadIns s u) : ∀ x ∈ u, x ∈ s ∨ isPad x = true := by
  induction h with
  | nil => simp
  | keep b _ ih =>
    intro x hx
    rcases List.mem_cons.mp hx with h | h
    · left; rw [h]; exact List.mem_cons_self _ _
    · rcases ih x h with h1 | h1
      · left; exact List.mem_cons_of_mem _ h1
      · right; exact h1
  | ins p hp _ ih =>
    intro x hx
    rcases List.mem_cons.mp hx with h | h
    · right; rw [h]; exact hp
    · exact ih x h

/-- A separator without spaces and tabs that stands at the head of a padded
copy stands at the head of the string. -/
theorem PadIns.isPrefixOf {s u : Bytes} (h : PadIns s u) (sep : Bytes)
    (hsep : ∀ b ∈ sep, isPad b = false) (hu : sep.isPrefixOf u = true) :
    sep.isPrefixOf s = true := by
  induction h generalizing sep with
  | nil => exact hu
  | keep b _ ih =>
    cases sep with
    | nil => simp
    | cons c sep =>
      simp only [List.isPrefixOf, Bool.and_eq_true, beq_iff_eq] at hu ⊢
      exact ⟨hu.1, ih sep (fun x hx => hsep x (List.mem_cons_of_mem _ hx)) hu.2⟩
  | ins p hp _ ih =>
    cases sep with
    | nil => simp
    | cons c sep =>
      simp only [List.isPrefixOf, Bool.and_eq_true, beq_iff_eq] at hu
      have := hsep c (List.mem_cons_self _ _)
      rw [hu.1, hp] at this
      simp at this

theorem trimG_pads (p1 : Nat → Bool) (p2 : Nat → Nat → Bool) (p3 : Nat → Nat → Nat → Bool)
    (hp1 : ∀ p, isPad p = true → p1 p = true) (w x : Bytes)
    (hw : ∀ b ∈ w, isPad b = true) :
    trimG p1 p2 p3 (w ++ x) = trimG p1 p2 p3 x := by
  induction w with
  | nil => rfl
  | cons p w ih =>
    rw [List.cons_append, trimG_one _ _ _ _ _ (hp1 p (hw p (List.mem_cons_self _ _)))]
    exact ih fun b hb => hw b (List.mem_cons_of_mem _ hb)

/-- A string without a white-space rune at its head has none when spaces and
tabs are put in behind its first byte. -/
theorem cleanG_padIns (p1 : Nat → Bool) (p2 : Nat → Nat → Bool) (p3 : Nat → Nat → Nat → Bool)
    (hp2 : ∀ b p, isPad p = true → p2 b p = false)
    (hp3 : ∀ b c p, isPad p = true → p3 b p c = false ∧ p3 b c p = false)
    (b : Nat) (s u : Bytes) (hc : cleanG p1 p2 p3 (b :: s) = true) (h : PadIns s u) :
    cleanG p1 p2 p3 (b :: u) = true := by
  have h1 : p1 b = false := by
    have := cleanG_of_append p1 p2 p3 [b] s hc
    simpa [cleanG] using this
  cases h with
  | nil => exact hc
  | @keep c s2 u2 h2 =>
    have h12 : p2 b c = false := by
      have := cleanG_of_append p1 p2 p3 [b, c] s2 hc
      simp [cleanG] at this
      exact this.2
    cases h2 with
    | nil => exact hc
    | keep d _ => simpa [cleanG] using hc
    | ins p hp _ => simp [cleanG, h1, h12, (hp3 b c p hp).2]
  | @ins p _ u2 hp h2 =>
    cases u2 with
    | nil => simp [cleanG, h1, hp2 b p hp]
    | cons c u3 => simp [cleanG, h1, hp2 b p hp, (hp3 b c p hp).1]

/-- Appending a string whose first byte cannot continue a white-space rune
does not change what `trimG` removes, unless it removes everything. -/
theorem trimG_append (p1 : Nat → Bool) (p2 : Nat → Nat → Bool) (p3 : Nat → Nat → Nat → Bool)
    (x y : Bytes)
    (hy : ∀ c, y.head? = some c →
      (∀ b, p2 b c = false) ∧ ∀ b d, p3 b c d = false ∧ p3 b d c = false) :
    trimG p1 p2 p3 (x ++ y) =
      if trimG p1 p2 p3 x = [] then trimG p1 p2 p3 y else trimG p1 p2 p3 x ++ y := by
  induction x using trimG.induct p1 p2 p3 with
  | case1 => simp [trimG]
  | case2 b0 r1 h ih => rw [List.cons_append, trimG_one _ _ _ _ _ h, trimG_one _ _ _ _ _ h, ih]
  | case3 b0 h =>
    have h0 : trimG p1 p2 p3 [b0] = [b0] := by simp [trimG, h]
    rw [h0, if_neg (by simp)]
    apply trimG_of_cleanG
    match y, hy with
    | [], _ => simpa [cleanG] using h
    | [c], hy => simp [cleanG, h, (hy c rfl).1 b0]
    | c :: d :: _, hy => simp [cleanG, h, (hy c rfl).1 b0, ((hy c rfl).2 b0 d).1]
  | case4 b0 h b1 r2 h2 ih =>
    rw [List.cons_append, List.cons_append, trimG_two _ _ _ _ _ _ h h2,
      trimG_two _ _ _ _ _ _ h h2, ih]
  | case5 b0 h b1 h2 =>
    have h0 : trimG p1 p2 p3 [b0, b1] = [b0, b1] := by simp [trimG, h, h2]
    rw [h0, if_neg (by simp)]
    apply trimG_of_cleanG
    match y, hy with
    | [], _ => simp [cleanG, h, h2]
    | c :: _, hy => simp [cleanG, h, h2, ((hy c rfl).2 b0 b1).2]
  | case6 b0 h b1 h2 b2 r3 h3 ih =>
    rw [List.cons_append, List.cons_append, List.cons_append,
      trimG_three _ _ _ _ _ _ _ h h2 h3, trimG_three _ _ _ _ _ _ _ h h2 h3, ih]
  | case7 b0 h b1 h2 b2 r3 h3 =>
    have h0 : trimG p1 p2 p3 (b0 :: b1 :: b2 :: r3) = b0 :: b1 :: b2 :: r3 := by
      simp [trimG, h, h2, h3]
    rw [h0, if_neg (by simp)]
    apply trimG_of_cleanG
    simp [cleanG, h, h2, h3]

theorem isPad_iff (p : Nat) : isPad p = true ↔ p = 9 ∨ p = 32 := by
  simp [isPad]

theorem isAsciiSpace_of_isPad (p : Nat) (h : isPad p = true) : isAsciiSpace p = true := by
  rcases (isPad_iff p).mp h with h | h <;> subst h <;> decide

theorem isSpace2_pad (b p : Nat) (h : isPad p = true) : isSpace2 b p = false := by
  rcases (isPad_iff p).mp h with h | h <;> subst h <;> simp [isSpace2]

theorem isSpace3_pad (b c p : Nat) (h : isPad p = true) :
    isSpace3 b p c = false ∧ isSpace3 b c p = false := by
  rcases (isPad_iff p).mp h with h | h <;> subst h <;> simp [isSpace3]

theorem isSpace2Rev_pad (b p : Nat) (h : isPad p = true) : isSpace2Rev b p = false := by
  rcases (isPad_iff p).mp h with h | h <;> subst h <;> simp [isSpace2Rev, isSpace2]

theorem isSpace3Rev_pad (b c p : Nat) (h : isPad p = true) :
    isSpace3Rev b p c = false ∧ isSpace3Rev b c p = false := by
  rcases (isPad_iff p).mp h with h | h <;> subst h <;> simp [isSpace3Rev, isSpace3]

theorem TrimSpace_eq (s : Bytes) :
    TrimSpace s = (trimG isAsciiSpace isSpace2Rev isSpace3Rev
      (trimG isAsciiSpace isSpace2 isSpace3 s).reverse).reverse := by
  rw [TrimSpace, trimRight, trimRightRev_eq_trimG, trimLeft_eq_trimG]

theorem trimLeft_pads (w x : Bytes) (hw : ∀ b ∈ w, isPad b = true) :
    trimLeft (w ++ x) = trimLeft x := by
  rw [trimLeft_eq_trimG, trimLeft_eq_trimG]
  exact trimG_pads _ _ _ isAsciiSpace_of_isPad w x hw

theorem trimRightRev_pads (w x : Bytes) (hw : ∀ b ∈ w, isPad b = true) :
    trimRightRev (w ++ x) = trimRightRev x := by
  rw [trimRightRev_eq_trimG, trimRightRev_eq_trimG]
  exact trimG_pads _ _ _ isAsciiSpace_of_isPad w x hw

theorem trimLeft_all_pads (w : Bytes) (hw : ∀ b ∈ w, isPad b = true) : trimLeft w = [] := by
  have := trimLeft_pads w [] hw
  simpa [trimLeft] using this

/-- Spaces and tabs in front of a string are trimmed away. -/
theorem TrimSpace_pads_append (w x : Bytes) (hw : ∀ b ∈ w, isPad b = true) :
    TrimSpace (w ++ x) = TrimSpace x := by
  rw [TrimSpace, TrimSpace, trimLeft_pads w x hw]

/-- A byte that is not between 0x80 and 0xBF is not the second or third byte
of a white-space rune. -/
theorem isSpace_not_continuation (c : Nat) (hc : c < 0x80 ∨ 0xBF < c) :
    (∀ b, isSpace2 b c = false) ∧ ∀ b d, isSpace3 b c d = false ∧ isSpace3 b d c = false := by
  refine ⟨fun b => ?_, fun b d => ⟨?_, ?_⟩⟩
  · simp only [isSpace2, Bool.and_eq_false_imp, Bool.or_eq_false_iff, beq_eq_false_iff_ne,
      beq_iff_eq]
    intro _
    constructor <;> omega
  · cases h : isSpace3 b c d
    · rfl
    · simp only [isSpace3, Bool.or_eq_true, Bool.and_eq_true, beq_iff_eq,
        decide_eq_true_eq] at h
      omega
  · cases h : isSpace3 b d c
    · rfl
    · simp only [isSpace3, Bool.or_eq_true, Bool.and_eq_true, beq_iff_eq,
        decide_eq_true_eq] at h
      omega

theorem isPad_not_continuation (c : Nat) (hc : isPad c = true) : c < 0x80 ∨ 0xBF < c := by
  rcases (isPad_iff c).mp hc with h | h <;> omega

/-- Spaces and tabs behind a string are trimmed away. -/
theorem TrimSpace_append_pads (x w : Bytes) (hw : ∀ b ∈ w, isPad b = true) :
    TrimSpace (x ++ w) = TrimSpace x := by
  have hy : ∀ c, w.head? = some c →
      (∀ b, isSpace2 b c = false) ∧ ∀ b d, isSpace3 b c d = false ∧ isSpace3 b d c = false := by
    intro c hc
    exact isSpace_not_continuation c
      (isPad_not_continuation c (hw c (List.mem_of_mem_head? hc)))
  have h := trimG_append isAsciiSpace isSpace2 isSpace3 x w hy
  rw [← trimLeft_eq_trimG, ← trimLeft_eq_trimG, ← trimLeft_eq_trimG, trimLeft_all_pads w hw] at h
  rw [TrimSpace, TrimSpace, h]
  by_cases h0 : trimLeft x = []
  · rw [if_pos h0, h0]
  · rw [if_neg h0, trimRight, trimRight, List.reverse_append,
      trimRightRev_pads _ _ (by simpa using hw)]

/-- The line is its leading white space, its trimmed text and its trailing
white space. -/
theorem trimLeft_eq_TrimSpace_append (l : Bytes) : trimLeft l = TrimSpace l ++ trail l := by
  have h := leadG_append_trimG isAsciiSpace isSpace2Rev isSpace3Rev (trimLeft l).reverse
  have h2 := congrArg List.reverse h
  rw [List.reverse_append, List.reverse_reverse, ← trimRightRev_eq_trimG] at h2
  rw [TrimSpace, trimRight, trail]
  exact h2.symm

theorem lead_append_TrimSpace_append (l : Bytes) : lead l ++ TrimSpace l ++ trail l = l := by
  rw [List.append_assoc, ← trimLeft_eq_TrimSpace_append, lead, trimLeft_eq_trimG]
  exact leadG_append_trimG _ _ _ l

theorem cleanG_TrimSpace (l : Bytes) :
    cleanG isAsciiSpace isSpace2 isSpace3 (TrimSpace l) = true := by
  have h := cleanG_trimG isAsciiSpace isSpace2 isSpace3 l
  rw [← trimLeft_eq_trimG, trimLeft_eq_TrimSpace_append] at h
  exact cleanG_of_append _ _ _ _ _ h

theorem cleanG_TrimSpace_reverse (l : Bytes) :
    cleanG isAsciiSpace isSpace2Rev isSpace3Rev (TrimSpace l).reverse = true := by
  rw [TrimSpace, trimRight, List.reverse_reverse, trimRightRev_eq_trimG]
  exact cleanG_trimG _ _ _ _

/-- A string that trimRightRev removes completely has, read forwards, a
white-space rune at its head. -/
theorem cleanG_reverse_of_trimG_nil (r : Bytes)
    (h : trimG isAsciiSpace isSpace2Rev isSpace3Rev r = []) (hr : r ≠ []) :
    cleanG isAsciiSpace isSpace2 isSpace3 r.reverse = false := by
  induction r using trimG.induct isAsciiSpace isSpace2Rev isSpace3Rev with
  | case1 => exact absurd rfl hr
  | case2 b0 r1 h1 ih =>
    rw [trimG_one _ _ _ _ _ h1] at h
    by_cases hr1 : r1 = []
    · subst hr1
      simp [cleanG, h1]
    · have := ih h hr1
      rw [List.reverse_cons]
      cases hc : cleanG isAsciiSpace isSpace2 isSpace3 (r1.reverse ++ [b0])
      · rfl
      · rw [cleanG_of_append _ _ _ _ _ hc] at this
        exact absurd this (by simp)
  | case3 b0 h1 => simp [trimG, h1] at h
  | case4 b0 h1 b1 r2 h2 ih =>
    rw [trimG_two _ _ _ _ _ _ h1 h2] at h
    by_cases hr2 : r2 = []
    · subst hr2
      have : isSpace2 b1 b0 = true := h2
      simp [cleanG, this]
    · have := ih h hr2
      rw [List.reverse_cons, List.reverse_cons, List.append_assoc]
      cases hc : cleanG isAsciiSpace isSpace2 isSpace3 (r2.reverse ++ ([b1] ++ [b0]))
      · rfl
      · rw [cleanG_of_append _ _ _ _ _ hc] at this
        exact absurd this (by simp)
  | case5 b0 h1 b1 h2 => simp [trimG, h1, h2] at h
  | case6 b0 h1 b1 h2 b2 r3 h3 ih =>
    rw [trimG_three _ _ _ _ _ _ _ h1 h2 h3] at h
    by_cases hr3 : r3 = []
    · subst hr3
      have : isSpace3 b2 b1 b0 = true := h3
      simp [cleanG, this]
    · have := ih h hr3
      rw [List.reverse_cons, List.reverse_cons, List.reverse_cons, List.append_assoc,
        List.append_assoc]
      cases hc : cleanG isAsciiSpace isSpace2 isSpace3 (r3.reverse ++ ([b2] ++ ([b1] ++ [b0])))
      · rfl
      · rw [cleanG_of_append _ _ _ _ _ hc] at this
        exact absurd this (by simp)
  | case7 b0 h1 b1 h2 b2 r3 h3 => simp [trimG, h1, h2, h3] at h

/-- A line whose trimmed text is empty is white space from its first byte on:
trimLeft leaves nothing of it. -/
theorem trimLeft_eq_nil_of_TrimSpace (l : Bytes) (h : TrimSpace l = []) : trimLeft l = [] := by
  by_contra hne
  have h1 : trimG isAsciiSpace isSpace2Rev isSpace3Rev (trimLeft l).reverse = [] := by
    rw [TrimSpace, trimRight, trimRightRev_eq_trimG] at h
    simpa using h
  have h2 := cleanG_reverse_of_trimG_nil _ h1 (by simpa using hne)
  rw [List.reverse_reverse, trimLeft_eq_trimG, cleanG_trimG] at h2
  exact absurd h2 (by simp)

theorem trail_eq_nil_of_TrimSpace (l : Bytes) (h : TrimSpace l = []) : trail l = [] := by
  rw [trail, trimLeft_eq_nil_of_TrimSpace l h]
  simp [leadG]

/-- The last byte trimRightRev removes is the first byte of a white-space
rune, which is not between 0x80 and 0xBF. -/
theorem leadG_rev_getLast (s : Bytes) (c : Nat)
    (h : (leadG isAsciiSpace isSpace2Rev isSpace3Rev s).getLast? = some c) :
    c < 0x80 ∨ 0xBF < c := by
  induction s using trimG.induct isAsciiSpace isSpace2Rev isSpace3Rev with
  | case1 => simp [leadG] at h
  | case2 b0 r1 h1 ih =>
    rw [leadG_one _ _ _ _ _ h1] at h
    cases hl : leadG isAsciiSpace isSpace2Rev isSpace3Rev r1 with
    | nil =>
      rw [hl] at h
      simp at h
      subst h
      simp [isAsciiSpace] at h1
      omega
    | cons x xs =>
      rw [hl, List.getLast?_cons_cons] at h
      exact ih (by rw [hl]; exact h)
  | case3 b0 h1 => simp [leadG, h1] at h
  | case4 b0 h1 b1 r2 h2 ih =>
    rw [leadG_two _ _ _ _ _ _ h1 h2] at h
    cases hl : leadG isAsciiSpace isSpace2Rev isSpace3Rev r2 with
    | nil =>
      rw [hl] at h
      simp at h
      subst h
      simp [isSpace2Rev, isSpace2] at h2
      omega
    | cons x xs =>
      rw [hl, List.getLast?_cons_cons, List.getLast?_cons_cons] at h
      exact ih (by rw [hl]; exact h)
  | case5 b0 h1 b1 h2 => simp [leadG, h1, h2] at h
  | case6 b0 h1 b1 h2 b2 r3 h3 ih =>
    rw [leadG_three _ _ _ _ _ _ _ h1 h2 h3] at h
    cases hl : leadG isAsciiSpace isSpace2Rev isSpace3Rev r3 with
    | nil =>
      rw [hl] at h
      simp at h
      subst h
      simp [isSpace3Rev, isSpace3] at h3
      omega
    | cons x xs =>
      rw [hl, List.getLast?_cons_cons, List.getLast?_cons_cons, List.getLast?_cons_cons] at h
      exact ih (by rw [hl]; exact h)
  | case7 b0 h1 b1 h2 b2 r3 h3 => simp [leadG, h1, h2, h3] at h

/-- A padded copy of a trimmed string is, between added bytes in front and
behind, its own trimmed text; and this is empty only for the empty string. -/
theorem TrimSpace_padIns (t j : Bytes)
    (hl : cleanG isAsciiSpace isSpace2 isSpace3 t = true)
    (hr : cleanG isAsciiSpace isSpace2Rev isSpace3Rev t.reverse = true)
    (h : PadIns t j) :
    ∃ w w2, (∀ b ∈ w, isPad b = true) ∧ (∀ b ∈ w2, isPad b = true) ∧
      j = w ++ TrimSpace j ++ w2 ∧ (TrimSpace j = [] ↔ t = []) := by
  cases t with
  | nil =>
    have hj := h.pads_of_nil
    have h0 : TrimSpace j = [] := by
      have := TrimSpace_pads_append j [] hj
      rw [List.append_nil] at this
      rw [this]
      rfl
    exact ⟨j, [], hj, by simp, by simp [h0], by simp [h0]⟩
  | cons b t =>
    obtain ⟨w, v, hw, hj, hv⟩ := h.head
    have hc1 : cleanG isAsciiSpace isSpace2 isSpace3 (b :: v) = true :=
      cleanG_padIns _ _ _ isSpace2_pad isSpace3_pad b t v hl hv
    have hrev : PadIns (b :: t).reverse (b :: v).reverse := (PadIns.keep b hv).reverse
    cases hre : (b :: t).reverse with
    | nil => simp at hre
    | cons e r =>
      rw [hre] at hrev hr
      obtain ⟨w2, v2, hw2, hj2, hv2⟩ := hrev.head
      have hc2 : cleanG isAsciiSpace isSpace2Rev isSpace3Rev (e :: v2) = true :=
        cleanG_padIns _ _ _ isSpace2Rev_pad isSpace3Rev_pad e r v2 hr hv2
      have hT : TrimSpace j = (e :: v2).reverse := by
        rw [TrimSpace_eq, hj, trimG_pads _ _ _ isAsciiSpace_of_isPad w _ hw,
          trimG_of_cleanG _ _ _ _ hc1, hj2, trimG_pads _ _ _ isAsciiSpace_of_isPad w2 _ hw2,
          trimG_of_cleanG _ _ _ _ hc2]
      have hbv : b :: v = (e :: v2).reverse ++ w2.reverse := by
        have := congrArg List.reverse hj2
        rw [List.reverse_reverse, List.reverse_append] at this
        exact this
      refine ⟨w, w2.reverse, hw, by simpa using hw2, ?_, ?_⟩
      · rw [hT, hj, hbv, List.append_assoc]
      · rw [hT]
        simp

/-- Padding around a token does not change the trimmed token. -/
theorem TrimSpace_pad_token (p t q : Bytes) (hp : ∀ b ∈ p, isPad b = true)
    (hq : ∀ b ∈ q, isPad b = true) : TrimSpace (p ++ t ++ q) = TrimSpace t := by
  rw [TrimSpace_append_pads _ q hq, TrimSpace_pads_append p t hp]

theorem map_TrimSpace_padTokens (pads : List (Bytes × Bytes)) (ts : List Bytes)
    (hpads : ∀ pq ∈ pads, (∀ b ∈ pq.1, isPad b = true) ∧ ∀ b ∈ pq.2, isPad b = true) :
    (padTokens pads ts).map TrimSpace = ts.map TrimSpace := by
  induction ts generalizing pads with
  | nil => cases pads <;> simp [padTokens]
  | cons t ts ih =>
    cases pads with
    | nil => simp [padTokens]
    | cons pq ps =>
      obtain ⟨p, q⟩ := pq
      have h1 := hpads (p, q) (List.mem_cons_self _ _)
      simp only [padTokens, List.map_cons]
      rw [TrimSpace_pad_token p t q h1.1 h1.2,
        ih ps fun x hx => hpads x (List.mem_cons_of_mem _ hx)]

/-- The trimmed text of a padded line is that of its padded tokens: the added
bytes and the white space of the line in front and behind are trimmed away. -/
theorem TrimSpace_padded_line (l j front back : Bytes)
    (hf : ∀ b ∈ front, isPad b = true) (hb : ∀ b ∈ back, isPad b = true)
    (h : PadIns (TrimSpace l) j) :
    TrimSpace (front ++ lead l ++ j ++ trail l ++ back) = TrimSpace j := by
  obtain ⟨w, w2, hw, hw2, hj, hnil⟩ :=
    TrimSpace_padIns _ j (cleanG_TrimSpace l) (cleanG_TrimSpace_reverse l) h
  have hfront : trimLeft (front ++ lead l ++ j ++ trail l ++ back) =
      trimLeft (j ++ (trail l ++ back)) := by
    rw [List.append_assoc, List.append_assoc, List.append_assoc, trimLeft_pads front _ hf,
      lead, trimLeft_eq_trimG, trimG_leadG_append, ← trimLeft_eq_trimG]
  by_cases ht : TrimSpace l = []
  · have hj0 : TrimSpace j = [] := hnil.mpr ht
    rw [ht] at h
    have hall : ∀ b ∈ j ++ (trail l ++ back), isPad b = true := by
      rw [trail_eq_nil_of_TrimSpace l ht]
      intro b hb1
      rcases List.mem_append.mp hb1 with h1 | h1
      · exact h.pads_of_nil b h1
      · exact hb b (by simpa using h1)
    rw [TrimSpace, hfront, trimLeft_all_pads _ hall, hj0]
    rfl
  · have hj0 : TrimSpace j ≠ [] := fun h0 => ht (hnil.mp h0)
    have hjl : trimLeft j ≠ [] := by
      intro h0
      apply hj0
      rw [TrimSpace, h0]
      rfl
    have hy : ∀ c, (trail l ++ back).head? = some c →
        (∀ b, isSpace2 b c = false) ∧
          ∀ b d, isSpace3 b c d = false ∧ isSpace3 b d c = false := by
      intro c hc
      apply isSpace_not_continuation
      cases htr : trail l with
      | nil =>
        rw [htr, List.nil_append] at hc
        exact isPad_not_continuation c (hb c (List.mem_of_mem_head? hc))
      | cons x xs =>
        rw [htr, List.cons_append, List.head?_cons] at hc
        have hx : (trail l).head? = some c := by rw [htr, List.head?_cons]; exact hc
        rw [trail, List.head?_reverse] at hx
        exact leadG_rev_getLast _ c hx
    have happ := trimG_append isAsciiSpace isSpace2 isSpace3 j (trail l ++ back) hy
    rw [← trimLeft_eq_trimG, ← trimLeft_eq_trimG, ← trimLeft_eq_trimG, if_neg hjl] at happ
    rw [TrimSpace, hfront, happ, trimRight, List.reverse_append, List.reverse_append,
      List.append_assoc, trimRightRev_pads _ _ (by simpa using hb), trail,
      List.reverse_reverse]
    have hpeel := trimG_leadG_append isAsciiSpace isSpace2Rev isSpace3Rev
      (trimLeft l).reverse (trimLeft j).reverse
    rw [trimRightRev_eq_trimG, hpeel, ← trimRightRev_eq_trimG]
    rfl

/-! ### Cutting a padded line at the separator -/

theorem Index_nil (sep : Bytes) (hsep : sep ≠ []) : Index [] sep = none := by
  simp [Index, hsep]

theorem Index_cons_of_not_head (c : Nat) (cs sep : Bytes)
    (h : sep.isPrefixOf (c :: cs) = false) :
    Index (c :: cs) sep = (Index cs sep).map (· + 1) := by
  rw [Index, if_neg (by simp [h])]

theorem Index_head (s sep : Bytes) (hsep : sep ≠ []) (h : sep.isPrefixOf s = true) :
    Index s sep = some 0 := by
  cases s with
  | nil =>
    cases sep with
    | nil => exact absurd rfl hsep
    | cons c sep => simp [List.isPrefixOf] at h
  | cons c cs => rw [Index, if_pos h]

theorem isPrefixOf_pad_cons (p : Nat) (s sep : Bytes) (hsep : sep ≠ [])
    (hpad : ∀ b ∈ sep, isPad b = false) (hp : isPad p = true) :
    sep.isPrefixOf (p :: s) = false := by
  cases sep with
  | nil => exact absurd rfl hsep
  | cons c sep =>
    have hc := hpad c (List.mem_cons_self _ _)
    have : c ≠ p := by
      intro h
      rw [h, hp] at hc
      simp at hc
    simp [List.isPrefixOf, this]

/-- No separator starts in added bytes: they shift the first separator. -/
theorem Index_pads_append (w s sep : Bytes) (hsep : sep ≠ [])
    (hpad : ∀ b ∈ sep, isPad b = false) (hw : ∀ b ∈ w, isPad b = true) :
    Index (w ++ s) sep = (Index s sep).map (· + w.length) := by
  induction w with
  | nil => simp
  | cons p w ih =>
    rw [List.cons_append, Index_cons_of_not_head _ _ _
        (isPrefixOf_pad_cons p _ sep hsep hpad (hw p (List.mem_cons_self _ _))),
      ih fun b hb => hw b (List.mem_cons_of_mem _ hb)]
    cases Index s sep with
    | none => rfl
    | some m => simp [Nat.add_assoc]

theorem Index_le (s sep : Bytes) (m : Nat) (h : Index s sep = some m) :
    m + sep.length ≤ s.length := by
  induction s generalizing m with
  | nil =>
    rw [Index] at h
    split at h
    · rename_i h0
      simp at h
      subst h
      simp [h0]
    · simp at h
  | cons c cs ih =>
    rw [Index] at h
    split at h
    · rename_i h0
      simp at h
      subst h
      have := (List.isPrefixOf_iff_prefix.mp h0).length_le
      simpa using this
    · cases hi : Index cs sep with
      | none => rw [hi] at h; simp at h
      | some k =>
        rw [hi] at h
        simp at h
        subst h
        have := ih k hi
        simp only [List.length_cons]
        omega

/-- The string is what stands in front of its first separator, the separator,
and what stands behind it. -/
theorem Index_spec (s sep : Bytes) (m : Nat) (h : Index s sep = some m) :
    s = s.take m ++ sep ++ s.drop (m + sep.length) := by
  induction s generalizing m with
  | nil =>
    rw [Index] at h
    split at h
    · rename_i h0
      simp [h0]
    · simp at h
  | cons c cs ih =>
    rw [Index] at h
    split at h
    · rename_i h0
      simp at h
      subst h
      obtain ⟨t, ht⟩ := List.isPrefixOf_iff_prefix.mp h0
      rw [← ht]
      simp
    · cases hi : Index cs sep with
      | none => rw [hi] at h; simp at h
      | some k =>
        rw [hi] at h
        simp at h
        subst h
        have := ih k hi
        have e : k + 1 + sep.length = (k + sep.length) + 1 := by omega
        rw [e, List.take_succ_cons, List.drop_succ_cons, List.cons_append, List.cons_append,
          ← this]

theorem splitLoop_ne_nil (n : Nat) (s sep : Bytes) : splitLoop n s sep ≠ [] := by
  cases n with
  | zero => simp [splitLoop]
  | succ n =>
    rw [splitLoop]
    split <;> simp

/-- The bound on the number of cuts does not matter once it is the length of
the string. -/
theorem splitLoop_fuel (sep : Bytes) (hsep : sep ≠ []) (n m : Nat) (s : Bytes)
    (hn : s.length ≤ n) (hm : s.length ≤ m) : splitLoop n s sep = splitLoop m s sep := by
  induction n generalizing m s with
  | zero =>
    have hs : s = [] := List.length_eq_zero.mp (by omega)
    subst hs
    cases m with
    | zero => rfl
    | succ m => simp [splitLoop, Index_nil sep hsep]
  | succ n ih =>
    cases m with
    | zero =>
      have hs : s = [] := List.length_eq_zero.mp (by omega)
      subst hs
      simp [splitLoop, Index_nil sep hsep]
    | succ m =>
      rw [splitLoop, splitLoop]
      cases hi : Index s sep with
      | none => rfl
      | some k =>
        simp only
        have hle := Index_le s sep k hi
        have hpos : 0 < sep.length := List.length_pos.mpr hsep
        rw [ih m (s.drop (k + sep.length)) (by rw [List.length_drop]; omega)
          (by rw [List.length_drop]; omega)]

theorem Split_eq_splitLoop (s sep : Bytes) (hsep : sep ≠ []) (n : Nat) (hn : s.length ≤ n) :
    Split s sep = splitLoop n s sep := by
  rw [Split, if_neg hsep]
  exact splitLoop_fuel sep hsep _ _ s (Nat.le_refl _) hn

theorem joinSep_cons (sep t : Bytes) (ts : List Bytes) (h : ts ≠ []) :
    joinSep sep (t :: ts) = t ++ sep ++ joinSep sep ts := by
  cases ts with
  | nil => exact absurd rfl h
  | cons t2 ts => rw [joinSep]

/-- The tokens of a string, joined with the separator, are the string. -/
theorem joinSep_splitLoop (n : Nat) (s sep : Bytes) : joinSep sep (splitLoop n s sep) = s := by
  induction n generalizing s with
  | zero => simp [splitLoop, joinSep]
  | succ n ih =>
    rw [splitLoop]
    cases hi : Index s sep with
    | none => simp [joinSep]
    | some m =>
      simp only
      rw [joinSep_cons _ _ _ (splitLoop_ne_nil _ _ _), ih]
      exact (Index_spec s sep m hi).symm

theorem joinSep_Split (s sep : Bytes) (hsep : sep ≠ []) : joinSep sep (Split s sep) = s := by
  rw [Split, if_neg hsep]
  exact joinSep_splitLoop _ s sep

theorem padTokens_length (pads : List (Bytes × Bytes)) (ts : List Bytes) :
    (padTokens pads ts).length = ts.length := by
  induction ts generalizing pads with
  | nil => cases pads <;> simp [padTokens]
  | cons t ts ih =>
    cases pads with
    | nil => simp [padTokens]
    | cons pq ps => simp [padTokens, ih]

theorem padTokens_ne_nil (pads : List (Bytes × Bytes)) (ts : List Bytes) (h : ts ≠ []) :
    padTokens pads ts ≠ [] := by
  intro h0
  have := padTokens_length pads ts
  rw [h0] at this
  exact h (List.length_eq_zero.mp this.symm)

theorem padTokens_nil (ts : List Bytes) : padTokens [] ts = ts := by
  cases ts <;> rfl

theorem padTokens_nil_cons (t : Bytes) (ts : List Bytes) :
    padTokens [] (t :: ts) = padTokens [([], [])] (t :: ts) := by
  cases ts <;> simp [padTokens]

/-- The padded tokens, joined, are a padded copy of the joined tokens. -/
theorem PadIns.of_padTokens (sep : Bytes) (pads : List (Bytes × Bytes)) (ts : List Bytes)
    (hpads : ∀ pq ∈ pads, (∀ b ∈ pq.1, isPad b = true) ∧ ∀ b ∈ pq.2, isPad b = true) :
    PadIns (joinSep sep ts) (joinSep sep (padTokens pads ts)) := by
  induction ts generalizing pads with
  | nil => cases pads <;> exact PadIns.refl _
  | cons t ts ih =>
    cases pads with
    | nil => exact PadIns.refl _
    | cons pq ps =>
      obtain ⟨p, q⟩ := pq
      have h1 := hpads (p, q) (List.mem_cons_self _ _)
      have hps := ih ps fun x hx => hpads x (List.mem_cons_of_mem _ hx)
      have hpt : PadIns t (p ++ t ++ q) := by
        have := ((PadIns.of_pads p h1.1).append (PadIns.refl t)).append (PadIns.of_pads q h1.2)
        simpa using this
      by_cases hts : ts = []
      · subst hts
        simpa [padTokens, joinSep] using hpt
      · simp only [padTokens]
        rw [joinSep_cons _ _ _ hts, joinSep_cons _ _ _ (padTokens_ne_nil ps ts hts)]
        exact (hpt.append (PadIns.refl sep)).append hps

/-- The first separator of a padded line stands behind the padded first
token. -/
theorem Index_padded_cut (sep t q r r2 : Bytes) (hsep : sep ≠ [])
    (hpad : ∀ b ∈ sep, isPad b = false) (hq : ∀ b ∈ q, isPad b = true)
    (hr : PadIns r r2) (h : Index (t ++ (sep ++ r)) sep = some t.length) :
    Index (t ++ (q ++ (sep ++ r2))) sep = some (t.length + q.length) := by
  induction t with
  | nil =>
    rw [List.nil_append, Index_pads_append q _ sep hsep hpad hq,
      Index_head _ sep hsep (by
        rw [List.isPrefixOf_iff_prefix]
        exact List.prefix_append _ _)]
    simp
  | cons c t ih =>
    rw [List.cons_append] at h ⊢
    have hno : sep.isPrefixOf (c :: (t ++ (sep ++ r))) = false := by
      cases hp : sep.isPrefixOf (c :: (t ++ (sep ++ r)))
      · rfl
      · rw [Index, if_pos hp] at h
        simp at h
    rw [Index_cons_of_not_head _ _ _ hno] at h
    have hno2 : sep.isPrefixOf (c :: (t ++ (q ++ (sep ++ r2)))) = false := by
      cases hp : sep.isPrefixOf (c :: (t ++ (q ++ (sep ++ r2))))
      · rfl
      · have hins : PadIns (c :: (t ++ (sep ++ r))) (c :: (t ++ (q ++ (sep ++ r2)))) := by
          refine PadIns.keep c ((PadIns.refl t).append ?_)
          have := (PadIns.of_pads q hq).append ((PadIns.refl sep).append hr)
          simpa using this
        rw [hins.isPrefixOf sep hpad hp] at hno
        exact absurd hno (by simp)
    rw [Index_cons_of_not_head _ _ _ hno2]
    cases hi : Index (t ++ (sep ++ r)) sep with
    | none => rw [hi] at h; simp at h
    | some k =>
      rw [hi] at h
      simp at h
      subst h
      rw [ih hi]
      simp only [List.length_cons, Option.map_some']
      congr 1
      omega

/-- A last token keeps no separator when it is padded behind. -/
theorem Index_padded_last (sep t q : Bytes) (hsep : sep ≠ [])
    (hpad : ∀ b ∈ sep, isPad b = false) (hq : ∀ b ∈ q, isPad b = true)
    (h : Index t sep = none) : Index (t ++ q) sep = none := by
  induction t with
  | nil =>
    have := Index_pads_append q [] sep hsep hpad hq
    rw [List.append_nil, Index_nil sep hsep] at this
    simpa using this
  | cons c t ih =>
    have hno : sep.isPrefixOf (c :: t) = false := by
      cases hp : sep.isPrefixOf (c :: t)
      · rfl
      · rw [Index, if_pos hp] at h
        simp at h
    rw [Index_cons_of_not_head _ _ _ hno] at h
    have hno2 : sep.isPrefixOf (c :: (t ++ q)) = false := by
      cases hp : sep.isPrefixOf (c :: (t ++ q))
      · rfl
      · have hins : PadIns (c :: t) (c :: (t ++ q)) := by
          refine PadIns.keep c ?_
          have := (PadIns.refl t).append (PadIns.of_pads q hq)
          simpa using this
        rw [hins.isPrefixOf sep hpad hp] at hno
        exact absurd hno (by simp)
    rw [List.cons_append, Index_cons_of_not_head _ _ _ hno2]
    cases hi : Index t sep with
    | none => rw [ih hi]; rfl
    | some k => rw [hi] at h; simp at h

theorem splitLoop_of_none (n : Nat) (s sep : Bytes) (h : Index s sep = none) :
    splitLoop n s sep = [s] := by
  cases n with
  | zero => rfl
  | succ n => rw [splitLoop, h]

theorem splitLoop_of_cut (n : Nat) (x y sep : Bytes)
    (h : Index (x ++ (sep ++ y)) sep = some x.length) :
    splitLoop (n + 1) (x ++ (sep ++ y)) sep = x :: splitLoop n y sep := by
  rw [splitLoop, h]
  simp only
  rw [List.take_left, ← List.append_assoc, ← List.length_append, List.drop_left]

/-- The tokens of the padded line are the padded tokens of the line. -/
theorem splitLoop_padTokens (sep : Bytes) (hsep : sep ≠ [])
    (hpad : ∀ b ∈ sep, isPad b = false) (n : Nat) (s : Bytes) (pads : List (Bytes × Bytes))
    (k : Nat)
    (hpads : ∀ pq ∈ pads, (∀ b ∈ pq.1, isPad b = true) ∧ ∀ b ∈ pq.2, isPad b = true)
    (hn : s.length ≤ n)
    (hk : (joinSep sep (padTokens pads (splitLoop n s sep))).length ≤ k) :
    splitLoop k (joinSep sep (padTokens pads (splitLoop n s sep))) sep =
      padTokens pads (splitLoop n s sep) := by
  induction n generalizing s pads k with
  | zero =>
    have hs : s = [] := List.length_eq_zero.mp (by omega)
    subst hs
    cases pads with
    | nil => exact splitLoop_of_none _ _ _ (Index_nil sep hsep)
    | cons pq ps =>
      obtain ⟨p, q⟩ := pq
      have h1 := hpads (p, q) (List.mem_cons_self _ _)
      simp only [splitLoop, padTokens, joinSep]
      apply splitLoop_of_none
      have := Index_pads_append (p ++ [] ++ q) [] sep hsep hpad (by
        intro b hb
        simp only [List.append_nil, List.mem_append] at hb
        rcases hb with hb | hb
        · exact h1.1 b hb
        · exact h1.2 b hb)
      rw [List.append_nil, Index_nil sep hsep] at this
      simpa using this
  | succ n ih =>
    cases hi : Index s sep with
    | none =>
      rw [splitLoop, hi]
      simp only
      cases pads with
      | nil => exact splitLoop_of_none _ _ _ hi
      | cons pq ps =>
        obtain ⟨p, q⟩ := pq
        have h1 := hpads (p, q) (List.mem_cons_self _ _)
        simp only [padTokens, joinSep]
        apply splitLoop_of_none
        rw [List.append_assoc, Index_pads_append p _ sep hsep hpad h1.1,
          Index_padded_last sep s q hsep hpad h1.2 hi]
        rfl
    | some m =>
      have hle := Index_le s sep m hi
      have hpos : 0 < sep.length := List.length_pos.mpr hsep
      have hspec := Index_spec s sep m hi
      have hrest : (s.drop (m + sep.length)).length ≤ n := by
        rw [List.length_drop]; omega
      have key : ∀ (p q : Bytes) (ps : List (Bytes × Bytes)),
          (∀ b ∈ p, isPad b = true) → (∀ b ∈ q, isPad b = true) →
          (∀ pq ∈ ps, (∀ b ∈ pq.1, isPad b = true) ∧ ∀ b ∈ pq.2, isPad b = true) →
          ∀ k, (joinSep sep ((p ++ s.take m ++ q) ::
              padTokens ps (splitLoop n (s.drop (m + sep.length)) sep))).length ≤ k →
          splitLoop k (joinSep sep ((p ++ s.take m ++ q) ::
              padTokens ps (splitLoop n (s.drop (m + sep.length)) sep))) sep =
            (p ++ s.take m ++ q) ::
              padTokens ps (splitLoop n (s.drop (m + sep.length)) sep) := by
        intro p q ps hp hq hps k hk
        have hne := padTokens_ne_nil ps _ (splitLoop_ne_nil n (s.drop (m + sep.length)) sep)
        rw [joinSep_cons _ _ _ hne] at hk ⊢
        have hins : PadIns (s.drop (m + sep.length))
            (joinSep sep (padTokens ps (splitLoop n (s.drop (m + sep.length)) sep))) := by
          have := PadIns.of_padTokens sep ps (splitLoop n (s.drop (m + sep.length)) sep) hps
          rw [joinSep_splitLoop] at this
          exact this
        have hcut0 : Index (s.take m ++ (sep ++ s.drop (m + sep.length))) sep =
            some (s.take m).length := by
          rw [← List.append_assoc, ← hspec, hi, List.length_take]
          congr 1
          omega
        have hcut := Index_padded_cut sep (s.take m) q _ _ hsep hpad hq hins hcut0
        have hcut2 : Index ((p ++ s.take m ++ q) ++ (sep ++
            joinSep sep (padTokens ps (splitLoop n (s.drop (m + sep.length)) sep)))) sep =
            some (p ++ s.take m ++ q).length := by
          rw [List.append_assoc, List.append_assoc, Index_pads_append p _ sep hsep hpad hp,
            List.append_assoc, hcut]
          simp only [Option.map_some', List.length_append]
          congr 1
          omega
        rw [List.append_assoc] at hk ⊢
        cases k with
        | zero =>
          simp only [List.length_append] at hk
          omega
        | succ k =>
          rw [splitLoop_of_cut k _ _ sep hcut2]
          congr 1
          apply ih _ ps k hps hrest
          simp only [List.length_append] at hk
          omega
      rw [splitLoop, hi] at hk ⊢
      simp only at hk ⊢
      cases pads with
      | nil =>
        have := key [] [] [] (by simp) (by simp) (by simp) k (by
          simpa [padTokens_nil] using hk)
        simpa [padTokens_nil] using this
      | cons pq ps =>
        obtain ⟨p, q⟩ := pq
        have h1 := hpads (p, q) (List.mem_cons_self _ _)
        simp only [padTokens] at hk ⊢
        exact key p q ps h1.1 h1.2 (fun x hx => hpads x (List.mem_cons_of_mem _ hx)) k hk

theorem Split_ne_nil (s sep : Bytes) (hsep : sep ≠ []) : Split s sep ≠ [] := by
  rw [Split, if_neg hsep]
  exact splitLoop_ne_nil _ _ _

theorem Split_padTokens (sep : Bytes) (hsep : sep ≠ []) (hpad : ∀ b ∈ sep, isPad b = false)
    (s : Bytes) (pads : List (Bytes × Bytes))
    (hpads : ∀ pq ∈ pads, (∀ b ∈ pq.1, isPad b = true) ∧ ∀ b ∈ pq.2, isPad b = true) :
    Split (joinSep sep (padTokens pads (Split s sep))) sep = padTokens pads (Split s sep) := by
  rw [Split_eq_splitLoop s sep hsep s.length (Nat.le_refl _),
    Split_eq_splitLoop _ sep hsep _ (Nat.le_refl _)]
  exact splitLoop_padTokens sep hsep hpad _ s pads _ hpads (Nat.le_refl _) (Nat.le_refl _)

/-- The trimmed tokens of a padded line are the trimmed tokens of the line. -/
theorem map_TrimSpace_Split_padTokens (sep : Bytes) (hsep : sep ≠ [])
    (hpad : ∀ b ∈ sep, isPad b = false) (s : Bytes) (pads : List (Bytes × Bytes))
    (hpads : ∀ pq ∈ pads, (∀ b ∈ pq.1, isPad b = true) ∧ ∀ b ∈ pq.2, isPad b = true) :
    (Split (joinSep sep (padTokens pads (Split s sep))) sep).map TrimSpace =
      (Split s sep).map TrimSpace := by
  rw [Split_padTokens sep hsep hpad s pads hpads, map_TrimSpace_padTokens pads _ hpads]

theorem joinSep_pad_front (sep w : Bytes) (ts : List Bytes) (h : ts ≠ []) :
    joinSep sep (padTokens [(w, [])] ts) = w ++ joinSep sep ts := by
  cases ts with
  | nil => exact absurd rfl h
  | cons t ts =>
    cases ts with
    | nil => simp [padTokens, joinSep]
    | cons t2 ts => simp [padTokens, joinSep]

theorem joinSep_pad_back (sep w : Bytes) (hw : ∀ b ∈ w, isPad b = true) (ts : List Bytes)
    (h : ts ≠ []) :
    ∃ pads : List (Bytes × Bytes),
      (∀ pq ∈ pads, (∀ b ∈ pq.1, isPad b = true) ∧ ∀ b ∈ pq.2, isPad b = true) ∧
      joinSep sep (padTokens pads ts) = joinSep sep ts ++ w := by
  induction ts with
  | nil => exact absurd rfl h
  | cons t ts ih =>
    by_cases hts : ts = []
    · subst hts
      refine ⟨[([], w)], ?_, by simp [padTokens, joinSep]⟩
      intro pq hpq
      simp only [List.mem_singleton] at hpq
      subst hpq
      exact ⟨by simp, hw⟩
    · obtain ⟨pads, hp, hj⟩ := ih hts
      refine ⟨([], []) :: pads, ?_, ?_⟩
      · intro pq hpq
        rcases List.mem_cons.mp hpq with h1 | h1
        · subst h1
          simp
        · exact hp pq h1
      · simp only [padTokens]
        rw [joinSep_cons _ _ _ (padTokens_ne_nil pads ts hts), joinSep_cons _ _ _ hts, hj]
        simp

theorem map_TrimSpace_Split_pads_append (sep : Bytes) (hsep : sep ≠ [])
    (hpad : ∀ b ∈ sep, isPad b = false) (w s : Bytes) (hw : ∀ b ∈ w, isPad b = true) :
    (Split (w ++ s) sep).map TrimSpace = (Split s sep).map TrimSpace := by
  have h := map_TrimSpace_Split_padTokens sep hsep hpad s [(w, [])] (by
    intro pq hpq
    simp only [List.mem_singleton] at hpq
    subst hpq
    exact ⟨hw, by simp⟩)
  rw [joinSep_pad_front sep w _ (Split_ne_nil s sep hsep), joinSep_Split s sep hsep] at h
  exact h

theorem map_TrimSpace_Split_append_pads (sep : Bytes) (hsep : sep ≠ [])
    (hpad : ∀ b ∈ sep, isPad b = false) (s w : Bytes) (hw : ∀ b ∈ w, isPad b = true) :
    (Split (s ++ w) sep).map TrimSpace = (Split s sep).map TrimSpace := by
  obtain ⟨pads, hp, hj⟩ := joinSep_pad_back sep w hw _ (Split_ne_nil s sep hsep)
  have h := map_TrimSpace_Split_padTokens sep hsep hpad s pads hp
  rw [hj, joinSep_Split s sep hsep] at h
  exact h

/-- Padding around the tokens of a line and around the line changes neither
whether the line is blank nor its trimmed tokens. -/
theorem padLine_tokens (sep : Bytes) (hsep : sep ≠ []) (hpad : ∀ b ∈ sep, isPad b = false)
    (w : LinePad) (hw : w.isPadding = true) (l : Bytes) :
    ((TrimSpace (padLine sep w l)).length = 0 ↔ (TrimSpace l).length = 0) ∧
    (Split (TrimSpace (padLine sep w l)) sep).map TrimSpace =
      (Split (TrimSpace l) sep).map TrimSpace := by
  simp only [LinePad.isPadding, Bool.and_eq_true, List.all_eq_true] at hw
  obtain ⟨⟨hf, hb⟩, ht⟩ := hw
  have hpads : ∀ pq ∈ w.tokens, (∀ b ∈ pq.1, isPad b = true) ∧ ∀ b ∈ pq.2, isPad b = true :=
    fun pq hpq => ht pq hpq
  have hins : PadIns (TrimSpace l)
      (joinSep sep (padTokens w.tokens (Split (TrimSpace l) sep))) := by
    have := PadIns.of_padTokens sep w.tokens (Split (TrimSpace l) sep) hpads
    rw [joinSep_Split _ sep hsep] at this
    exact this
  have htrim : TrimSpace (padLine sep w l) =
      TrimSpace (joinSep sep (padTokens w.tokens (Split (TrimSpace l) sep))) :=
    TrimSpace_padded_line l _ w.front w.back hf hb hins
  obtain ⟨w1, w2, hw1, hw2, hj, hnil⟩ :=
    TrimSpace_padIns _ _ (cleanG_TrimSpace l) (cleanG_TrimSpace_reverse l) hins
  refine ⟨?_, ?_⟩
  · rw [htrim, List.length_eq_zero, List.length_eq_zero]
    exact hnil
  · rw [htrim, ← map_TrimSpace_Split_padTokens sep hsep hpad (TrimSpace l) w.tokens hpads]
    conv_rhs => rw [hj]
    rw [List.append_assoc, map_TrimSpace_Split_pads_append sep hsep hpad w1 _ hw1,
      map_TrimSpace_Split_append_pads sep hsep hpad _ w2 hw2]

/-! ### Padded files -/

/-- Without added bytes the line stays as it is. -/
theorem padLine_no_padding (sep : Bytes) (hsep : sep ≠ []) (l : Bytes) :
    padLine sep ⟨[], [], []⟩ l = l := by
  simp only [padLine, padTokens_nil, joinSep_Split _ sep hsep, List.nil_append,
    List.append_nil]
  exact lead_append_TrimSpace_append l

theorem padLine_no_newline (sep : Bytes) (hsep : sep ≠ []) (w : LinePad)
    (hw : w.isPadding = true) (l : Bytes) (hl : 10 ∉ l) : 10 ∉ padLine sep w l := by
  simp only [LinePad.isPadding, Bool.and_eq_true, List.all_eq_true] at hw
  obtain ⟨⟨hf, hb⟩, ht⟩ := hw
  have hpads : ∀ pq ∈ w.tokens, (∀ b ∈ pq.1, isPad b = true) ∧ ∀ b ∈ pq.2, isPad b = true :=
    fun pq hpq => ht pq hpq
  have hins : PadIns (TrimSpace l)
      (joinSep sep (padTokens w.tokens (Split (TrimSpace l) sep))) := by
    have := PadIns.of_padTokens sep w.tokens (Split (TrimSpace l) sep) hpads
    rw [joinSep_Split _ sep hsep] at this
    exact this
  have hdec := lead_append_TrimSpace_append l
  have hpad10 : isPad 10 = false := by decide
  have hsub : ∀ x : Bytes, (∀ b ∈ x, b ∈ l) → 10 ∉ x := fun x hx h => hl (hx 10 h)
  have hlead : ∀ b ∈ lead l, b ∈ l := by
    intro b hb
    rw [← hdec]
    simp [hb]
  have htrim : ∀ b ∈ TrimSpace l, b ∈ l := by
    intro b hb
    rw [← hdec]
    simp [hb]
  have htrail : ∀ b ∈ trail l, b ∈ l := by
    intro b hb
    rw [← hdec]
    simp [hb]
  intro h
  simp only [padLine, List.mem_append] at h
  rcases h with (((h | h) | h) | h) | h
  · have := hf 10 h
    rw [hpad10] at this
    exact absurd this (by simp)
  · exact hsub _ hlead h
  · rcases hins.mem 10 h with h1 | h1
    · exact hsub _ htrim h1
    · rw [hpad10] at h1
      exact absurd h1 (by simp)
  · exact hsub _ htrail h
  · have := hb 10 h
    rw [hpad10] at this
    exact absurd this (by simp)

theorem padLines_length (sep : Bytes) (ws : List LinePad) (lines : List Bytes) :
    (padLines sep ws lines).length = lines.length := by
  induction lines generalizing ws with
  | nil => cases ws <;> simp [padLines]
  | cons l ls ih =>
    cases ws with
    | nil => simp [padLines]
    | cons w ws => simp [padLines, ih]

theorem padLines_no_newline (sep : Bytes) (hsep : sep ≠ []) (ws : List LinePad)
    (hws : ∀ w ∈ ws, w.isPadding = true) (lines : List Bytes) (hnl : ∀ l ∈ lines, 10 ∉ l) :
    ∀ l ∈ padLines sep ws lines, 10 ∉ l := by
  induction lines generalizing ws with
  | nil => cases ws <;> simp [padLines]
  | cons l ls ih =>
    cases ws with
    | nil => simpa [padLines] using hnl
    | cons w ws =>
      intro x hx
      simp only [padLines, List.mem_cons] at hx
      rcases hx with hx | hx
      · rw [hx]
        exact padLine_no_newline sep hsep w (hws w (List.mem_cons_self _ _)) l
          (hnl l (List.mem_cons_self _ _))
      · exact ih ws (fun w hw => hws w (List.mem_cons_of_mem _ hw))
          (fun l hl => hnl l (List.mem_cons_of_mem _ hl)) x hx

/-- The loop over the tokens reads the tokens trimmed. -/
theorem convFieldsRO_congr (a : Arch) (segs segs2 : List Bytes) (fieldTypes : List GoType)
    (ro : List Bool) (h : segs2.map TrimSpace = segs.map TrimSpace) (n i : Nat)
    (elem : List Value) :
    convFieldsRO a segs2 fieldTypes ro n i elem = convFieldsRO a segs fieldTypes ro n i elem := by
  induction n generalizing i elem with
  | zero => rfl
  | succ n ih =>
    have hi : (segs2[i]?).map TrimSpace = (segs[i]?).map TrimSpace := by
      rw [← List.getElem?_map, ← List.getElem?_map, h]
    unfold convFieldsRO
    cases h2 : segs2[i]? with
    | none =>
      rw [h2] at hi
      cases h1 : segs[i]? with
      | none => rfl
      | some x => rw [h1] at hi; simp at hi
    | some y =>
      rw [h2] at hi
      cases h1 : segs[i]? with
      | none => rw [h1] at hi; simp at hi
      | some x =>
        rw [h1] at hi
        simp only [Option.map_some', Option.some.injEq] at hi
        cases ht : fieldTypes[i]? with
        | none => rfl
        | some t =>
          simp only [hi]
          cases convString a (TrimSpace x) t with
          | error e => rfl
          | ok v =>
            simp only
            split
            · rfl
            · exact ih (i + 1) _

/-- The scanning loop reads a line through its trimmed text being empty or
not and through its trimmed tokens. -/
theorem loadLinesRO_congr (a : Arch) (sep : Bytes) (fieldTypes : List GoType) (ro : List Bool)
    (linenum : Nat) (ls ls2 : List Bytes)
    (h : List.Forall₂ (fun l l2 =>
      ((TrimSpace l2).length = 0 ↔ (TrimSpace l).length = 0) ∧
      (Split (TrimSpace l2) sep).map TrimSpace = (Split (TrimSpace l) sep).map TrimSpace)
      ls ls2) (st : LoopState) :
    loadLinesRO a sep fieldTypes ro linenum ls2 st =
      loadLinesRO a sep fieldTypes ro linenum ls st := by
  induction h generalizing st with
  | nil => rfl
  | @cons l l2 ls ls2 hl _ ih =>
    obtain ⟨hz, hm⟩ := hl
    have hlen : (Split (TrimSpace l2) sep).length = (Split (TrimSpace l) sep).length := by
      simpa using congrArg List.length hm
    rw [loadLinesRO, loadLinesRO]
    simp only [hz, hlen, convFieldsRO_congr a _ _ fieldTypes ro hm, ih]

theorem loadLinesRO_map_dropCR (a : Arch) (sep : Bytes) (fieldTypes : List GoType)
    (ro : List Bool) (linenum : Nat) (lines : List Bytes) (st : LoopState) :
    loadLinesRO a sep fieldTypes ro linenum (lines.map dropCR) st =
      loadLinesRO a sep fieldTypes ro linenum lines st := by
  induction lines generalizing st with
  | nil => rfl
  | cons l ls ih =>
    rw [List.map_cons, loadLinesRO, loadLinesRO]
    simp only [TrimSpace_dropCR, ih]

theorem PadIns.length_le {s u : Bytes} (h : PadIns s u) : s.length ≤ u.length := by
  induction h with
  | nil => exact Nat.le_refl _
  | keep b _ ih => simp only [List.length_cons]; omega
  | ins p _ _ ih => simp only [List.length_cons]; omega

/-- A padded line is the line with spaces and tabs put in. -/
theorem padLine_padIns (sep : Bytes) (hsep : sep ≠ []) (w : LinePad)
    (hw : w.isPadding = true) (l : Bytes) : PadIns l (padLine sep w l) := by
  simp only [LinePad.isPadding, Bool.and_eq_true, List.all_eq_true] at hw
  obtain ⟨⟨hf, hb⟩, ht⟩ := hw
  have hpads : ∀ pq ∈ w.tokens, (∀ b ∈ pq.1, isPad b = true) ∧ ∀ b ∈ pq.2, isPad b = true :=
    fun pq hpq => ht pq hpq
  have hins : PadIns (TrimSpace l)
      (joinSep sep (padTokens w.tokens (Split (TrimSpace l) sep))) := by
    have := PadIns.of_padTokens sep w.tokens (Split (TrimSpace l) sep) hpads
    rw [joinSep_Split _ sep hsep] at this
    exact this
  have h := ((((PadIns.of_pads w.front hf).append (PadIns.refl (lead l))).append hins).append
    (PadIns.refl (trail l))).append (PadIns.of_pads w.back hb)
  simp only [List.nil_append, List.append_nil] at h
  rw [lead_append_TrimSpace_append l] at h
  exact h

theorem padLine_length_le (sep : Bytes) (hsep : sep ≠ []) (w : LinePad)
    (hw : w.isPadding = true) (l : Bytes) : l.length ≤ (padLine sep w l).length :=
  (padLine_padIns sep hsep w hw l).length_le

/-- Padding added behind a line. -/
theorem padLine_back (sep : Bytes) (hsep : sep ≠ []) (l back : Bytes) :
    padLine sep ⟨[], [], back⟩ l = l ++ back := by
  simp only [padLine, padTokens_nil, joinSep_Split _ sep hsep, List.nil_append]
  rw [lead_append_TrimSpace_append l]

/-- What the loader reads of a line, and whether the scanner yields the line,
are the same for a line and the padded line, when padding does not make it
too long for the scanner. -/
theorem padLine_related (sep : Bytes) (hsep : sep ≠ []) (hpad : ∀ b ∈ sep, isPad b = false)
    (w : LinePad) (hw : w.isPadding = true) (l : Bytes)
    (hfit : l.length < maxScanTokenSize → (padLine sep w l).length < maxScanTokenSize) :
    (((TrimSpace (padLine sep w l)).length = 0 ↔ (TrimSpace l).length = 0) ∧
      (Split (TrimSpace (padLine sep w l)) sep).map TrimSpace =
        (Split (TrimSpace l) sep).map TrimSpace) ∧
    ((padLine sep w l).length < maxScanTokenSize ↔ l.length < maxScanTokenSize) :=
  ⟨padLine_tokens sep hsep hpad w hw l,
    fun h => Nat.lt_of_le_of_lt (padLine_length_le sep hsep w hw l) h, hfit⟩

theorem padLines_related (sep : Bytes) (hsep : sep ≠ []) (hpad : ∀ b ∈ sep, isPad b = false)
    (ws : List LinePad) (hws : ∀ w ∈ ws, w.isPadding = true) (lines : List Bytes)
    (hfit : ∀ p ∈ lines.zip (padLines sep ws lines),
      p.1.length < maxScanTokenSize → p.2.length < maxScanTokenSize) :
    List.Forall₂ (fun l l2 =>
      (((TrimSpace l2).length = 0 ↔ (TrimSpace l).length = 0) ∧
        (Split (TrimSpace l2) sep).map TrimSpace = (Split (TrimSpace l) sep).map TrimSpace) ∧
      (l2.length < maxScanTokenSize ↔ l.length < maxScanTokenSize))
      lines (padLines sep ws lines) := by
  induction lines generalizing ws with
  | nil => cases ws <;> exact List.Forall₂.nil
  | cons l ls ih =>
    cases ws with
    | nil =>
      simp only [padLines]
      exact List.forall₂_same.mpr fun _ _ => ⟨⟨Iff.rfl, rfl⟩, Iff.rfl⟩
    | cons w ws =>
      simp only [padLines] at hfit ⊢
      refine List.Forall₂.cons
        (padLine_related sep hsep hpad w (hws w (List.mem_cons_self _ _)) l
          (hfit (l, padLine sep w l) (by simp)))
        (ih ws (fun w hw => hws w (List.mem_cons_of_mem _ hw))
          (fun p hp => hfit p (by simp [hp])))

/-- The scanner stops at the same place in two lists of lines that fit its
buffer at the same places. -/
theorem forall₂_takeWhile_fit {R : Bytes → Bytes → Prop} {ls ls2 : List Bytes}
    (h : List.Forall₂ (fun l l2 =>
      R l l2 ∧ (l2.length < maxScanTokenSize ↔ l.length < maxScanTokenSize)) ls ls2) :
    List.Forall₂ R (ls.takeWhile (fun l => decide (l.length < maxScanTokenSize)))
      (ls2.takeWhile (fun l => decide (l.length < maxScanTokenSize))) := by
  induction h with
  | nil => exact List.Forall₂.nil
  | @cons l l2 ls ls2 hl _ ih =>
    by_cases hf : l.length < maxScanTokenSize
    · have hf2 := hl.2.mpr hf
      rw [List.takeWhile_cons_of_pos (by simpa using hf),
        List.takeWhile_cons_of_pos (by simpa using hf2)]
      exact List.Forall₂.cons hl.1 ih
    · have hf2 : ¬ l2.length < maxScanTokenSize := fun h2 => hf (hl.2.mp h2)
      rw [List.takeWhile_cons_of_neg (by simpa using hf),
        List.takeWhile_cons_of_neg (by simpa using hf2)]
      exact List.Forall₂.nil

theorem rawLines_no_newline (last : Bytes) (h : 10 ∉ last) :
    rawLines last = if last = [] then [] else [last] := by
  induction last with
  | nil => rfl
  | cons c cs ih =>
    have hc : c ≠ 10 := fun e => h (by simp [e])
    have hcs : 10 ∉ cs := fun e => h (List.mem_cons_of_mem c e)
    rw [rawLines, if_neg hc, ih hcs]
    by_cases h0 : cs = []
    · simp [h0]
    · simp [h0]

/-- The lines of a file given by its newline-terminated lines and the bytes
behind its last newline. -/
theorem rawLines_file (lines : List Bytes) (last : Bytes) (hnl : ∀ l ∈ lines, 10 ∉ l)
    (hlast : 10 ∉ last) :
    rawLines (joinLines lines ++ last) = lines ++ (if last = [] then [] else [last]) := by
  rw [rawLines_joinLines_append lines last hnl, rawLines_no_newline last hlast]

theorem lineCounter_file (lines : List Bytes) (last : Bytes) (hnl : ∀ l ∈ lines, 10 ∉ l)
    (hlast : 10 ∉ last) :
    lineCounter (joinLines lines ++ last) = lines.length := by
  rw [lineCounter_joinLines_append lines last hnl]
  unfold lineCounter
  rw [List.count_eq_zero.mpr hlast]
  rfl

/-- C11 as amended: take a separator that is not empty and contains no space
and no tab, any file, and the file got from it by adding spaces and tabs in
front of and behind any tokens of its lines and around whole lines, such that
every line shorter than 64 KiB (65536 bytes) is still shorter than 64 KiB
with the padding.  Then LoadRefDat ends in the same way on both files for
every destination: the same count, the same error or none, and the same
records; in particular a file that is accepted stays accepted with the same
records.  The file is given by its newline-terminated lines and the bytes
behind its last newline. -/
theorem LoadRefDat_padding (a : Arch) (fs fs2 : FileSystem) (path path2 sep : Bytes) (s : Arg)
    (lines : List Bytes) (last : Bytes) (ws : List LinePad) (w : LinePad)
    (hsep : sep ≠ []) (h9 : 9 ∉ sep) (h32 : 32 ∉ sep)
    (hws : ∀ x ∈ ws, x.isPadding = true) (hw : w.isPadding = true)
    (hnl : ∀ l ∈ lines, 10 ∉ l) (hlast : 10 ∉ last)
    (hfit : ∀ p ∈ (lines ++ [last]).zip (padLines sep ws lines ++ [padRest sep w last]),
      p.1.length < 65536 → p.2.length < 65536)
    (hfile : fs path = some (joinLines lines ++ last))
    (hfile2 : fs2 path2 = some (joinLines (padLines sep ws lines) ++ padRest sep w last)) :
    LoadRefDat a fs2 path2 sep s = LoadRefDat a fs path sep s := by
  have hpad : ∀ b ∈ sep, isPad b = false := by
    intro b hb
    cases hp : isPad b
    · rfl
    · rcases (isPad_iff b).mp hp with h | h
      · exact absurd (h ▸ hb) h9
      · exact absurd (h ▸ hb) h32
  have hnl2 := padLines_no_newline sep hsep ws hws lines hnl
  have hlast2 : 10 ∉ padRest sep w last := by
    unfold padRest
    split
    · simp
    · exact padLine_no_newline sep hsep w hw last hlast
  have hlen : (padLines sep ws lines).length = lines.length := padLines_length sep ws lines
  have hfit1 : ∀ p ∈ lines.zip (padLines sep ws lines),
      p.1.length < maxScanTokenSize → p.2.length < maxScanTokenSize := by
    intro p hp
    apply hfit p
    rw [List.zip_append hlen.symm]
    exact List.mem_append_left _ hp
  have hfit2 : last.length < maxScanTokenSize →
      (padRest sep w last).length < maxScanTokenSize := by
    apply hfit (last, padRest sep w last)
    rw [List.zip_append hlen.symm]
    exact List.mem_append_right _ (by simp)
  have hrel1 := padLines_related sep hsep hpad ws hws lines hfit1
  have hrel : List.Forall₂ (fun l l2 =>
      (((TrimSpace l2).length = 0 ↔ (TrimSpace l).length = 0) ∧
        (Split (TrimSpace l2) sep).map TrimSpace = (Split (TrimSpace l) sep).map TrimSpace) ∧
      (l2.length < maxScanTokenSize ↔ l.length < maxScanTokenSize))
      (rawLines (joinLines lines ++ last))
      (rawLines (joinLines (padLines sep ws lines) ++ padRest sep w last)) := by
    rw [rawLines_file lines last hnl hlast, rawLines_file _ _ hnl2 hlast2]
    refine List.rel_append hrel1 ?_
    by_cases h0 : last = []
    · have h1 : padRest sep w last = [] := by simp [padRest, h0]
      rw [if_pos h0, if_pos h1]
      exact List.Forall₂.nil
    · have h1 : padRest sep w last = padLine sep w last := by simp [padRest, h0]
      have h2 : padRest sep w last ≠ [] := by
        intro e
        have := padLine_length_le sep hsep w hw last
        rw [← h1, e] at this
        exact h0 (List.length_eq_zero.mp (Nat.le_zero.mp this))
      rw [if_neg h0, if_neg h2, h1]
      rw [h1] at hfit2
      exact List.Forall₂.cons (padLine_related sep hsep hpad w hw last hfit2) List.Forall₂.nil
  have hloop : ∀ (pt : GoType) (fieldTypes : List GoType) (ro : List Bool),
      loadContentRO a sep pt fieldTypes ro
          (lineCounter (joinLines (padLines sep ws lines) ++ padRest sep w last))
          (scanLines (joinLines (padLines sep ws lines) ++ padRest sep w last)) =
        loadContentRO a sep pt fieldTypes ro (lineCounter (joinLines lines ++ last))
          (scanLines (joinLines lines ++ last)) := by
    intro pt fieldTypes ro
    rw [lineCounter_file _ _ hnl2 hlast2, lineCounter_file _ _ hnl hlast, hlen]
    unfold scanLines loadContentRO
    rw [loadLinesRO_map_dropCR, loadLinesRO_map_dropCR,
      loadLinesRO_congr a sep fieldTypes ro lines.length _ _ (forall₂_takeWhile_fit hrel)]
  have hs := state_of_content fs path _ hfile
  have hs2 := state_of_content fs2 path2 _ hfile2
  unfold LoadRefDat
  simp only [hs, hs2, hloop]

theorem LoadRefDat_padding_witness :
    LoadRefDat .bits64
        (oneFile (joinLines (padLines (utf8 "|")
          [⟨[32], [([9], [32]), ([], [32, 32]), ([9, 9], [])], [9]⟩, ⟨[9], [], [32]⟩]
          [utf8 "1|2|abc", utf8 ""]) ++
          padRest (utf8 "|") ⟨[], [([32], [])], [9]⟩ (utf8 "4|5|def")))
        (utf8 "ref.dat") (utf8 "|") (sliceArg testElem []) =
      LoadRefDat .bits64 (oneFile (joinLines [utf8 "1|2|abc", utf8 ""] ++ utf8 "4|5|def"))
        (utf8 "ref.dat") (utf8 "|") (sliceArg testElem []) :=
  LoadRefDat_padding .bits64 _ _ (utf8 "ref.dat") (utf8 "ref.dat") (utf8 "|") _
    [utf8 "1|2|abc", utf8 ""] (utf8 "4|5|def")
    [⟨[32], [([9], [32]), ([], [32, 32]), ([9, 9], [])], [9]⟩, ⟨[9], [], [32]⟩]
    ⟨[], [([32], [])], [9]⟩
    (by decide) (by decide) (by decide) (by decide) (by decide) (by decide) (by decide)
    (by decide) rfl rfl

/-- C11 as stated fails in two ways.  For the empty separator, which contains
no white space, the line is cut into its runes, and a space added behind the
token `a` of the accepted line `ab` is a token of its own, so the padded line
has three tokens for the two fields.  For the separator `|`, spaces added
behind the accepted line `x` up to 65536 bytes make the scanner stop at the
line: the call returns the count 0 and a zero record where the file without
the padding gives the count 1 and the record of the line. -/
theorem padding_adds_token_for_empty_separator :
    (padLine [] ⟨[], [([], [32])], []⟩ (utf8 "ab") = utf8 "a b" ∧
    LoadRefDat .bits64 (oneFile (utf8 "ab\n")) (utf8 "ref.dat") []
        (sliceArg [.string, .string] []) =
      .ret 1 none (sliceArg [.string, .string] [.struct [.str (utf8 "a"), .str (utf8 "b")]]) ∧
    LoadRefDat .bits64 (oneFile (utf8 "a b\n")) (utf8 "ref.dat") []
        (sliceArg [.string, .string] []) =
      .ret 1 (some (.fieldCount 1 3 2))
        (sliceArg [.string, .string] [.struct [.str [], .str []]])) ∧
    padLine (utf8 "|") ⟨[], [], List.replicate 65535 32⟩ (utf8 "x") =
      utf8 "x" ++ List.replicate 65535 32 ∧
    LoadRefDat .bits64 (oneFile (utf8 "x\n")) (utf8 "ref.dat") (utf8 "|")
        (sliceArg [.string] []) =
      .ret 1 none (sliceArg [.string] [.struct [.str (utf8 "x")]]) ∧
    LoadRefDat .bits64 (oneFile ((utf8 "x" ++ List.replicate 65535 32) ++ [10]))
        (utf8 "ref.dat") (utf8 "|") (sliceArg [.string] []) =
      .ret 0 none (sliceArg [.string] [.struct [.str []]]) :=
  ⟨by decide, padLine_back (utf8 "|") (by decide) (utf8 "x") (List.replicate 65535 32),
    by decide,
    LoadRefDat_long_first_line .bits64
      (oneFile ((utf8 "x" ++ List.replicate 65535 32) ++ [10])) (utf8 "ref.dat") (utf8 "|")
      [.string] [] (utf8 "x" ++ List.replicate 65535 32) [] (content_oneFile _ _)
      (fun h => (List.mem_append.mp h).elim (by decide)
        (newline_not_mem_replicate 65535 32 (by decide)))
      (by rw [List.length_append, List.length_replicate]; decide)⟩
end Refload
